import Mathlib

/-!
# runtime-aibom-emitter: collector and document model

A shallow embedding of `pkg/bom/bom.go` and `pkg/collector/collector.go`.

Conventions of the embedding:

* a Go `string` holding text decoded by `encoding/json` is a Lean `String`
  (a sequence of Unicode scalar values); searches for the ASCII patterns
  `"://"` and `"/"` give the same cut points on characters as on UTF-8 bytes;
  the application name, which any caller passes in, is a `ByteString`;
* a Go slice is a `List` (the `nil` slice is `[]`), `append` is `++ [x]`;
* a `*T` that may be `nil` is an `Option T`;
* a Go `int` is an `Int`;
* a `map[K]bool` used as a set is the list of its keys in insertion order;
  ranging over a map visits the keys in an order chosen by the runtime,
  which is an explicit input (`Runtime.mapOrder`);
* `time.Time` is the instant it denotes, in nanoseconds since the Unix epoch;
  the wall clock (`time.Now`) and the layout routine (`Time.Format`) are
  explicit inputs.
-/

namespace Aibom

/-! ## pkg/bom: the document model -/

/-- A Go string that a caller hands in, taken as its bytes: it need not be
valid UTF-8. -/
abbrev ByteString := List Nat

/-- Metadata describes the AIBOM itself. `Component`, the app/agent being
described, is the application name as the caller passed it. -/
structure Metadata where
  Timestamp : String
  ToolName : String
  ToolVer : String
  Component : ByteString
  deriving DecidableEq, Repr

/-- Component is a model, library, or tool used by the AI system.
The Go field `Type` is spelled `Typ` (a reserved word in Lean). -/
structure Component where
  Typ : String
  Name : String
  Version : String
  Provider : String
  BOMRef : String
  Properties : List (String × String)
  deriving DecidableEq, Repr

/-- Service is an external endpoint called by the AI system. -/
structure Service where
  Name : String
  Endpoint : String
  Provider : String
  deriving DecidableEq, Repr

/-- TimeWindow is the observation period for runtime evidence. -/
structure TimeWindow where
  Start : String
  End : String
  deriving DecidableEq, Repr

/-- RuntimeFinding is a specific observation from trace data.
The Go field `Type` is spelled `Typ` (a reserved word in Lean). -/
structure RuntimeFinding where
  Typ : String
  Component : String
  Count : Int
  FirstSeen : String
  LastSeen : String
  deriving DecidableEq, Repr

/-- Evidence records how the AIBOM was constructed. -/
structure Evidence where
  Source : String
  TraceIDs : List String
  SpanCount : Int
  Window : Option TimeWindow
  Findings : List RuntimeFinding
  deriving DecidableEq, Repr

/-- AIBOM is an AI Bill of Materials combining static and runtime evidence. -/
structure AIBOM where
  BOMFormat : String
  SpecVersion : String
  Version : Int
  Metadata : Metadata
  Components : List Component
  Services : List Service
  Evidence : Evidence
  deriving DecidableEq, Repr

/-! ## pkg/collector: the OTLP JSON mirror types -/

/-- Config controls what the collector extracts from traces. -/
structure Config where
  ModelAttrs : List String
  ProviderAttrs : List String
  ToolAttrs : List String
  EndpointAttrs : List String
  deriving DecidableEq, Repr

/-- DefaultConfig returns a config targeting standard GenAI semantic conventions. -/
def DefaultConfig : Config :=
  { ModelAttrs := ["gen_ai.request.model", "llm.model_name", "ai.model.id"]
    ProviderAttrs := ["gen_ai.system", "llm.provider", "ai.provider"]
    ToolAttrs := ["tool.name", "mcp.tool.name", "gen_ai.tool.name"]
    EndpointAttrs := ["server.address", "url.full", "http.url"] }

/-- The `kvValue` struct: `StringValue` is a `*string`, `nil` when the JSON
value is absent or `null`. -/
structure kvValue where
  StringValue : Option String
  deriving DecidableEq, Repr

/-- The `kv` struct: one attribute of a span. -/
structure kv where
  Key : String
  Value : kvValue
  deriving DecidableEq, Repr

/-- The `rawSpan` struct. -/
structure rawSpan where
  TraceID : String
  Name : String
  StartNano : String
  Attributes : List kv
  deriving DecidableEq, Repr

/-- The `scope` struct. -/
structure scope where
  Name : String
  Version : String
  deriving DecidableEq, Repr

/-- The `scopeSpan` struct: `Scope` is a `*scope`. -/
structure scopeSpan where
  Scope : Option scope
  Spans : List rawSpan
  deriving DecidableEq, Repr

/-- The `resource` struct. -/
structure resource where
  Attributes : List kv
  deriving DecidableEq, Repr

/-- The `resourceSpan` struct: `Resource` is a `*resource`. -/
structure resourceSpan where
  Resource : Option resource
  ScopeSpans : List scopeSpan
  deriving DecidableEq, Repr

/-- The `otlpExport` struct mirrors OTLP JSON. -/
structure otlpExport where
  ResourceSpans : List resourceSpan
  deriving DecidableEq, Repr

/-- The `componentKey` struct, the key of the `seen` map. -/
structure componentKey where
  typ : String
  name : String
  deriving DecidableEq, Repr

/-! ## getStr -/

/-- The inner loop of `getStr` for one candidate `c`: the string of the first
attribute whose key is `c` and whose `StringValue` is not `nil`. -/
def getStr.scan (c : String) : List kv → Option String
  | [] => none
  | a :: rest =>
    if a.Key = c ∧ a.Value.StringValue ≠ none then a.Value.StringValue
    else getStr.scan c rest

/-- The function `getStr`: candidates in the outer loop, attributes in the
inner loop, an early return at the first hit, `""` when both loops run out. -/
def getStr (attrs : List kv) : List String → String
  | [] => ""
  | c :: rest =>
    match getStr.scan c attrs with
    | some v => v
    | none => getStr attrs rest

/-! ## crypto/sha256 and the reference token -/

/-- The UTF-8 bytes of one character, as `[]byte(string)` lays them out. -/
def utf8EncodeChar (c : Char) : List Nat :=
  let v := c.toNat
  if v < 0x80 then [v]
  else if v < 0x800 then [0xC0 + v / 64, 0x80 + v % 64]
  else if v < 0x10000 then [0xE0 + v / 4096, 0x80 + (v / 64) % 64, 0x80 + v % 64]
  else [0xF0 + v / 262144, 0x80 + (v / 4096) % 64, 0x80 + (v / 64) % 64, 0x80 + v % 64]

/-- The conversion `[]byte(s)`. -/
def stringBytes (s : String) : List Nat :=
  s.data.foldr (fun c acc => utf8EncodeChar c ++ acc) []

namespace Sha256

/-- Primality by trial division. -/
def isPrime (n : Nat) : Bool :=
  decide (2 ≤ n) && (List.range n).all fun d => decide (d < 2) || n % d != 0

/-- The first `n` primes, for `n` up to 64. -/
def firstPrimes (n : Nat) : List Nat :=
  ((List.range 312).filter isPrime).take n

/-- The integer `k`-th root of `n`, built bit by bit from bit `bits - 1` down. -/
def iroot (k n : Nat) : Nat → Nat → Nat
  | 0, r => r
  | bits + 1, r => iroot k n bits (if (r + 2 ^ bits) ^ k ≤ n then r + 2 ^ bits else r)

/-- The round constants of SHA-256 (FIPS 180-4, section 4.2.2): the first 32
bits of the fractional parts of the cube roots of the first 64 primes. -/
def K : List Nat :=
  (firstPrimes 64).map fun p => iroot 3 (p * 2 ^ 96) 40 0 % 2 ^ 32

/-- The initial hash value of SHA-256 (FIPS 180-4, section 5.3.3): the first
32 bits of the fractional parts of the square roots of the first 8 primes. -/
def H0 : List Nat :=
  (firstPrimes 8).map fun p => iroot 2 (p * 2 ^ 64) 40 0 % 2 ^ 32

/-- Rotate a 32-bit word right by `n` bits. -/
def rotr (x n : Nat) : Nat := ((x >>> n) ||| (x <<< (32 - n))) % 2 ^ 32

/-- Addition of 32-bit words. -/
def add32 (x y : Nat) : Nat := (x + y) % 2 ^ 32

/-- Bitwise complement of a 32-bit word. -/
def not32 (x : Nat) : Nat := 2 ^ 32 - 1 - x % 2 ^ 32

/-- The eight big-endian bytes of a 64-bit length. -/
def be64 (n : Nat) : List Nat :=
  [n / 2 ^ 56 % 256, n / 2 ^ 48 % 256, n / 2 ^ 40 % 256, n / 2 ^ 32 % 256,
   n / 2 ^ 24 % 256, n / 2 ^ 16 % 256, n / 2 ^ 8 % 256, n % 256]

/-- The four big-endian bytes of a 32-bit word. -/
def be32 (w : Nat) : List Nat :=
  [w / 2 ^ 24 % 256, w / 2 ^ 16 % 256, w / 2 ^ 8 % 256, w % 256]

/-- Message padding: a `0x80` byte, zero bytes up to 56 modulo 64, the bit
length on 64 bits. -/
def pad (msg : List Nat) : List Nat :=
  msg ++ [0x80] ++ List.replicate ((119 - msg.length % 64) % 64) 0 ++ be64 (8 * msg.length)

/-- The sixteen big-endian words of one 64-byte block. -/
def blockWords : Nat → List Nat → List Nat
  | 0, _ => []
  | n + 1, bs =>
    (bs.getD 0 0 * 2 ^ 24 + bs.getD 1 0 * 2 ^ 16 + bs.getD 2 0 * 2 ^ 8 + bs.getD 3 0)
      :: blockWords n (bs.drop 4)

/-- Extend the message schedule `w` by `n` more words. -/
def schedule : Nat → List Nat → List Nat
  | 0, w => w
  | n + 1, w =>
    let i := w.length
    let w15 := w.getD (i - 15) 0
    let w2 := w.getD (i - 2) 0
    let s0 := rotr w15 7 ^^^ rotr w15 18 ^^^ (w15 >>> 3)
    let s1 := rotr w2 17 ^^^ rotr w2 19 ^^^ (w2 >>> 10)
    schedule n (w ++ [add32 (add32 (add32 (w.getD (i - 16) 0) s0) (w.getD (i - 7) 0)) s1])

/-- The eight working variables of the compression function. -/
structure Vars where
  a : Nat
  b : Nat
  c : Nat
  d : Nat
  e : Nat
  f : Nat
  g : Nat
  h : Nat

/-- One round of the compression function with round constant `k` and
schedule word `w`. -/
def round (v : Vars) (k w : Nat) : Vars :=
  let S1 := rotr v.e 6 ^^^ rotr v.e 11 ^^^ rotr v.e 25
  let ch := (v.e &&& v.f) ^^^ (not32 v.e &&& v.g)
  let t1 := add32 (add32 (add32 (add32 v.h S1) ch) k) w
  let S0 := rotr v.a 2 ^^^ rotr v.a 13 ^^^ rotr v.a 22
  let maj := (v.a &&& v.b) ^^^ (v.a &&& v.c) ^^^ (v.b &&& v.c)
  let t2 := add32 S0 maj
  { a := add32 t1 t2, b := v.a, c := v.b, d := v.c, e := add32 v.d t1, f := v.e, g := v.f, h := v.g }

/-- All rounds over the paired constants and schedule words. -/
def rounds (v : Vars) : List (Nat × Nat) → Vars
  | [] => v
  | (k, w) :: rest => rounds (round v k w) rest

/-- Compress one 64-byte block into the chaining value `hs`. -/
def compress (hs : List Nat) (block : List Nat) : List Nat :=
  let w := schedule 48 (blockWords 16 block)
  let v0 : Vars :=
    { a := hs.getD 0 0, b := hs.getD 1 0, c := hs.getD 2 0, d := hs.getD 3 0,
      e := hs.getD 4 0, f := hs.getD 5 0, g := hs.getD 6 0, h := hs.getD 7 0 }
  let v := rounds v0 (K.zip w)
  [add32 v0.a v.a, add32 v0.b v.b, add32 v0.c v.c, add32 v0.d v.d,
   add32 v0.e v.e, add32 v0.f v.f, add32 v0.g v.g, add32 v0.h v.h]

/-- Fold `compress` over `n` consecutive blocks. -/
def blocks : Nat → List Nat → List Nat → List Nat
  | 0, hs, _ => hs
  | n + 1, hs, bs => blocks n (compress hs (bs.take 64)) (bs.drop 64)

/-- The function `sha256.Sum256`: the 32-byte digest of a byte string. -/
def Sum256 (msg : List Nat) : List Nat :=
  let p := pad msg
  (blocks (p.length / 64) H0 p).foldr (fun w acc => be32 w ++ acc) []

end Sha256

/-- One lowercase hexadecimal digit. -/
def hexDigit (n : Nat) : Char :=
  "0123456789abcdef".data.getD n '0'

/-- The verb `%x` applied to a byte slice: two lowercase digits per byte. -/
def hexBytes (bs : List Nat) : String :=
  String.mk (bs.foldr (fun b acc => hexDigit (b / 16 % 16) :: hexDigit (b % 16) :: acc) [])

/-- The function `bomRef`: the first 8 bytes of the SHA-256 digest of
`name + ":" + version`, in hexadecimal. -/
def bomRef (name version : String) : String :=
  hexBytes ((Sha256.Sum256 (stringBytes (name ++ ":" ++ version))).take 8)

/-! ## pkg/bom: constructors -/

/-- The function `New`: a new empty AIBOM. `now` is the value of
`time.Now().UTC().Format(time.RFC3339)` at the call. -/
def New (now : String) (appName : ByteString) : AIBOM :=
  { BOMFormat := "CycloneDX-AI"
    SpecVersion := "1.6"
    Version := 1
    Metadata :=
      { Timestamp := now
        ToolName := "runtime-aibom-emitter"
        ToolVer := "0.1.0"
        Component := appName }
    Components := []
    Services := []
    Evidence :=
      { Source := "runtime_traces"
        TraceIDs := []
        SpanCount := 0
        Window := none
        Findings := [] } }

/-- The method `AddModel` adds a model component to the AIBOM. -/
def AIBOM.AddModel (b : AIBOM) (name version provider : String) : AIBOM :=
  let ref := "model-" ++ bomRef name version
  { b with Components := b.Components ++
      [{ Typ := "model", Name := name, Version := version, Provider := provider,
         BOMRef := ref, Properties := [] }] }

/-- The method `AddTool` adds a tool component to the AIBOM. -/
def AIBOM.AddTool (b : AIBOM) (name version : String) : AIBOM :=
  let ref := "tool-" ++ bomRef name version
  { b with Components := b.Components ++
      [{ Typ := "tool", Name := name, Version := version, Provider := "",
         BOMRef := ref, Properties := [] }] }

/-- The method `AddFramework` adds a framework component to the AIBOM. -/
def AIBOM.AddFramework (b : AIBOM) (name version : String) : AIBOM :=
  let ref := "framework-" ++ bomRef name version
  { b with Components := b.Components ++
      [{ Typ := "framework", Name := name, Version := version, Provider := "",
         BOMRef := ref, Properties := [] }] }

/-- The method `AddService` adds an external service/endpoint. -/
def AIBOM.AddService (b : AIBOM) (name endpoint provider : String) : AIBOM :=
  { b with Services := b.Services ++
      [{ Name := name, Endpoint := endpoint, Provider := provider }] }

/-- The method `AddFinding` adds a runtime finding. -/
def AIBOM.AddFinding (b : AIBOM) (typ component : String) (count : Int)
    (firstSeen lastSeen : String) : AIBOM :=
  { b with Evidence := { b.Evidence with Findings := b.Evidence.Findings ++
      [{ Typ := typ, Component := component, Count := count,
         FirstSeen := firstSeen, LastSeen := lastSeen }] } }

/-! ## time.Time and parseNanos -/

/-- A `time.Time`, identified with its instant: nanoseconds since the Unix
epoch (January 1, 1970 UTC). -/
structure Time where
  instant : Int
  deriving DecidableEq, Repr

/-- The zero `time.Time{}`: January 1, year 1, 00:00:00 UTC, which is
62135596800 seconds before the Unix epoch. -/
def Time.zero : Time := ⟨-62135596800 * 1000000000⟩

/-- The function `time.Unix(0, nsec)`. -/
def Time.Unix (nsec : Int) : Time := ⟨nsec⟩

/-- The method `IsZero`: whether the instant is January 1, year 1, 00:00:00 UTC. -/
def Time.IsZero (t : Time) : Bool := t.instant == Time.zero.instant

/-- The method `Before`. -/
def Time.Before (t u : Time) : Bool := decide (t.instant < u.instant)

/-- The method `After`. -/
def Time.After (t u : Time) : Bool := decide (t.instant > u.instant)

/-- The table `space` of package fmt, with the test `isSpace`. -/
def isSpace (r : Char) : Bool :=
  let x := r.toNat
  (0x0009 ≤ x ∧ x ≤ 0x000d) ∨ x = 0x0020 ∨ x = 0x0085 ∨ x = 0x00a0 ∨ x = 0x1680 ∨
  (0x2000 ≤ x ∧ x ≤ 0x200a) ∨ (0x2028 ≤ x ∧ x ≤ 0x2029) ∨ x = 0x202f ∨ x = 0x205f ∨
  x = 0x3000

/-- The method `SkipSpace` of the scan state of `Sscanf` (newlines are not
space there): the input left, or `none` for the error "unexpected newline". -/
def skipSpace : List Char → Option (List Char)
  | [] => some []
  | r :: rest =>
    if r = '\r' ∧ rest.head? = some '\n' then skipSpace rest
    else if r = '\n' then none
    else if isSpace r then skipSpace rest
    else some (r :: rest)

/-- The constant `hugeWid` of package fmt: a scan reads at most this many runes. -/
def hugeWid : Nat := 2 ^ 30

/-- The value of a run of decimal digits. -/
def decimalValue (ds : List Char) : Nat :=
  ds.foldl (fun acc d => 10 * acc + (d.toNat - '0'.toNat)) 0

/-- The verb `%d` into an `*int64`: skip space, an optional sign, one or more
decimal digits, then `strconv.ParseInt(tok, 10, 64)`; whatever follows the
digits is left unread. `none` stands for any scan error. -/
def scanInt64 (input : List Char) : Option Int :=
  match (skipSpace (input.take hugeWid)).bind skipSpace with
  | none => none
  | some [] => none
  | some (r :: rest) =>
    let neg := r = '-'
    let body := if r = '+' ∨ r = '-' then rest else r :: rest
    let digits := body.takeWhile Char.isDigit
    if digits = [] then none
    else
      let n := decimalValue digits
      if neg then (if n ≤ 2 ^ 63 then some (-(n : Int)) else none)
      else (if n ≤ 2 ^ 63 - 1 then some (n : Int) else none)

/-- The function `parseNanos`: `ns` keeps its initial 0 when `Sscanf` fails. -/
def parseNanos (s : String) : Time :=
  let ns : Int := (scanInt64 s.data).getD 0
  if ns = 0 then Time.zero else Time.Unix ns

/-! ## The runtime inputs of one call -/

/-- What a call of `CollectFromJSON` takes from the Go runtime:
the formatted wall clock read by `New`, the layout routine
`t.Format(time.RFC3339)` in the process's time zone, and the order in which
`range` visits the keys of the trace-ID map (each key once). -/
structure Runtime where
  now : String
  format : Time → String
  mapOrder : List String → List String
  mapOrder_perm : ∀ keys, (mapOrder keys).Perm keys

/-! ## Endpoint normalisation -/

/-- The function `strings.Index`: the offset of the first occurrence of `pat`
in `s`, or `-1`. Offsets count characters. -/
def stringsIndex (s pat : List Char) : Int :=
  if pat.isPrefixOf s then 0
  else match s with
    | [] => -1
    | _ :: rest =>
      let i := stringsIndex rest pat
      if i < 0 then -1 else i + 1

/-- Lines 161-167 of `CollectFromJSON`: normalize endpoint to host. -/
def endpointHost (endpoint : String) : String :=
  let host := endpoint.data
  let idx := stringsIndex endpoint.data "://".data
  let host := if idx ≥ 0 then endpoint.data.drop (idx + 3).toNat else host
  let idx := stringsIndex host "/".data
  let host := if idx ≥ 0 then host.take idx.toNat else host
  String.mk host

/-- What is left of `s` after the first occurrence of `pat`, when there is one. -/
def afterFirst (pat : List Char) (s : List Char) : Option (List Char) :=
  if pat.isPrefixOf s then some (s.drop pat.length)
  else match s with
    | [] => none
    | _ :: rest => afterFirst pat rest

/-- The reference definition of endpoint normalisation, in the words of the
specification: remove everything up to and including the first occurrence of
"://" (if any), then cut the remainder before its first "/" (if any). -/
def normalizeEndpointSpec (endpoint : String) : String :=
  String.mk (((afterFirst "://".data endpoint.data).getD endpoint.data).takeWhile (· ≠ '/'))

/-! ## CollectFromJSON -/

/-- The local variables of `CollectFromJSON` that the loops update. -/
structure Walk where
  b : AIBOM
  seen : List componentKey
  traceIDs : List String
  spanCount : Int
  earliest : Time
  latest : Time

/-- The state before the loops (lines 102-106). -/
def Walk.start (rt : Runtime) (appName : ByteString) : Walk :=
  { b := New rt.now appName
    seen := []
    traceIDs := []
    spanCount := 0
    earliest := Time.zero
    latest := Time.zero }

/-- Lines 111-117: extract the framework from the scope. -/
def scopeStep (w : Walk) (ss : scopeSpan) : Walk :=
  match ss.Scope with
  | none => w
  | some sc =>
    if sc.Name ≠ "" then
      let fwKey : componentKey := { typ := "framework", name := sc.Name }
      if fwKey ∉ w.seen then
        { w with seen := w.seen ++ [fwKey], b := w.b.AddFramework sc.Name sc.Version }
      else w
    else w

/-- Lines 120-121: count the span and put its trace ID in the set. -/
def countSpan (w : Walk) (span : rawSpan) : Walk :=
  { w with
    spanCount := w.spanCount + 1
    traceIDs :=
      if span.TraceID ∈ w.traceIDs then w.traceIDs else w.traceIDs ++ [span.TraceID] }

/-- Lines 125-132: widen the window by the timestamp `ts` unless it is zero. -/
def updateWindow (w : Walk) (ts : Time) : Walk :=
  if !ts.IsZero then
    let w : Walk :=
      if w.earliest.IsZero || ts.Before w.earliest then { w with earliest := ts } else w
    if w.latest.IsZero || ts.After w.latest then { w with latest := ts } else w
  else w

/-- Lines 137-144: record the model of a span on its first sighting. -/
def extractModel (rt : Runtime) (w : Walk) (model provider : String) (ts : Time) : Walk :=
  if model ≠ "" then
    let mKey : componentKey := { typ := "model", name := model }
    if mKey ∉ w.seen then
      { w with
        seen := w.seen ++ [mKey]
        b := (w.b.AddModel model "" provider).AddFinding "model_usage" model 1
              (rt.format ts) (rt.format ts) }
    else w
  else w

/-- Lines 148-155: record the tool of a span on its first sighting. -/
def extractTool (rt : Runtime) (w : Walk) (tool : String) (ts : Time) : Walk :=
  if tool ≠ "" then
    let tKey : componentKey := { typ := "tool", name := tool }
    if tKey ∉ w.seen then
      { w with
        seen := w.seen ++ [tKey]
        b := (w.b.AddTool tool "").AddFinding "tool_call" tool 1
              (rt.format ts) (rt.format ts) }
    else w
  else w

/-- Lines 159-173: record the endpoint of a span on the first sighting of
its host. -/
def extractEndpoint (w : Walk) (endpoint provider : String) : Walk :=
  if endpoint ≠ "" then
    let host := endpointHost endpoint
    let eKey : componentKey := { typ := "endpoint", name := host }
    if eKey ∉ w.seen then
      { w with seen := w.seen ++ [eKey], b := w.b.AddService host endpoint provider }
    else w
  else w

/-- Lines 120-173: the body of the loop over spans. -/
def spanStep (rt : Runtime) (cfg : Config) (w : Walk) (span : rawSpan) : Walk :=
  let w := countSpan w span
  let ts := parseNanos span.StartNano
  let w := updateWindow w ts
  let model := getStr span.Attributes cfg.ModelAttrs
  let provider := getStr span.Attributes cfg.ProviderAttrs
  let w := extractModel rt w model provider ts
  let tool := getStr span.Attributes cfg.ToolAttrs
  let w := extractTool rt w tool ts
  let endpoint := getStr span.Attributes cfg.EndpointAttrs
  extractEndpoint w endpoint provider

/-- Lines 110-175: the loop over the scope spans of one resource span. -/
def scopeSpansLoop (rt : Runtime) (cfg : Config) (w : Walk) (sss : List scopeSpan) : Walk :=
  sss.foldl (fun w ss => ss.Spans.foldl (spanStep rt cfg) (scopeStep w ss)) w

/-- Lines 108-176: the loop over the resource spans. -/
def resourceSpansLoop (rt : Runtime) (cfg : Config) (w : Walk) (rss : List resourceSpan) : Walk :=
  rss.foldl (fun w rs => scopeSpansLoop rt cfg w rs.ScopeSpans) w

/-- Lines 178-190: set the evidence metadata and return the AIBOM. -/
def Walk.finish (rt : Runtime) (w : Walk) : AIBOM :=
  let ev := w.b.Evidence
  let ev := { ev with TraceIDs := ev.TraceIDs ++ rt.mapOrder w.traceIDs }
  let ev := { ev with SpanCount := w.spanCount }
  let ev :=
    if !w.earliest.IsZero && !w.latest.IsZero then
      { ev with Window := some { Start := rt.format w.earliest, End := rt.format w.latest } }
    else ev
  { w.b with Evidence := ev }

/-- Lines 102-190 of `CollectFromJSON`: the aggregation pass over a parsed
export. -/
def collect (rt : Runtime) (xp : otlpExport) (appName : ByteString) (cfg : Config) : AIBOM :=
  (resourceSpansLoop rt cfg (Walk.start rt appName) xp.ResourceSpans).finish rt

/-- The function `CollectFromJSON`. `unmarshal` is `json.Unmarshal` into an
`otlpExport`, with the text of its error when it fails. -/
def CollectFromJSON (unmarshal : List Nat → Except String otlpExport) (rt : Runtime)
    (data : List Nat) (appName : ByteString) (cfg : Config) : Except String AIBOM :=
  match unmarshal data with
  | .error err => .error ("parse OTLP: " ++ err)
  | .ok xp => .ok (collect rt xp appName cfg)

/-! ## The trace in document order -/

/-- All groups (scope spans) of an export, in document order. -/
def otlpExport.allScopeSpans (xp : otlpExport) : List scopeSpan :=
  xp.ResourceSpans.flatMap fun rs => rs.ScopeSpans

/-- All spans of an export, in document order. -/
def otlpExport.allSpans (xp : otlpExport) : List rawSpan :=
  xp.allScopeSpans.flatMap fun ss => ss.Spans

/-- What the loops of `CollectFromJSON` visit: a group's scope, then each of
its spans. -/
inductive Event where
  | scope (ss : scopeSpan)
  | span (sp : rawSpan)
  deriving DecidableEq, Repr

/-- The visits of one group. -/
def scopeSpan.events (ss : scopeSpan) : List Event :=
  Event.scope ss :: ss.Spans.map Event.span

/-- The visits of an export, in document order. -/
def otlpExport.events (xp : otlpExport) : List Event :=
  xp.allScopeSpans.flatMap scopeSpan.events

/-- The loop body run at one visit. -/
def eventStep (rt : Runtime) (cfg : Config) (w : Walk) : Event → Walk
  | Event.scope ss => scopeStep w ss
  | Event.span sp => spanStep rt cfg w sp

/-- The span of a visit, if it is one. -/
def Event.span? : Event → Option rawSpan
  | Event.scope _ => none
  | Event.span sp => some sp

/-- The spans among some visits, in order. -/
def eventSpans (evs : List Event) : List rawSpan :=
  evs.filterMap Event.span?

/-- The timestamps of the spans that carry a valid (non-zero) one. -/
def validTimesOf (sps : List rawSpan) : List Time :=
  (sps.map fun sp => parseNanos sp.StartNano).filter fun t => !t.IsZero

/-- The valid timestamps of all spans of an export. -/
def otlpExport.validTimes (xp : otlpExport) : List Time :=
  validTimesOf xp.allSpans

/-! ## The dedup ledger -/

/-- The dedup bookkeeping of the walk: what the `seen` set and the lists of
the document say about each other. -/
structure Ledger (seen : List componentKey) (comps : List Component)
    (finds : List RuntimeFinding) (svcs : List Service) : Prop where
  comp_seen : ∀ c ∈ comps, (⟨c.Typ, c.Name⟩ : componentKey) ∈ seen
  comp_kind : ∀ c ∈ comps, c.Typ = "model" ∨ c.Typ = "tool" ∨ c.Typ = "framework"
  comp_nodup : (comps.map fun c => (c.Typ, c.Name)).Nodup
  finding_seen : ∀ f ∈ finds,
    (f.Typ = "model_usage" ∧ (⟨"model", f.Component⟩ : componentKey) ∈ seen) ∨
    (f.Typ = "tool_call" ∧ (⟨"tool", f.Component⟩ : componentKey) ∈ seen)
  finding_nodup : (finds.map fun f => (f.Typ, f.Component)).Nodup
  service_seen : ∀ s ∈ svcs, (⟨"endpoint", s.Name⟩ : componentKey) ∈ seen
  service_nodup : (svcs.map fun s => s.Name).Nodup
  seen_model : ∀ n, (⟨"model", n⟩ : componentKey) ∈ seen →
    (∃ c ∈ comps, c.Typ = "model" ∧ c.Name = n) ∧
    (∃ f ∈ finds, f.Typ = "model_usage" ∧ f.Component = n)
  seen_tool : ∀ n, (⟨"tool", n⟩ : componentKey) ∈ seen →
    (∃ c ∈ comps, c.Typ = "tool" ∧ c.Name = n) ∧
    (∃ f ∈ finds, f.Typ = "tool_call" ∧ f.Component = n)
  seen_framework : ∀ n, (⟨"framework", n⟩ : componentKey) ∈ seen →
    ∃ c ∈ comps, c.Typ = "framework" ∧ c.Name = n
  seen_endpoint : ∀ n, (⟨"endpoint", n⟩ : componentKey) ∈ seen →
    ∃ s ∈ svcs, s.Name = n

/-- The ledger of a walk state. -/
def Walk.Inv (w : Walk) : Prop :=
  Ledger w.seen w.b.Components w.b.Evidence.Findings w.b.Services

/-! ## What a visit records -/

/-- The Component the model block records for a span. -/
def modelComponent (cfg : Config) (sp : rawSpan) : Component :=
  { Typ := "model", Name := getStr sp.Attributes cfg.ModelAttrs, Version := "",
    Provider := getStr sp.Attributes cfg.ProviderAttrs,
    BOMRef := "model-" ++ bomRef (getStr sp.Attributes cfg.ModelAttrs) "", Properties := [] }

/-- The Finding the model block records for a span. -/
def modelFinding (rt : Runtime) (cfg : Config) (sp : rawSpan) : RuntimeFinding :=
  { Typ := "model_usage", Component := getStr sp.Attributes cfg.ModelAttrs, Count := 1,
    FirstSeen := rt.format (parseNanos sp.StartNano),
    LastSeen := rt.format (parseNanos sp.StartNano) }

/-- The Component the tool block records for a span. -/
def toolComponent (cfg : Config) (sp : rawSpan) : Component :=
  { Typ := "tool", Name := getStr sp.Attributes cfg.ToolAttrs, Version := "", Provider := "",
    BOMRef := "tool-" ++ bomRef (getStr sp.Attributes cfg.ToolAttrs) "", Properties := [] }

/-- The Finding the tool block records for a span. -/
def toolFinding (rt : Runtime) (cfg : Config) (sp : rawSpan) : RuntimeFinding :=
  { Typ := "tool_call", Component := getStr sp.Attributes cfg.ToolAttrs, Count := 1,
    FirstSeen := rt.format (parseNanos sp.StartNano),
    LastSeen := rt.format (parseNanos sp.StartNano) }

/-- The Service the endpoint block records for a span. -/
def endpointService (cfg : Config) (sp : rawSpan) : Service :=
  { Name := endpointHost (getStr sp.Attributes cfg.EndpointAttrs),
    Endpoint := getStr sp.Attributes cfg.EndpointAttrs,
    Provider := getStr sp.Attributes cfg.ProviderAttrs }

/-- The Component the framework block records for a scope. -/
def frameworkComponent (sc : scope) : Component :=
  { Typ := "framework", Name := sc.Name, Version := sc.Version, Provider := "",
    BOMRef := "framework-" ++ bomRef sc.Name sc.Version, Properties := [] }

/-- Whether the model block fires on a span in state `w`. -/
def modelIsNew (cfg : Config) (w : Walk) (sp : rawSpan) : Prop :=
  getStr sp.Attributes cfg.ModelAttrs ≠ "" ∧
    (⟨"model", getStr sp.Attributes cfg.ModelAttrs⟩ : componentKey) ∉ w.seen

/-- Whether the tool block fires on a span in state `w`. -/
def toolIsNew (cfg : Config) (w : Walk) (sp : rawSpan) : Prop :=
  getStr sp.Attributes cfg.ToolAttrs ≠ "" ∧
    (⟨"tool", getStr sp.Attributes cfg.ToolAttrs⟩ : componentKey) ∉ w.seen

/-- Whether the endpoint block fires on a span in state `w`. -/
def endpointIsNew (cfg : Config) (w : Walk) (sp : rawSpan) : Prop :=
  getStr sp.Attributes cfg.EndpointAttrs ≠ "" ∧
    (⟨"endpoint", endpointHost (getStr sp.Attributes cfg.EndpointAttrs)⟩ : componentKey) ∉ w.seen

instance (cfg : Config) (w : Walk) (sp : rawSpan) : Decidable (modelIsNew cfg w sp) := by
  unfold modelIsNew; infer_instance

instance (cfg : Config) (w : Walk) (sp : rawSpan) : Decidable (toolIsNew cfg w sp) := by
  unfold toolIsNew; infer_instance

instance (cfg : Config) (w : Walk) (sp : rawSpan) : Decidable (endpointIsNew cfg w sp) := by
  unfold endpointIsNew; infer_instance

/-- The scope a group's framework block records in state `w`, if any. -/
def newFramework (w : Walk) (ss : scopeSpan) : List scope :=
  match ss.Scope with
  | none => []
  | some sc =>
    if sc.Name ≠ "" ∧ (⟨"framework", sc.Name⟩ : componentKey) ∉ w.seen then [sc] else []

/-- Where a Component of the document comes from. -/
def Component.Origin (cfg : Config) (evs : List Event) (c : Component) : Prop :=
  (∃ sp, Event.span sp ∈ evs ∧ getStr sp.Attributes cfg.ModelAttrs ≠ "" ∧
      c = modelComponent cfg sp) ∨
  (∃ sp, Event.span sp ∈ evs ∧ getStr sp.Attributes cfg.ToolAttrs ≠ "" ∧
      c = toolComponent cfg sp) ∨
  (∃ ss sc, Event.scope ss ∈ evs ∧ ss.Scope = some sc ∧ sc.Name ≠ "" ∧
      c = frameworkComponent sc)

/-- The identities that the visits `evs` must have put in the `seen` set. -/
def Registered (cfg : Config) (evs : List Event) (seen : List componentKey) : Prop :=
  (∀ sp, Event.span sp ∈ evs → getStr sp.Attributes cfg.ModelAttrs ≠ "" →
      (⟨"model", getStr sp.Attributes cfg.ModelAttrs⟩ : componentKey) ∈ seen) ∧
  (∀ sp, Event.span sp ∈ evs → getStr sp.Attributes cfg.ToolAttrs ≠ "" →
      (⟨"tool", getStr sp.Attributes cfg.ToolAttrs⟩ : componentKey) ∈ seen) ∧
  (∀ sp, Event.span sp ∈ evs → getStr sp.Attributes cfg.EndpointAttrs ≠ "" →
      (⟨"endpoint", endpointHost (getStr sp.Attributes cfg.EndpointAttrs)⟩ : componentKey)
        ∈ seen) ∧
  (∀ ss sc, Event.scope ss ∈ evs → ss.Scope = some sc → sc.Name ≠ "" →
      (⟨"framework", sc.Name⟩ : componentKey) ∈ seen)

/-- The bounds of the walk against the valid timestamps seen so far. -/
def Bounds (ts : List Time) (earliest latest : Time) : Prop :=
  (ts = [] → earliest = Time.zero ∧ latest = Time.zero) ∧
  (ts ≠ [] → earliest ∈ ts ∧ latest ∈ ts ∧
    ∀ t ∈ ts, earliest.instant ≤ t.instant ∧ t.instant ≤ latest.instant)

/-! ## A sample trace and a sample runtime -/

/-- Two decimal digits. -/
def twoDigits (n : Nat) : String :=
  String.mk [Char.ofNat (48 + n / 10 % 10), Char.ofNat (48 + n % 10)]

/-- Four decimal digits. -/
def fourDigits (n : Nat) : String :=
  twoDigits (n / 100) ++ twoDigits n

/-- The layout `time.RFC3339` of an instant when the process runs in UTC,
for years 0 to 9999 (the civil date is computed from the day number). -/
def formatRFC3339UTC (t : Time) : String :=
  let secs := t.instant / 1000000000
  let days := secs / 86400
  let rem := (secs % 86400).toNat
  let z := days + 719468
  let era := z / 146097
  let doe := (z - era * 146097).toNat
  let yoe := (doe - doe / 1460 + doe / 36524 - doe / 146096) / 365
  let doy := doe - (365 * yoe + yoe / 4 - yoe / 100)
  let mp := (5 * doy + 2) / 153
  let d := doy - (153 * mp + 2) / 5 + 1
  let m := if mp < 10 then mp + 3 else mp - 9
  let y := (yoe : Int) + era * 400 + (if m ≤ 2 then 1 else 0)
  fourDigits y.toNat ++ "-" ++ twoDigits m ++ "-" ++ twoDigits d ++ "T" ++
    twoDigits (rem / 3600) ++ ":" ++ twoDigits (rem / 60 % 60) ++ ":" ++ twoDigits (rem % 60) ++ "Z"

/-- A runtime in UTC whose map iteration happens to follow insertion order. -/
def utcRuntime : Runtime :=
  { now := "2024-01-01T00:00:00Z"
    format := formatRFC3339UTC
    mapOrder := fun keys => keys
    mapOrder_perm := fun keys => List.Perm.refl keys }

/-- An attribute with a string value. -/
def strAttr (key value : String) : kv :=
  { Key := key, Value := { StringValue := some value } }

/-- The constant `sampleTrace` of collector_test.go, parsed. -/
def sampleTrace : otlpExport :=
  { ResourceSpans := [
    { Resource := none
      ScopeSpans := [
      { Scope := some { Name := "langchain", Version := "0.1.0" }
        Spans := [
          { TraceID := "abc123"
            Name := "chat gpt-4"
            StartNano := "1700000000000000000"
            Attributes := [
              strAttr "gen_ai.request.model" "gpt-4",
              strAttr "gen_ai.system" "openai",
              strAttr "server.address" "api.openai.com"] },
          { TraceID := "abc123"
            Name := "tool web_search"
            StartNano := "1700000000100000000"
            Attributes := [strAttr "tool.name" "web_search"] },
          { TraceID := "abc123"
            Name := "chat claude-3-sonnet"
            StartNano := "1700000000200000000"
            Attributes := [
              strAttr "gen_ai.request.model" "claude-3-sonnet",
              strAttr "gen_ai.system" "anthropic",
              strAttr "server.address" "api.anthropic.com"] }] }] }] }

/-- The trace of `TestDeduplicatesModels`, parsed: two spans report gpt-4. -/
def dedupTrace : otlpExport :=
  { ResourceSpans := [
    { Resource := none
      ScopeSpans := [
      { Scope := none
        Spans := [
          { TraceID := "t1"
            Name := "chat gpt-4"
            StartNano := "1700000000000000000"
            Attributes := [strAttr "gen_ai.request.model" "gpt-4"] },
          { TraceID := "t1"
            Name := "chat gpt-4 again"
            StartNano := "1700000000100000000"
            Attributes := [strAttr "gen_ai.request.model" "gpt-4"] }] }] }] }

/-- A trace whose three spans come out of time order: T2, T3, T1. -/
def windowTrace : otlpExport :=
  { ResourceSpans := [
    { Resource := none
      ScopeSpans := [
      { Scope := none
        Spans := [
          { TraceID := "t1", Name := "second", StartNano := "1700000060000000000",
            Attributes := [] },
          { TraceID := "t1", Name := "third", StartNano := "1700003600000000000",
            Attributes := [] },
          { TraceID := "t2", Name := "first", StartNano := "1700000000000000000",
            Attributes := [] }] }] }] }

/-- The input of `TestEmptyTrace`, as bytes. -/
def emptyTraceJSON : List Nat :=
  stringBytes "\x7b\"resourceSpans\": []\x7d"

/-- A stand-in for `json.Unmarshal` that knows the input of `TestEmptyTrace`
only. -/
def unmarshalEmptyTrace (data : List Nat) : Except String otlpExport :=
  if data = emptyTraceJSON then Except.ok { ResourceSpans := [] }
  else Except.error "unexpected end of JSON input"

/-- Where a Finding of the document comes from. -/
def RuntimeFinding.Origin (rt : Runtime) (cfg : Config) (evs : List Event)
    (f : RuntimeFinding) : Prop :=
  (∃ sp, Event.span sp ∈ evs ∧ getStr sp.Attributes cfg.ModelAttrs ≠ "" ∧
      f = modelFinding rt cfg sp) ∨
  (∃ sp, Event.span sp ∈ evs ∧ getStr sp.Attributes cfg.ToolAttrs ≠ "" ∧
      f = toolFinding rt cfg sp)

/-- Where a Service of the document comes from. -/
def Service.Origin (cfg : Config) (evs : List Event) (s : Service) : Prop :=
  ∃ sp, Event.span sp ∈ evs ∧ getStr sp.Attributes cfg.EndpointAttrs ≠ "" ∧
    s = endpointService cfg sp

/-- The Component kind that a Finding type stands for: model_usage is about
a model, tool_call about a tool. -/
def findingKind (typ : String) : String :=
  if typ = "model_usage" then "model" else if typ = "tool_call" then "tool" else typ

/-- Whether a Component is a model or a tool. -/
def Component.isModelOrTool (c : Component) : Bool :=
  c.Typ = "model" ∨ c.Typ = "tool"

/-- The group of a visit, if it is a scope visit. -/
def Event.scope? : Event → Option scopeSpan
  | Event.scope ss => some ss
  | Event.span _ => none

/-- The groups among some visits, in order. -/
def eventScopes (evs : List Event) : List scopeSpan :=
  evs.filterMap Event.scope?

/-- The non-empty scope name of a group, if it has one. -/
def scopeSpan.frameworkName (ss : scopeSpan) : Option String :=
  match ss.Scope with
  | none => none
  | some sc => if sc.Name ≠ "" then some sc.Name else none

/-- The non-empty scope names of an export, group by group. -/
def otlpExport.scopeNames (xp : otlpExport) : List String :=
  xp.allScopeSpans.filterMap scopeSpan.frameworkName

/-- The identities sighted at a visit, in the order the loop body looks at
them: the framework of a scope; the model, then the tool, of a span. -/
def eventKeys (cfg : Config) : Event → List componentKey
  | Event.scope ss =>
    match ss.frameworkName with
    | none => []
    | some n => [{ typ := "framework", name := n }]
  | Event.span sp =>
    (if getStr sp.Attributes cfg.ModelAttrs ≠ "" then
        [{ typ := "model", name := getStr sp.Attributes cfg.ModelAttrs }] else []) ++
    (if getStr sp.Attributes cfg.ToolAttrs ≠ "" then
        [{ typ := "tool", name := getStr sp.Attributes cfg.ToolAttrs }] else [])

/-- The first sightings of a list: each element once, at the place where it
first occurs. -/
def keepFirst {α : Type} [DecidableEq α] (l : List α) : List α :=
  l.foldl (fun acc k => if k ∈ acc then acc else acc ++ [k]) []

/-- The identity of a Component: its kind and name. -/
def Component.key (c : Component) : componentKey :=
  { typ := c.Typ, name := c.Name }

/-- A trace of three groups without spans: "langchain" 0.1.0, a group
without scope, and "langchain" again as 0.2.0. -/
def frameworkTrace : otlpExport :=
  { ResourceSpans := [
    { Resource := none
      ScopeSpans := [
        { Scope := some { Name := "langchain", Version := "0.1.0" }, Spans := [] },
        { Scope := none, Spans := [] }] },
    { Resource := none
      ScopeSpans := [
        { Scope := some { Name := "langchain", Version := "0.2.0" }, Spans := [] }] }] }

/-- A trace in which two spans report gpt-4, first with the provider openai,
then with the provider azure. -/
def providerTrace : otlpExport :=
  { ResourceSpans := [
    { Resource := none
      ScopeSpans := [
      { Scope := none
        Spans := [
          { TraceID := "t1", Name := "chat", StartNano := "1700000000000000000",
            Attributes := [strAttr "gen_ai.request.model" "gpt-4",
                           strAttr "gen_ai.system" "openai"] },
          { TraceID := "t1", Name := "chat again", StartNano := "1700000060000000000",
            Attributes := [strAttr "gen_ai.request.model" "gpt-4",
                           strAttr "gen_ai.system" "azure"] }] }] }] }

/-- A trace of two spans: one with a well-formed timestamp, one whose
timestamp string is "123abc". -/
def malformedTrace : otlpExport :=
  { ResourceSpans := [
    { Resource := none
      ScopeSpans := [
      { Scope := none
        Spans := [
          { TraceID := "t1", Name := "good", StartNano := "1700000000000000000",
            Attributes := [] },
          { TraceID := "t2", Name := "bad", StartNano := "123abc",
            Attributes := [] }] }] }] }

/-- The trace `malformedTrace` without its second span. -/
def malformedTraceRest : otlpExport :=
  { ResourceSpans := [
    { Resource := none
      ScopeSpans := [
      { Scope := none
        Spans := [
          { TraceID := "t1", Name := "good", StartNano := "1700000000000000000",
            Attributes := [] }] }] }] }

/-- A runtime like `utcRuntime` whose map iteration happens to run against
insertion order. -/
def reversedRuntime : Runtime :=
  { now := "2024-01-01T00:00:00Z"
    format := formatRFC3339UTC
    mapOrder := fun keys => keys.reverse
    mapOrder_perm := fun keys => List.reverse_perm keys }

/-! ## encoding/json: the document written by ToJSON and read by LoadFile

`json.MarshalIndent` writes a value as text and `json.Unmarshal` reads the
same value back from that text; the text layer is not modelled, a `JValue`
stands for the bytes. What is modelled is what the struct tags decide: the
key of every field, the fields left out by `omitempty`, `null` for a nil
slice, and the coercion of a string to valid UTF-8. -/

/-- A JSON value. -/
inductive JValue where
  | null
  | boolean (b : Bool)
  | number (n : Int)
  | text (s : String)
  | array (items : List JValue)
  | object (fields : List (String × JValue))

/-- The constant `utf8.RuneError`, U+FFFD. -/
def runeError : Char := Char.ofNat 0xFFFD

/-- The function `utf8.DecodeRune`: the rune at the front of a non-empty byte
string and its width; a byte that starts no valid encoding gives U+FFFD and
width 1. -/
def decodeRune : List Nat → Char × Nat
  | [] => (runeError, 0)
  | s0 :: rest =>
    if s0 < 0x80 then (Char.ofNat s0, 1)
    else if s0 < 0xC2 ∨ 0xF4 < s0 then (runeError, 1)
    else
      let sz := if s0 < 0xE0 then 2 else if s0 < 0xF0 then 3 else 4
      let lo := if s0 = 0xE0 then 0xA0 else if s0 = 0xF0 then 0x90 else 0x80
      let hi := if s0 = 0xED then 0x9F else if s0 = 0xF4 then 0x8F else 0xBF
      if rest.length + 1 < sz then (runeError, 1)
      else
        let s1 := rest.getD 0 0
        let s2 := rest.getD 1 0
        let s3 := rest.getD 2 0
        if s1 < lo ∨ hi < s1 then (runeError, 1)
        else if sz = 2 then (Char.ofNat (s0 % 32 * 64 + s1 % 64), 2)
        else if s2 < 0x80 ∨ 0xBF < s2 then (runeError, 1)
        else if sz = 3 then (Char.ofNat (s0 % 16 * 4096 + s1 % 64 * 64 + s2 % 64), 3)
        else if s3 < 0x80 ∨ 0xBF < s3 then (runeError, 1)
        else (Char.ofNat (s0 % 8 * 262144 + s1 % 64 * 4096 + s2 % 64 * 64 + s3 % 64), 4)

/-- The runes of a byte string, rune by rune, for at most `fuel` runes. -/
def coerceRunes : Nat → List Nat → List Char
  | 0, _ => []
  | _, [] => []
  | fuel + 1, b :: bs =>
    (decodeRune (b :: bs)).1 :: coerceRunes fuel ((b :: bs).drop (decodeRune (b :: bs)).2)

/-- The text that the encoder writes for a Go string and the decoder reads
back: the string coerced to valid UTF-8, each invalid byte replaced by
U+FFFD. -/
def coerceUTF8 (bs : ByteString) : String :=
  String.mk (coerceRunes bs.length bs)

/-- The value under a key of an object; the last occurrence of a key counts. -/
def lookupField : List (String × JValue) → String → Option JValue
  | [], _ => none
  | (k, v) :: rest, key =>
    match lookupField rest key with
    | some x => some x
    | none => if k = key then some v else none

/-- A string field with `omitempty`: left out when empty. -/
def omitEmptyText (key value : String) : List (String × JValue) :=
  if value = "" then [] else [(key, JValue.text value)]

/-- Encode a `TimeWindow`. -/
def TimeWindow.toJValue (w : TimeWindow) : JValue :=
  JValue.object [("start", JValue.text w.Start), ("end", JValue.text w.End)]

/-- Encode a `RuntimeFinding`. -/
def RuntimeFinding.toJValue (f : RuntimeFinding) : JValue :=
  JValue.object [("type", JValue.text f.Typ), ("component", JValue.text f.Component),
    ("count", JValue.number f.Count), ("firstSeen", JValue.text f.FirstSeen),
    ("lastSeen", JValue.text f.LastSeen)]

/-- Encode a `Service`. -/
def Service.toJValue (s : Service) : JValue :=
  JValue.object ([("name", JValue.text s.Name)] ++ omitEmptyText "endpoint" s.Endpoint ++
    omitEmptyText "provider" s.Provider)

/-- Encode a `Component`. The program never fills `Properties`; a filled map
is written as an object, here in the order of the list. -/
def Component.toJValue (c : Component) : JValue :=
  JValue.object ([("type", JValue.text c.Typ), ("name", JValue.text c.Name)] ++
    omitEmptyText "version" c.Version ++ omitEmptyText "provider" c.Provider ++
    [("bom-ref", JValue.text c.BOMRef)] ++
    (if c.Properties = [] then []
     else [("properties", JValue.object (c.Properties.map fun p => (p.1, JValue.text p.2)))]))

/-- Encode a `Metadata`; the application name is coerced to valid UTF-8. -/
def Metadata.toJValue (m : Metadata) : JValue :=
  JValue.object ([("timestamp", JValue.text m.Timestamp), ("tool_name", JValue.text m.ToolName),
    ("tool_version", JValue.text m.ToolVer)] ++
    (if m.Component = [] then [] else [("component", JValue.text (coerceUTF8 m.Component))]))

/-- Encode an `Evidence`. -/
def Evidence.toJValue (e : Evidence) : JValue :=
  JValue.object ([("source", JValue.text e.Source)] ++
    (if e.TraceIDs = [] then [] else [("traceIds", JValue.array (e.TraceIDs.map JValue.text))]) ++
    (if e.SpanCount = 0 then [] else [("spanCount", JValue.number e.SpanCount)]) ++
    (match e.Window with
     | none => []
     | some w => [("window", w.toJValue)]) ++
    (if e.Findings = [] then []
     else [("findings", JValue.array (e.Findings.map RuntimeFinding.toJValue))]))

/-- The method `ToJSON`: the document of an AIBOM. `Components` has no
`omitempty`: its nil slice is written as `null`. -/
def AIBOM.ToJSON (b : AIBOM) : JValue :=
  JValue.object ([("bomFormat", JValue.text b.BOMFormat),
    ("specVersion", JValue.text b.SpecVersion), ("version", JValue.number b.Version),
    ("metadata", b.Metadata.toJValue),
    ("components",
      if b.Components = [] then JValue.null
      else JValue.array (b.Components.map Component.toJValue))] ++
    (if b.Services = [] then []
     else [("services", JValue.array (b.Services.map Service.toJValue))]) ++
    [("evidence", b.Evidence.toJValue)])

/-- Decode into a `string`: `null` leaves the zero value. -/
def decodeText : JValue → Except String String
  | JValue.text s => Except.ok s
  | JValue.null => Except.ok ""
  | _ => Except.error "json: cannot unmarshal into Go value of type string"

/-- Decode into an `int`: `null` leaves the zero value. -/
def decodeNumber : JValue → Except String Int
  | JValue.number n => Except.ok n
  | JValue.null => Except.ok 0
  | _ => Except.error "json: cannot unmarshal into Go value of type int"

/-- Decode the items of an array one by one. -/
def decodeItems {α : Type} (dec : JValue → Except String α) :
    List JValue → Except String (List α)
  | [] => Except.ok []
  | v :: vs =>
    match dec v with
    | Except.error e => Except.error e
    | Except.ok a =>
      match decodeItems dec vs with
      | Except.error e => Except.error e
      | Except.ok as => Except.ok (a :: as)

/-- Decode into a slice: `null` gives the nil slice. -/
def decodeSlice {α : Type} (dec : JValue → Except String α) : JValue → Except String (List α)
  | JValue.array items => decodeItems dec items
  | JValue.null => Except.ok []
  | _ => Except.error "json: cannot unmarshal into Go value of slice type"

/-- Decode the field under `key` with `dec`; an absent key leaves `zero`. -/
def decodeField {α : Type} (fields : List (String × JValue)) (key : String)
    (dec : JValue → Except String α) (zero : α) : Except String α :=
  match lookupField fields key with
  | none => Except.ok zero
  | some v => dec v

/-- Decode into a `TimeWindow`. -/
def TimeWindow.fromJValue : JValue → Except String TimeWindow
  | JValue.object fs => do
    let start ← decodeField fs "start" decodeText ""
    let stop ← decodeField fs "end" decodeText ""
    pure { Start := start, End := stop }
  | JValue.null => Except.ok { Start := "", End := "" }
  | _ => Except.error "json: cannot unmarshal into Go value of type bom.TimeWindow"

/-- Decode into a `*TimeWindow`: `null` gives nil. -/
def decodeWindow : JValue → Except String (Option TimeWindow)
  | JValue.null => Except.ok none
  | v => (TimeWindow.fromJValue v).map some

/-- Decode into a `RuntimeFinding`. -/
def RuntimeFinding.fromJValue : JValue → Except String RuntimeFinding
  | JValue.object fs => do
    let typ ← decodeField fs "type" decodeText ""
    let component ← decodeField fs "component" decodeText ""
    let count ← decodeField fs "count" decodeNumber 0
    let firstSeen ← decodeField fs "firstSeen" decodeText ""
    let lastSeen ← decodeField fs "lastSeen" decodeText ""
    pure { Typ := typ, Component := component, Count := count, FirstSeen := firstSeen,
           LastSeen := lastSeen }
  | JValue.null => Except.ok { Typ := "", Component := "", Count := 0, FirstSeen := "",
                               LastSeen := "" }
  | _ => Except.error "json: cannot unmarshal into Go value of type bom.RuntimeFinding"

/-- Decode into a `Service`. -/
def Service.fromJValue : JValue → Except String Service
  | JValue.object fs => do
    let name ← decodeField fs "name" decodeText ""
    let endpoint ← decodeField fs "endpoint" decodeText ""
    let provider ← decodeField fs "provider" decodeText ""
    pure { Name := name, Endpoint := endpoint, Provider := provider }
  | JValue.null => Except.ok { Name := "", Endpoint := "", Provider := "" }
  | _ => Except.error "json: cannot unmarshal into Go value of type bom.Service"

/-- Decode into a `map[string]string`: `null` gives the nil map. -/
def decodeProperties : JValue → Except String (List (String × String))
  | JValue.object fs => decodeItems (fun v => decodeText v) (fs.map fun p => p.2) |>.map
      fun vals => (fs.map fun p => p.1).zip vals
  | JValue.null => Except.ok []
  | _ => Except.error "json: cannot unmarshal into Go value of type map[string]string"

/-- Decode into a `Component`. -/
def Component.fromJValue : JValue → Except String Component
  | JValue.object fs => do
    let typ ← decodeField fs "type" decodeText ""
    let name ← decodeField fs "name" decodeText ""
    let version ← decodeField fs "version" decodeText ""
    let provider ← decodeField fs "provider" decodeText ""
    let ref ← decodeField fs "bom-ref" decodeText ""
    let props ← decodeField fs "properties" decodeProperties []
    pure { Typ := typ, Name := name, Version := version, Provider := provider, BOMRef := ref,
           Properties := props }
  | JValue.null => Except.ok { Typ := "", Name := "", Version := "", Provider := "",
                               BOMRef := "", Properties := [] }
  | _ => Except.error "json: cannot unmarshal into Go value of type bom.Component"

/-- Decode into a `Metadata`; the application name is stored as the bytes of
the text read. -/
def Metadata.fromJValue : JValue → Except String Metadata
  | JValue.object fs => do
    let timestamp ← decodeField fs "timestamp" decodeText ""
    let toolName ← decodeField fs "tool_name" decodeText ""
    let toolVer ← decodeField fs "tool_version" decodeText ""
    let component ← decodeField fs "component" decodeText ""
    pure { Timestamp := timestamp, ToolName := toolName, ToolVer := toolVer,
           Component := stringBytes component }
  | JValue.null => Except.ok { Timestamp := "", ToolName := "", ToolVer := "", Component := [] }
  | _ => Except.error "json: cannot unmarshal into Go value of type bom.Metadata"

/-- Decode into an `Evidence`. -/
def Evidence.fromJValue : JValue → Except String Evidence
  | JValue.object fs => do
    let source ← decodeField fs "source" decodeText ""
    let traceIDs ← decodeField fs "traceIds" (decodeSlice decodeText) []
    let spanCount ← decodeField fs "spanCount" decodeNumber 0
    let window ← decodeField fs "window" decodeWindow none
    let findings ← decodeField fs "findings" (decodeSlice RuntimeFinding.fromJValue) []
    pure { Source := source, TraceIDs := traceIDs, SpanCount := spanCount, Window := window,
           Findings := findings }
  | JValue.null => Except.ok { Source := "", TraceIDs := [], SpanCount := 0, Window := none,
                               Findings := [] }
  | _ => Except.error "json: cannot unmarshal into Go value of type bom.Evidence"

/-- The `json.Unmarshal(data, &b)` of `LoadFile`: decode a document into an
AIBOM, with the error wrapped as `LoadFile` wraps it. Keys are matched by
their exact spelling, as `ToJSON` writes them. -/
def AIBOM.fromJSON : JValue → Except String AIBOM
  | JValue.object fs =>
    match (do
      let bomFormat ← decodeField fs "bomFormat" decodeText ""
      let specVersion ← decodeField fs "specVersion" decodeText ""
      let version ← decodeField fs "version" decodeNumber 0
      let metadata ← decodeField fs "metadata" Metadata.fromJValue
        { Timestamp := "", ToolName := "", ToolVer := "", Component := [] }
      let components ← decodeField fs "components" (decodeSlice Component.fromJValue) []
      let services ← decodeField fs "services" (decodeSlice Service.fromJValue) []
      let evidence ← decodeField fs "evidence" Evidence.fromJValue
        { Source := "", TraceIDs := [], SpanCount := 0, Window := none, Findings := [] }
      pure { BOMFormat := bomFormat, SpecVersion := specVersion, Version := version,
             Metadata := metadata, Components := components, Services := services,
             Evidence := evidence } : Except String AIBOM) with
    | Except.ok b => Except.ok b
    | Except.error e => Except.error ("parse AIBOM: " ++ e)
  | JValue.null => Except.ok (
      { BOMFormat := "", SpecVersion := "", Version := 0,
        Metadata := { Timestamp := "", ToolName := "", ToolVer := "", Component := [] },
        Components := [], Services := [],
        Evidence := { Source := "", TraceIDs := [], SpanCount := 0, Window := none,
                      Findings := [] } } : AIBOM)
  | _ => Except.error "parse AIBOM: json: cannot unmarshal into Go value of type bom.AIBOM"

/-- Two states of the walk that agree on one kind `K` of record: the same
identities of kind `K` in the `seen` set, the same Components of type `K`,
and, for the endpoint kind, the same Services. -/
structure SameKind (K : String) (w1 w2 : Walk) : Prop where
  seen : ∀ n : String, (⟨K, n⟩ : componentKey) ∈ w1.seen ↔ (⟨K, n⟩ : componentKey) ∈ w2.seen
  comps : (w1.b.Components.filter fun c => c.Typ = K) =
    w2.b.Components.filter fun c => c.Typ = K
  svcs : K = "endpoint" → w1.b.Services = w2.b.Services

/-- A trace of two spans: the first carries its highest-priority model
attribute with the empty string, a lower-priority one with "gpt-4", and a
tool; the second carries the model "claude-3". -/
def shadowTrace : otlpExport :=
  { ResourceSpans := [
    { Resource := none
      ScopeSpans := [
      { Scope := none
        Spans := [
          { TraceID := "t1", Name := "shadowed", StartNano := "1700000000000000000",
            Attributes := [
              { Key := "gen_ai.request.model", Value := { StringValue := some "" } },
              { Key := "llm.model_name", Value := { StringValue := some "gpt-4" } },
              { Key := "tool.name", Value := { StringValue := some "search" } }] },
          { TraceID := "t1", Name := "plain", StartNano := "1700000001000000000",
            Attributes := [
              { Key := "gen_ai.request.model",
                Value := { StringValue := some "claude-3" } }] }] }] }] }

/-- The trace `shadowTrace` without its first span. -/
def shadowTraceRest : otlpExport :=
  { ResourceSpans := [
    { Resource := none
      ScopeSpans := [
      { Scope := none
        Spans := [
          { TraceID := "t1", Name := "plain", StartNano := "1700000001000000000",
            Attributes := [
              { Key := "gen_ai.request.model",
                Value := { StringValue := some "claude-3" } }] }] }] }] }

/-! ## The reference reading of timestamps

Written from the specification, not from the code, to be compared with
`parseNanos`: a start timestamp is "a nanosecond-precision integer, encoded
as a string", and "a zero or unparseable timestamp is treated as absent". -/

/-- Part of the reference reading: the natural number written by a run of
decimal digits, `none` when the run is empty or holds anything but the digits
0 to 9. -/
def decimalNat (ds : List Char) : Option Nat :=
  if ds ≠ [] ∧ ds.all Char.isDigit then
    some (Nat.ofDigits 10 (ds.reverse.map fun c => c.toNat - '0'.toNat))
  else none

/-- Part of the reference reading: the integer written by a whole string, an
optional sign, then decimal digits and nothing else. -/
def decimalInteger : List Char → Option Int
  | '-' :: ds => (decimalNat ds).map fun (n : Nat) => -(n : Int)
  | '+' :: ds => (decimalNat ds).map fun (n : Nat) => (n : Int)
  | ds => (decimalNat ds).map fun (n : Nat) => (n : Int)

/-- The reference reading of a start timestamp, in the words of the
specification: the timestamp is a "nanosecond-precision integer, encoded as a
string", and "a zero or unparseable timestamp is treated as absent". A string
is parseable when the whole of it writes an integer of 64 bits. -/
def parseNanosSpec (s : String) : Option Time :=
  match decimalInteger s.data with
  | some n => if n ≠ 0 ∧ -(2 : Int) ^ 63 ≤ n ∧ n ≤ 2 ^ 63 - 1 then some (Time.Unix n) else none
  | none => none

/-- The timestamps of the spans that carry one, by the reference reading. -/
def otlpExport.specTimes (xp : otlpExport) : List Time :=
  xp.allSpans.filterMap fun sp => parseNanosSpec sp.StartNano

/-- A trace of one span whose timestamp string is "123abc". -/
def partlyNumericTrace : otlpExport :=
  { ResourceSpans := [
    { Resource := none
      ScopeSpans := [
      { Scope := none
        Spans := [
          { TraceID := "t1", Name := "bad", StartNano := "123abc",
            Attributes := [] }] }] }] }

/-! ## CollectFromJSON with its run-time checks explicit

A second embedding of `CollectFromJSON`, in which every operation of the
source that the Go runtime checks is a step that can fail: the dereference of
a pointer (`*a.Value.StringValue`, `ss.Scope.Name`) and the two slice
expressions of the endpoint block, which work on the bytes of the string. The
other operations of the pass have no failing case: `append`, the writes to
maps made with `make`, ranging over a nil slice, `Sscanf` whose result is
ignored, `time.Unix` and `Format`. -/

/-- How a call can end without its result: with an `error` returned, or in a
run-time panic. -/
inductive Fault where
  | err (msg : String)
  | runtimePanic (msg : String)
  deriving DecidableEq, Repr

/-- The dereference `*p`: a nil pointer panics. -/
def deref {α : Type} : Option α → Except Fault α
  | some a => Except.ok a
  | none => Except.error
      (Fault.runtimePanic "runtime error: invalid memory address or nil pointer dereference")

/-- The slice expression `s[lo:]` of a string: a bound outside `0 .. len(s)`
panics. -/
def sliceFrom (s : ByteString) (lo : Int) : Except Fault ByteString :=
  if 0 ≤ lo ∧ lo ≤ s.length then Except.ok (s.drop lo.toNat)
  else Except.error (Fault.runtimePanic "runtime error: slice bounds out of range")

/-- The slice expression `s[:hi]` of a string: a bound outside `0 .. len(s)`
panics. -/
def sliceTo (s : ByteString) (hi : Int) : Except Fault ByteString :=
  if 0 ≤ hi ∧ hi ≤ s.length then Except.ok (s.take hi.toNat)
  else Except.error (Fault.runtimePanic "runtime error: slice bounds out of range")

/-- The function `strings.Index` on the bytes of its arguments: the byte
offset of the first occurrence of `pat` in `s`, or `-1`. -/
def bytesIndex (s pat : ByteString) : Int :=
  if pat.isPrefixOf s then 0
  else match s with
    | [] => -1
    | _ :: rest =>
      let i := bytesIndex rest pat
      if i < 0 then -1 else i + 1

/-- The inner loop of `getStr`, with the dereference of `StringValue` as a
step of its own behind the nil test. -/
def getStrChecked.scan (c : String) : List kv → Except Fault (Option String)
  | [] => Except.ok none
  | a :: rest =>
    if a.Key = c ∧ a.Value.StringValue ≠ none then
      match deref a.Value.StringValue with
      | Except.error f => Except.error f
      | Except.ok v => Except.ok (some v)
    else getStrChecked.scan c rest

/-- The function `getStr` with its dereference checked. -/
def getStrChecked (attrs : List kv) : List String → Except Fault String
  | [] => Except.ok ""
  | c :: rest =>
    match getStrChecked.scan c attrs with
    | Except.error f => Except.error f
    | Except.ok (some v) => Except.ok v
    | Except.ok none => getStrChecked attrs rest

/-- Lines 111-117 with the dereference of `ss.Scope` checked: the test
`ss.Scope != nil` comes first and the field accesses behind it. -/
def scopeStepChecked (w : Walk) (ss : scopeSpan) : Except Fault Walk :=
  if ss.Scope ≠ none then
    match deref ss.Scope with
    | Except.error f => Except.error f
    | Except.ok sc =>
      if sc.Name ≠ "" then
        let fwKey : componentKey := { typ := "framework", name := sc.Name }
        if fwKey ∉ w.seen then
          Except.ok { w with seen := w.seen ++ [fwKey], b := w.b.AddFramework sc.Name sc.Version }
        else Except.ok w
      else Except.ok w
  else Except.ok w

/-- Lines 161-167 on the bytes of the endpoint, with both slice expressions
checked. -/
def endpointHostBytes (endpoint : ByteString) : Except Fault ByteString :=
  let idx := bytesIndex endpoint (stringBytes "://")
  match (if idx ≥ 0 then sliceFrom endpoint (idx + 3) else Except.ok endpoint) with
  | Except.error f => Except.error f
  | Except.ok host =>
    let idx := bytesIndex host (stringBytes "/")
    if idx ≥ 0 then sliceTo host idx else Except.ok host

/-- Lines 159-173 with the slice expressions checked; the host is the text of
the bytes that the slices leave. -/
def extractEndpointChecked (w : Walk) (endpoint provider : String) : Except Fault Walk :=
  if endpoint ≠ "" then
    match endpointHostBytes (stringBytes endpoint) with
    | Except.error f => Except.error f
    | Except.ok hostBytes =>
      let host := coerceUTF8 hostBytes
      let eKey : componentKey := { typ := "endpoint", name := host }
      if eKey ∉ w.seen then
        Except.ok { w with seen := w.seen ++ [eKey], b := w.b.AddService host endpoint provider }
      else Except.ok w
  else Except.ok w

/-- Lines 120-173, the body of the loop over spans, with its checks. -/
def spanStepChecked (rt : Runtime) (cfg : Config) (w : Walk) (span : rawSpan) :
    Except Fault Walk := do
  let w := countSpan w span
  let ts := parseNanos span.StartNano
  let w := updateWindow w ts
  let model ← getStrChecked span.Attributes cfg.ModelAttrs
  let provider ← getStrChecked span.Attributes cfg.ProviderAttrs
  let w := extractModel rt w model provider ts
  let tool ← getStrChecked span.Attributes cfg.ToolAttrs
  let w := extractTool rt w tool ts
  let endpoint ← getStrChecked span.Attributes cfg.EndpointAttrs
  extractEndpointChecked w endpoint provider

/-- A loop whose body can fail: the first failure ends it. -/
def loopChecked {α β : Type} (body : β → α → Except Fault β) : β → List α → Except Fault β
  | w, [] => Except.ok w
  | w, x :: rest =>
    match body w x with
    | Except.error f => Except.error f
    | Except.ok w2 => loopChecked body w2 rest

/-- Lines 110-175, the loop over the scope spans of one resource span, with
its checks. -/
def scopeSpansLoopChecked (rt : Runtime) (cfg : Config) (w : Walk) (sss : List scopeSpan) :
    Except Fault Walk :=
  loopChecked (fun w ss =>
    match scopeStepChecked w ss with
    | Except.error f => Except.error f
    | Except.ok w2 => loopChecked (spanStepChecked rt cfg) w2 ss.Spans) w sss

/-- Lines 108-176, the loop over the resource spans, with its checks. -/
def resourceSpansLoopChecked (rt : Runtime) (cfg : Config) (w : Walk)
    (rss : List resourceSpan) : Except Fault Walk :=
  loopChecked (fun w rs => scopeSpansLoopChecked rt cfg w rs.ScopeSpans) w rss

/-- Lines 102-190, the aggregation pass, with its checks. -/
def collectChecked (rt : Runtime) (xp : otlpExport) (appName : ByteString) (cfg : Config) :
    Except Fault AIBOM :=
  match resourceSpansLoopChecked rt cfg (Walk.start rt appName) xp.ResourceSpans with
  | Except.error f => Except.error f
  | Except.ok w => Except.ok (w.finish rt)

/-- The function `CollectFromJSON` with the checks of the pass explicit: a
failed parse returns the wrapped error, a panic of the pass would end the
call. -/
def CollectFromJSONChecked (unmarshal : List Nat → Except String otlpExport) (rt : Runtime)
    (data : List Nat) (appName : ByteString) (cfg : Config) : Except Fault AIBOM :=
  match unmarshal data with
  | Except.error err => Except.error (Fault.err ("parse OTLP: " ++ err))
  | Except.ok xp => collectChecked rt xp appName cfg

/-- A trace with the anomalies that the parse lets through: a group without
scope, a span without name, with the timestamp "abc" and with model
attributes whose value is not a string, is null or is missing, an endpoint
with a scheme, a path and characters outside ASCII, and a span without
timestamp whose endpoint is just "://". -/
def anomalyTrace : otlpExport :=
  { ResourceSpans := [
    { Resource := none
      ScopeSpans := [
      { Scope := none
        Spans := [
          { TraceID := "t1", Name := "", StartNano := "abc"
            Attributes := [
              { Key := "gen_ai.request.model", Value := { StringValue := none } },
              { Key := "llm.model_name", Value := { StringValue := none } },
              { Key := "ai.model.id", Value := { StringValue := none } },
              { Key := "url.full",
                Value := { StringValue := some "https://münchen.example/ü" } }] },
          { TraceID := "t2", Name := "", StartNano := ""
            Attributes := [
              { Key := "server.address", Value := { StringValue := some "://" } }] }] }] }] }

/-- The JSON text of `anomalyTrace`, as bytes. -/
def anomalyTraceJSON : List Nat :=
  stringBytes ("\x7b\"resourceSpans\": [\x7b\"scopeSpans\": [\x7b\"spans\": [" ++
    "\x7b\"traceId\": \"t1\", \"startTimeUnixNano\": \"abc\", \"attributes\": [" ++
    "\x7b\"key\": \"gen_ai.request.model\", \"value\": \x7b\"intValue\": \"7\"\x7d\x7d, " ++
    "\x7b\"key\": \"llm.model_name\", \"value\": \x7b\"stringValue\": null\x7d\x7d, " ++
    "\x7b\"key\": \"ai.model.id\"\x7d, " ++
    "\x7b\"key\": \"url.full\", \"value\": " ++
    "\x7b\"stringValue\": \"https://münchen.example/ü\"\x7d\x7d]\x7d, " ++
    "\x7b\"traceId\": \"t2\", \"attributes\": [" ++
    "\x7b\"key\": \"server.address\", \"value\": \x7b\"stringValue\": \"://\"\x7d\x7d]\x7d" ++
    "]\x7d]\x7d]\x7d")

/-- A stand-in for `json.Unmarshal` that knows the text of `anomalyTrace`
only. -/
def unmarshalAnomalyTrace (data : List Nat) : Except String otlpExport :=
  if data = anomalyTraceJSON then Except.ok anomalyTrace
  else Except.error "unexpected end of JSON input"

/-! # Theorems

## getStr -/

/-- The inner loop finds nothing when no attribute carries the key with a string. -/
theorem getStr.scan_eq_none (c : String) (attrs : List kv)
    (h : ∀ a ∈ attrs, a.Key = c → a.Value.StringValue = none) :
    getStr.scan c attrs = none := by
  induction attrs with
  | nil => rfl
  | cons a rest ih =>
    have ha := h a (List.mem_cons_self _ _)
    have hr : ∀ x ∈ rest, x.Key = c → x.Value.StringValue = none :=
      fun x hx => h x (List.mem_cons_of_mem _ hx)
    unfold getStr.scan
    rw [if_neg (fun hc => hc.2 (ha hc.1))]
    exact ih hr

/-- The inner loop returns the string of the first attribute that carries the
key with a string. -/
theorem getStr.scan_eq_some (c v : String) (a1 a2 : List kv)
    (h : ∀ a ∈ a1, a.Key = c → a.Value.StringValue = none) :
    getStr.scan c (a1 ++ { Key := c, Value := { StringValue := some v } } :: a2) = some v := by
  induction a1 with
  | nil => simp [getStr.scan]
  | cons a rest ih =>
    have ha := h a (List.mem_cons_self _ _)
    have hr : ∀ x ∈ rest, x.Key = c → x.Value.StringValue = none :=
      fun x hx => h x (List.mem_cons_of_mem _ hx)
    rw [List.cons_append]
    unfold getStr.scan
    rw [if_neg (fun hc => hc.2 (ha hc.1))]
    exact ih hr

/-- Candidates without a string-valued attribute are passed over. -/
theorem getStr_skip (attrs : List kv) (pre rest : List String)
    (h : ∀ c ∈ pre, ∀ a ∈ attrs, a.Key = c → a.Value.StringValue = none) :
    getStr attrs (pre ++ rest) = getStr attrs rest := by
  induction pre with
  | nil => rfl
  | cons c cs ih =>
    have hs := getStr.scan_eq_none c attrs (h c (List.mem_cons_self _ _))
    have hc : getStr attrs (c :: (cs ++ rest)) = getStr attrs (cs ++ rest) := by
      simp only [getStr, hs]
    rw [List.cons_append, hc]
    exact ih (fun c' hc' => h c' (List.mem_cons_of_mem _ hc'))

/-- C1. `getStr attrs cands` is the string of the first candidate, in the
order of `cands`, that some attribute carries with a non-null string: when
`cands = pre ++ c :: post`, no candidate of `pre` has an attribute with a
string value, and the first attribute with key `c` and a string value holds
`v` (wherever it sits in `attrs`, whatever `post` matches), the result is
`v`; attributes with a null value are skipped; when no candidate has a
string-valued attribute the result is the empty string. -/
theorem getStr_first_candidate (attrs : List kv) (cands : List String) :
    (∀ (pre post : List String) (c : String) (a1 a2 : List kv) (v : String),
        cands = pre ++ c :: post →
        (∀ c' ∈ pre, ∀ a ∈ attrs, a.Key = c' → a.Value.StringValue = none) →
        attrs = a1 ++ { Key := c, Value := { StringValue := some v } } :: a2 →
        (∀ a ∈ a1, a.Key = c → a.Value.StringValue = none) →
        getStr attrs cands = v) ∧
    ((∀ c ∈ cands, ∀ a ∈ attrs, a.Key = c → a.Value.StringValue = none) →
        getStr attrs cands = "") := by
  constructor
  · intro pre post c a1 a2 v hc hpre ha ha1
    subst hc
    rw [getStr_skip attrs pre _ hpre]
    have hs := getStr.scan_eq_some c v a1 a2 ha1
    rw [← ha] at hs
    simp only [getStr, hs]
  · intro h
    have := getStr_skip attrs cands [] h
    rw [List.append_nil] at this
    rw [this]; rfl

/-- Witness of C1: a later candidate and a null-valued attribute are ignored;
no match gives the empty string. -/
theorem getStr_first_candidate_witness :
    getStr [⟨"llm.model_name", ⟨some "m2"⟩⟩, ⟨"gen_ai.request.model", ⟨none⟩⟩,
            ⟨"ai.model.id", ⟨some "m3"⟩⟩, ⟨"llm.model_name", ⟨some "m4"⟩⟩]
      ["x", "gen_ai.request.model", "llm.model_name", "ai.model.id"] = "m2" ∧
    getStr [⟨"gen_ai.request.model", ⟨none⟩⟩, ⟨"other", ⟨some "v"⟩⟩]
      ["gen_ai.request.model", "llm.model_name"] = "" :=
  ⟨(getStr_first_candidate _ _).1 ["x", "gen_ai.request.model"] ["ai.model.id"] "llm.model_name"
      [] [⟨"gen_ai.request.model", ⟨none⟩⟩, ⟨"ai.model.id", ⟨some "m3"⟩⟩, ⟨"llm.model_name", ⟨some "m4"⟩⟩]
      "m2" rfl (by decide) rfl (by simp),
   (getStr_first_candidate _ _).2 (by decide)⟩

/-! ## The loops as one fold over the visits -/

/-- The inner loop over the spans of a group is a fold over its visits. -/
theorem foldl_scopeSpan_events (rt : Runtime) (cfg : Config) (w : Walk) (ss : scopeSpan) :
    ss.events.foldl (eventStep rt cfg) w = ss.Spans.foldl (spanStep rt cfg) (scopeStep w ss) := by
  simp only [scopeSpan.events, List.foldl_cons, eventStep]
  generalize scopeStep w ss = w0
  induction ss.Spans generalizing w0 with
  | nil => rfl
  | cons sp rest ih => simp only [List.map_cons, List.foldl_cons, eventStep]; exact ih _

/-- The loop over groups is a fold over their visits. -/
theorem scopeSpansLoop_eq (rt : Runtime) (cfg : Config) (w : Walk) (sss : List scopeSpan) :
    scopeSpansLoop rt cfg w sss = (sss.flatMap scopeSpan.events).foldl (eventStep rt cfg) w := by
  induction sss generalizing w with
  | nil => rfl
  | cons ss rest ih =>
    have hcons : scopeSpansLoop rt cfg w (ss :: rest) =
        scopeSpansLoop rt cfg (ss.Spans.foldl (spanStep rt cfg) (scopeStep w ss)) rest := rfl
    rw [hcons, ih, List.flatMap_cons, List.foldl_append, foldl_scopeSpan_events]

/-- The nested loops are a fold over the visits in document order. -/
theorem resourceSpansLoop_eq (rt : Runtime) (cfg : Config) (w : Walk) (rss : List resourceSpan) :
    resourceSpansLoop rt cfg w rss =
      ((rss.flatMap fun rs => rs.ScopeSpans).flatMap scopeSpan.events).foldl (eventStep rt cfg) w := by
  induction rss generalizing w with
  | nil => rfl
  | cons rs rest ih =>
    have hcons : resourceSpansLoop rt cfg w (rs :: rest) =
        resourceSpansLoop rt cfg (scopeSpansLoop rt cfg w rs.ScopeSpans) rest := rfl
    rw [hcons, ih, scopeSpansLoop_eq, List.flatMap_cons, List.flatMap_append, List.foldl_append]

/-- The state of the walk after the visits `evs`. -/
theorem collect_eq (rt : Runtime) (xp : otlpExport) (appName : ByteString) (cfg : Config) :
    collect rt xp appName cfg =
      (xp.events.foldl (eventStep rt cfg) (Walk.start rt appName)).finish rt := by
  simp only [collect, resourceSpansLoop_eq, otlpExport.events, otlpExport.allScopeSpans]

/-- Induction along the walk: a relation between the visits made so far and
the state, true at the start and kept by every visit, holds at the end. -/
theorem walk_induction (rt : Runtime) (cfg : Config) (P : List Event → Walk → Prop)
    (w0 : Walk) (h0 : P [] w0)
    (hstep : ∀ evs w ev, P evs w → P (evs ++ [ev]) (eventStep rt cfg w ev))
    (evs : List Event) : P evs (evs.foldl (eventStep rt cfg) w0) := by
  induction evs using List.reverseRecOn with
  | nil => exact h0
  | append_singleton l a ih =>
    rw [List.foldl_append]
    exact hstep l _ a ih

/-- A span is visited iff it is a span of the export. -/
theorem mem_events_span (xp : otlpExport) (sp : rawSpan) :
    Event.span sp ∈ xp.events ↔ sp ∈ xp.allSpans := by
  simp [otlpExport.events, otlpExport.allSpans, scopeSpan.events, List.mem_flatMap]

/-- A group's scope is visited iff it is a group of the export. -/
theorem mem_events_scope (xp : otlpExport) (ss : scopeSpan) :
    Event.scope ss ∈ xp.events ↔ ss ∈ xp.allScopeSpans := by
  simp [otlpExport.events, scopeSpan.events, List.mem_flatMap]

/-! ## The dedup ledger -/

/-- Appending an element whose key is new keeps a keyed list free of duplicates. -/
theorem nodup_map_snoc {α β : Type} (f : α → β) (l : List α) (a : α)
    (h : (l.map f).Nodup) (hnew : ∀ x ∈ l, f x ≠ f a) : ((l ++ [a]).map f).Nodup := by
  rw [List.map_append, List.map_cons, List.map_nil]
  refine List.Nodup.append h (List.nodup_singleton _) ?_
  intro p hp hq
  rw [List.mem_singleton] at hq
  subst hq
  obtain ⟨x, hx, hxe⟩ := List.mem_map.1 hp
  exact hnew x hx hxe

/-- The empty ledger. -/
theorem Ledger.nil : Ledger [] [] [] [] := by
  constructor <;> simp

/-- Recording a framework under a new key keeps the ledger. -/
theorem Ledger.add_framework {seen comps finds svcs} (h : Ledger seen comps finds svcs)
    (c : Component) (hc : c.Typ = "framework")
    (hk : (⟨"framework", c.Name⟩ : componentKey) ∉ seen) :
    Ledger (seen ++ [⟨"framework", c.Name⟩]) (comps ++ [c]) finds svcs := by
  constructor
  · intro x hx
    rcases List.mem_append.1 hx with hx | hx
    · exact List.mem_append_left _ (h.comp_seen x hx)
    · rw [List.mem_singleton] at hx; subst hx; rw [hc]; simp
  · intro x hx
    rcases List.mem_append.1 hx with hx | hx
    · exact h.comp_kind x hx
    · rw [List.mem_singleton] at hx; subst hx; simp [hc]
  · refine nodup_map_snoc _ _ _ h.comp_nodup ?_
    intro x hx he
    simp only [Prod.mk.injEq] at he
    have := h.comp_seen x hx
    rw [he.1, he.2, hc] at this
    exact hk this
  · intro f hf
    rcases h.finding_seen f hf with ⟨h1, h2⟩ | ⟨h1, h2⟩
    · exact Or.inl ⟨h1, List.mem_append_left _ h2⟩
    · exact Or.inr ⟨h1, List.mem_append_left _ h2⟩
  · exact h.finding_nodup
  · intro s hs
    exact List.mem_append_left _ (h.service_seen s hs)
  · exact h.service_nodup
  · intro n hn
    simp only [List.mem_append, List.mem_singleton, componentKey.mk.injEq] at hn
    rcases hn with hn | hn
    · obtain ⟨⟨x, hx, hx'⟩, hf⟩ := h.seen_model n hn
      exact ⟨⟨x, List.mem_append_left _ hx, hx'⟩, hf⟩
    · exact absurd hn.1 (by decide)
  · intro n hn
    simp only [List.mem_append, List.mem_singleton, componentKey.mk.injEq] at hn
    rcases hn with hn | hn
    · obtain ⟨⟨x, hx, hx'⟩, hf⟩ := h.seen_tool n hn
      exact ⟨⟨x, List.mem_append_left _ hx, hx'⟩, hf⟩
    · exact absurd hn.1 (by decide)
  · intro n hn
    simp only [List.mem_append, List.mem_singleton, componentKey.mk.injEq] at hn
    rcases hn with hn | hn
    · obtain ⟨x, hx, hx'⟩ := h.seen_framework n hn
      exact ⟨x, List.mem_append_left _ hx, hx'⟩
    · exact ⟨c, by simp, hc, hn.2.symm⟩
  · intro n hn
    simp only [List.mem_append, List.mem_singleton, componentKey.mk.injEq] at hn
    rcases hn with hn | hn
    · exact h.seen_endpoint n hn
    · exact absurd hn.1 (by decide)

/-- Recording a model with its finding under a new key keeps the ledger. -/
theorem Ledger.add_model {seen comps finds svcs} (h : Ledger seen comps finds svcs)
    (c : Component) (f : RuntimeFinding) (hc : c.Typ = "model") (hf : f.Typ = "model_usage")
    (hn : f.Component = c.Name)
    (hk : (⟨"model", c.Name⟩ : componentKey) ∉ seen) :
    Ledger (seen ++ [⟨"model", c.Name⟩]) (comps ++ [c]) (finds ++ [f]) svcs := by
  constructor
  · intro x hx
    rcases List.mem_append.1 hx with hx | hx
    · exact List.mem_append_left _ (h.comp_seen x hx)
    · rw [List.mem_singleton] at hx; subst hx; rw [hc]; simp
  · intro x hx
    rcases List.mem_append.1 hx with hx | hx
    · exact h.comp_kind x hx
    · rw [List.mem_singleton] at hx; subst hx; simp [hc]
  · refine nodup_map_snoc _ _ _ h.comp_nodup ?_
    intro x hx he
    simp only [Prod.mk.injEq] at he
    have := h.comp_seen x hx
    rw [he.1, he.2, hc] at this
    exact hk this
  · intro g hg
    rcases List.mem_append.1 hg with hg | hg
    · rcases h.finding_seen g hg with ⟨h1, h2⟩ | ⟨h1, h2⟩
      · exact Or.inl ⟨h1, List.mem_append_left _ h2⟩
      · exact Or.inr ⟨h1, List.mem_append_left _ h2⟩
    · rw [List.mem_singleton] at hg; subst hg
      exact Or.inl ⟨hf, by rw [hn]; simp⟩
  · refine nodup_map_snoc _ _ _ h.finding_nodup ?_
    intro g hg he
    simp only [Prod.mk.injEq] at he
    rcases h.finding_seen g hg with ⟨_, h2⟩ | ⟨h1, _⟩
    · rw [he.2, hn] at h2; exact hk h2
    · rw [he.1, hf] at h1; exact absurd h1 (by decide)
  · intro s hs
    exact List.mem_append_left _ (h.service_seen s hs)
  · exact h.service_nodup
  · intro n hn'
    simp only [List.mem_append, List.mem_singleton, componentKey.mk.injEq] at hn'
    rcases hn' with hn' | hn'
    · obtain ⟨⟨x, hx, hx'⟩, ⟨g, hg, hg'⟩⟩ := h.seen_model n hn'
      exact ⟨⟨x, List.mem_append_left _ hx, hx'⟩, ⟨g, List.mem_append_left _ hg, hg'⟩⟩
    · exact ⟨⟨c, by simp, hc, hn'.2.symm⟩, ⟨f, by simp, hf, by rw [hn, hn'.2]⟩⟩
  · intro n hn'
    simp only [List.mem_append, List.mem_singleton, componentKey.mk.injEq] at hn'
    rcases hn' with hn' | hn'
    · obtain ⟨⟨x, hx, hx'⟩, ⟨g, hg, hg'⟩⟩ := h.seen_tool n hn'
      exact ⟨⟨x, List.mem_append_left _ hx, hx'⟩, ⟨g, List.mem_append_left _ hg, hg'⟩⟩
    · exact absurd hn'.1 (by decide)
  · intro n hn'
    simp only [List.mem_append, List.mem_singleton, componentKey.mk.injEq] at hn'
    rcases hn' with hn' | hn'
    · obtain ⟨x, hx, hx'⟩ := h.seen_framework n hn'
      exact ⟨x, List.mem_append_left _ hx, hx'⟩
    · exact absurd hn'.1 (by decide)
  · intro n hn'
    simp only [List.mem_append, List.mem_singleton, componentKey.mk.injEq] at hn'
    rcases hn' with hn' | hn'
    · exact h.seen_endpoint n hn'
    · exact absurd hn'.1 (by decide)

/-- Recording a tool with its finding under a new key keeps the ledger. -/
theorem Ledger.add_tool {seen comps finds svcs} (h : Ledger seen comps finds svcs)
    (c : Component) (f : RuntimeFinding) (hc : c.Typ = "tool") (hf : f.Typ = "tool_call")
    (hn : f.Component = c.Name)
    (hk : (⟨"tool", c.Name⟩ : componentKey) ∉ seen) :
    Ledger (seen ++ [⟨"tool", c.Name⟩]) (comps ++ [c]) (finds ++ [f]) svcs := by
  constructor
  · intro x hx
    rcases List.mem_append.1 hx with hx | hx
    · exact List.mem_append_left _ (h.comp_seen x hx)
    · rw [List.mem_singleton] at hx; subst hx; rw [hc]; simp
  · intro x hx
    rcases List.mem_append.1 hx with hx | hx
    · exact h.comp_kind x hx
    · rw [List.mem_singleton] at hx; subst hx; simp [hc]
  · refine nodup_map_snoc _ _ _ h.comp_nodup ?_
    intro x hx he
    simp only [Prod.mk.injEq] at he
    have := h.comp_seen x hx
    rw [he.1, he.2, hc] at this
    exact hk this
  · intro g hg
    rcases List.mem_append.1 hg with hg | hg
    · rcases h.finding_seen g hg with ⟨h1, h2⟩ | ⟨h1, h2⟩
      · exact Or.inl ⟨h1, List.mem_append_left _ h2⟩
      · exact Or.inr ⟨h1, List.mem_append_left _ h2⟩
    · rw [List.mem_singleton] at hg; subst hg
      exact Or.inr ⟨hf, by rw [hn]; simp⟩
  · refine nodup_map_snoc _ _ _ h.finding_nodup ?_
    intro g hg he
    simp only [Prod.mk.injEq] at he
    rcases h.finding_seen g hg with ⟨h1, _⟩ | ⟨_, h2⟩
    · rw [he.1, hf] at h1; exact absurd h1 (by decide)
    · rw [he.2, hn] at h2; exact hk h2
  · intro s hs
    exact List.mem_append_left _ (h.service_seen s hs)
  · exact h.service_nodup
  · intro n hn'
    simp only [List.mem_append, List.mem_singleton, componentKey.mk.injEq] at hn'
    rcases hn' with hn' | hn'
    · obtain ⟨⟨x, hx, hx'⟩, ⟨g, hg, hg'⟩⟩ := h.seen_model n hn'
      exact ⟨⟨x, List.mem_append_left _ hx, hx'⟩, ⟨g, List.mem_append_left _ hg, hg'⟩⟩
    · exact absurd hn'.1 (by decide)
  · intro n hn'
    simp only [List.mem_append, List.mem_singleton, componentKey.mk.injEq] at hn'
    rcases hn' with hn' | hn'
    · obtain ⟨⟨x, hx, hx'⟩, ⟨g, hg, hg'⟩⟩ := h.seen_tool n hn'
      exact ⟨⟨x, List.mem_append_left _ hx, hx'⟩, ⟨g, List.mem_append_left _ hg, hg'⟩⟩
    · exact ⟨⟨c, by simp, hc, hn'.2.symm⟩, ⟨f, by simp, hf, by rw [hn, hn'.2]⟩⟩
  · intro n hn'
    simp only [List.mem_append, List.mem_singleton, componentKey.mk.injEq] at hn'
    rcases hn' with hn' | hn'
    · obtain ⟨x, hx, hx'⟩ := h.seen_framework n hn'
      exact ⟨x, List.mem_append_left _ hx, hx'⟩
    · exact absurd hn'.1 (by decide)
  · intro n hn'
    simp only [List.mem_append, List.mem_singleton, componentKey.mk.injEq] at hn'
    rcases hn' with hn' | hn'
    · exact h.seen_endpoint n hn'
    · exact absurd hn'.1 (by decide)

/-- Recording a service under a new key keeps the ledger. -/
theorem Ledger.add_service {seen comps finds svcs} (h : Ledger seen comps finds svcs)
    (s : Service) (hk : (⟨"endpoint", s.Name⟩ : componentKey) ∉ seen) :
    Ledger (seen ++ [⟨"endpoint", s.Name⟩]) comps finds (svcs ++ [s]) := by
  constructor
  · intro x hx
    exact List.mem_append_left _ (h.comp_seen x hx)
  · exact h.comp_kind
  · exact h.comp_nodup
  · intro g hg
    rcases h.finding_seen g hg with ⟨h1, h2⟩ | ⟨h1, h2⟩
    · exact Or.inl ⟨h1, List.mem_append_left _ h2⟩
    · exact Or.inr ⟨h1, List.mem_append_left _ h2⟩
  · exact h.finding_nodup
  · intro x hx
    rcases List.mem_append.1 hx with hx | hx
    · exact List.mem_append_left _ (h.service_seen x hx)
    · rw [List.mem_singleton] at hx; subst hx; simp
  · refine nodup_map_snoc _ _ _ h.service_nodup ?_
    intro x hx he
    have := h.service_seen x hx
    rw [he] at this
    exact hk this
  · intro n hn'
    simp only [List.mem_append, List.mem_singleton, componentKey.mk.injEq] at hn'
    rcases hn' with hn' | hn'
    · exact h.seen_model n hn'
    · exact absurd hn'.1 (by decide)
  · intro n hn'
    simp only [List.mem_append, List.mem_singleton, componentKey.mk.injEq] at hn'
    rcases hn' with hn' | hn'
    · exact h.seen_tool n hn'
    · exact absurd hn'.1 (by decide)
  · intro n hn'
    simp only [List.mem_append, List.mem_singleton, componentKey.mk.injEq] at hn'
    rcases hn' with hn' | hn'
    · exact h.seen_framework n hn'
    · exact absurd hn'.1 (by decide)
  · intro n hn'
    simp only [List.mem_append, List.mem_singleton, componentKey.mk.injEq] at hn'
    rcases hn' with hn' | hn'
    · obtain ⟨x, hx, hx'⟩ := h.seen_endpoint n hn'
      exact ⟨x, List.mem_append_left _ hx, hx'⟩
    · exact ⟨s, by simp, hn'.2.symm⟩

/-! ## The blocks of the loop body -/

/-- The two outcomes of the framework block. -/
theorem scopeStep_cases (w : Walk) (ss : scopeSpan) :
    scopeStep w ss = w ∨
    ∃ sc, ss.Scope = some sc ∧ sc.Name ≠ "" ∧
      (⟨"framework", sc.Name⟩ : componentKey) ∉ w.seen ∧
      scopeStep w ss = { w with
        seen := w.seen ++ [⟨"framework", sc.Name⟩]
        b := w.b.AddFramework sc.Name sc.Version } := by
  unfold scopeStep
  cases hs : ss.Scope with
  | none => exact Or.inl rfl
  | some sc =>
    by_cases hn : sc.Name = ""
    · left; simp [hn]
    · by_cases hk : (⟨"framework", sc.Name⟩ : componentKey) ∈ w.seen
      · left; simp [hn, hk]
      · right; exact ⟨sc, rfl, hn, hk, by simp [hn, hk]⟩

/-- The two outcomes of the model block. -/
theorem extractModel_cases (rt : Runtime) (w : Walk) (model provider : String) (ts : Time) :
    extractModel rt w model provider ts = w ∨
    (model ≠ "" ∧ (⟨"model", model⟩ : componentKey) ∉ w.seen ∧
      extractModel rt w model provider ts = { w with
        seen := w.seen ++ [⟨"model", model⟩]
        b := (w.b.AddModel model "" provider).AddFinding "model_usage" model 1
              (rt.format ts) (rt.format ts) }) := by
  unfold extractModel
  by_cases hn : model = ""
  · left; simp [hn]
  · by_cases hk : (⟨"model", model⟩ : componentKey) ∈ w.seen
    · left; simp [hn, hk]
    · right; exact ⟨hn, hk, by simp [hn, hk]⟩

/-- The two outcomes of the tool block. -/
theorem extractTool_cases (rt : Runtime) (w : Walk) (tool : String) (ts : Time) :
    extractTool rt w tool ts = w ∨
    (tool ≠ "" ∧ (⟨"tool", tool⟩ : componentKey) ∉ w.seen ∧
      extractTool rt w tool ts = { w with
        seen := w.seen ++ [⟨"tool", tool⟩]
        b := (w.b.AddTool tool "").AddFinding "tool_call" tool 1
              (rt.format ts) (rt.format ts) }) := by
  unfold extractTool
  by_cases hn : tool = ""
  · left; simp [hn]
  · by_cases hk : (⟨"tool", tool⟩ : componentKey) ∈ w.seen
    · left; simp [hn, hk]
    · right; exact ⟨hn, hk, by simp [hn, hk]⟩

/-- The two outcomes of the endpoint block. -/
theorem extractEndpoint_cases (w : Walk) (endpoint provider : String) :
    extractEndpoint w endpoint provider = w ∨
    (endpoint ≠ "" ∧ (⟨"endpoint", endpointHost endpoint⟩ : componentKey) ∉ w.seen ∧
      extractEndpoint w endpoint provider = { w with
        seen := w.seen ++ [⟨"endpoint", endpointHost endpoint⟩]
        b := w.b.AddService (endpointHost endpoint) endpoint provider }) := by
  unfold extractEndpoint
  by_cases hn : endpoint = ""
  · left; simp [hn]
  · by_cases hk : (⟨"endpoint", endpointHost endpoint⟩ : componentKey) ∈ w.seen
    · left; simp [hn, hk]
    · right; exact ⟨hn, hk, by simp [hn, hk]⟩

/-- The counting block leaves the document and the `seen` set alone. -/
theorem countSpan_frame (w : Walk) (sp : rawSpan) :
    (countSpan w sp).b = w.b ∧ (countSpan w sp).seen = w.seen ∧
    (countSpan w sp).earliest = w.earliest ∧ (countSpan w sp).latest = w.latest :=
  ⟨rfl, rfl, rfl, rfl⟩

/-- The window block leaves the document, the `seen` set and the counters alone. -/
theorem updateWindow_frame (w : Walk) (ts : Time) :
    (updateWindow w ts).b = w.b ∧ (updateWindow w ts).seen = w.seen ∧
    (updateWindow w ts).traceIDs = w.traceIDs ∧ (updateWindow w ts).spanCount = w.spanCount := by
  simp only [updateWindow]
  split_ifs <;> exact ⟨rfl, rfl, rfl, rfl⟩

/-- The model block leaves the counters and the window bounds alone. -/
theorem extractModel_frame (rt : Runtime) (w : Walk) (model provider : String) (ts : Time) :
    (extractModel rt w model provider ts).traceIDs = w.traceIDs ∧
    (extractModel rt w model provider ts).spanCount = w.spanCount ∧
    (extractModel rt w model provider ts).earliest = w.earliest ∧
    (extractModel rt w model provider ts).latest = w.latest ∧
    (extractModel rt w model provider ts).b.Evidence.TraceIDs = w.b.Evidence.TraceIDs ∧
    (extractModel rt w model provider ts).b.Evidence.Window = w.b.Evidence.Window := by
  rcases extractModel_cases rt w model provider ts with h | ⟨_, _, h⟩ <;> rw [h] <;>
    exact ⟨rfl, rfl, rfl, rfl, rfl, rfl⟩

/-- The tool block leaves the counters and the window bounds alone. -/
theorem extractTool_frame (rt : Runtime) (w : Walk) (tool : String) (ts : Time) :
    (extractTool rt w tool ts).traceIDs = w.traceIDs ∧
    (extractTool rt w tool ts).spanCount = w.spanCount ∧
    (extractTool rt w tool ts).earliest = w.earliest ∧
    (extractTool rt w tool ts).latest = w.latest ∧
    (extractTool rt w tool ts).b.Evidence.TraceIDs = w.b.Evidence.TraceIDs ∧
    (extractTool rt w tool ts).b.Evidence.Window = w.b.Evidence.Window := by
  rcases extractTool_cases rt w tool ts with h | ⟨_, _, h⟩ <;> rw [h] <;>
    exact ⟨rfl, rfl, rfl, rfl, rfl, rfl⟩

/-- The endpoint block leaves the counters and the window bounds alone. -/
theorem extractEndpoint_frame (w : Walk) (endpoint provider : String) :
    (extractEndpoint w endpoint provider).traceIDs = w.traceIDs ∧
    (extractEndpoint w endpoint provider).spanCount = w.spanCount ∧
    (extractEndpoint w endpoint provider).earliest = w.earliest ∧
    (extractEndpoint w endpoint provider).latest = w.latest ∧
    (extractEndpoint w endpoint provider).b.Evidence.TraceIDs = w.b.Evidence.TraceIDs ∧
    (extractEndpoint w endpoint provider).b.Evidence.Window = w.b.Evidence.Window := by
  rcases extractEndpoint_cases w endpoint provider with h | ⟨_, _, h⟩ <;> rw [h] <;>
    exact ⟨rfl, rfl, rfl, rfl, rfl, rfl⟩

/-- The framework block leaves the counters and the window bounds alone. -/
theorem scopeStep_frame (w : Walk) (ss : scopeSpan) :
    (scopeStep w ss).traceIDs = w.traceIDs ∧
    (scopeStep w ss).spanCount = w.spanCount ∧
    (scopeStep w ss).earliest = w.earliest ∧
    (scopeStep w ss).latest = w.latest ∧
    (scopeStep w ss).b.Evidence.TraceIDs = w.b.Evidence.TraceIDs ∧
    (scopeStep w ss).b.Evidence.Window = w.b.Evidence.Window := by
  rcases scopeStep_cases w ss with h | ⟨_, _, _, _, h⟩ <;> rw [h] <;>
    exact ⟨rfl, rfl, rfl, rfl, rfl, rfl⟩

/-! ### The ledger is kept -/

/-- The framework block keeps the ledger. -/
theorem scopeStep_Inv (w : Walk) (ss : scopeSpan) (h : w.Inv) : (scopeStep w ss).Inv := by
  rcases scopeStep_cases w ss with hs | ⟨sc, _, _, hk, hs⟩
  · rw [hs]; exact h
  · rw [hs]
    exact Ledger.add_framework h
      { Typ := "framework", Name := sc.Name, Version := sc.Version, Provider := "",
        BOMRef := "framework-" ++ bomRef sc.Name sc.Version, Properties := [] } rfl hk

/-- The model block keeps the ledger. -/
theorem extractModel_Inv (rt : Runtime) (w : Walk) (model provider : String) (ts : Time)
    (h : w.Inv) : (extractModel rt w model provider ts).Inv := by
  rcases extractModel_cases rt w model provider ts with hs | ⟨_, hk, hs⟩
  · rw [hs]; exact h
  · rw [hs]
    exact Ledger.add_model h
      { Typ := "model", Name := model, Version := "", Provider := provider,
        BOMRef := "model-" ++ bomRef model "", Properties := [] }
      { Typ := "model_usage", Component := model, Count := 1,
        FirstSeen := rt.format ts, LastSeen := rt.format ts } rfl rfl rfl hk

/-- The tool block keeps the ledger. -/
theorem extractTool_Inv (rt : Runtime) (w : Walk) (tool : String) (ts : Time)
    (h : w.Inv) : (extractTool rt w tool ts).Inv := by
  rcases extractTool_cases rt w tool ts with hs | ⟨_, hk, hs⟩
  · rw [hs]; exact h
  · rw [hs]
    exact Ledger.add_tool h
      { Typ := "tool", Name := tool, Version := "", Provider := "",
        BOMRef := "tool-" ++ bomRef tool "", Properties := [] }
      { Typ := "tool_call", Component := tool, Count := 1,
        FirstSeen := rt.format ts, LastSeen := rt.format ts } rfl rfl rfl hk

/-- The endpoint block keeps the ledger. -/
theorem extractEndpoint_Inv (w : Walk) (endpoint provider : String)
    (h : w.Inv) : (extractEndpoint w endpoint provider).Inv := by
  rcases extractEndpoint_cases w endpoint provider with hs | ⟨_, hk, hs⟩
  · rw [hs]; exact h
  · rw [hs]
    exact Ledger.add_service h
      { Name := endpointHost endpoint, Endpoint := endpoint, Provider := provider } hk

/-- The counting and window blocks keep the ledger. -/
theorem countWindow_Inv (w : Walk) (sp : rawSpan) (ts : Time) (h : w.Inv) :
    (updateWindow (countSpan w sp) ts).Inv := by
  unfold Walk.Inv
  rw [(updateWindow_frame _ ts).1, (updateWindow_frame _ ts).2.1]
  exact h

/-- The loop body over a span keeps the ledger. -/
theorem spanStep_Inv (rt : Runtime) (cfg : Config) (w : Walk) (sp : rawSpan) (h : w.Inv) :
    (spanStep rt cfg w sp).Inv := by
  unfold spanStep
  exact extractEndpoint_Inv _ _ _ (extractTool_Inv rt _ _ _
    (extractModel_Inv rt _ _ _ _ (countWindow_Inv w sp _ h)))

/-- Every visit keeps the ledger. -/
theorem eventStep_Inv (rt : Runtime) (cfg : Config) (w : Walk) (ev : Event) (h : w.Inv) :
    (eventStep rt cfg w ev).Inv := by
  cases ev with
  | scope ss => exact scopeStep_Inv w ss h
  | span sp => exact spanStep_Inv rt cfg w sp h

/-- The ledger holds after any number of visits. -/
theorem walk_Inv (rt : Runtime) (cfg : Config) (appName : ByteString) (evs : List Event) :
    (evs.foldl (eventStep rt cfg) (Walk.start rt appName)).Inv :=
  walk_induction rt cfg (fun _ w => w.Inv) (Walk.start rt appName)
    (show (Walk.start rt appName).Inv from Ledger.nil)
    (fun _ w ev h => eventStep_Inv rt cfg w ev h) evs

/-! ### What a visit adds -/

/-- The loop body over a span, as what it appends to each list. -/
theorem spanStep_eq (rt : Runtime) (cfg : Config) (w : Walk) (sp : rawSpan) :
    (spanStep rt cfg w sp).seen = w.seen
        ++ (if modelIsNew cfg w sp then [⟨"model", getStr sp.Attributes cfg.ModelAttrs⟩] else [])
        ++ (if toolIsNew cfg w sp then [⟨"tool", getStr sp.Attributes cfg.ToolAttrs⟩] else [])
        ++ (if endpointIsNew cfg w sp then
              [⟨"endpoint", endpointHost (getStr sp.Attributes cfg.EndpointAttrs)⟩] else []) ∧
    (spanStep rt cfg w sp).b.Components = w.b.Components
        ++ (if modelIsNew cfg w sp then [modelComponent cfg sp] else [])
        ++ (if toolIsNew cfg w sp then [toolComponent cfg sp] else []) ∧
    (spanStep rt cfg w sp).b.Evidence.Findings = w.b.Evidence.Findings
        ++ (if modelIsNew cfg w sp then [modelFinding rt cfg sp] else [])
        ++ (if toolIsNew cfg w sp then [toolFinding rt cfg sp] else []) ∧
    (spanStep rt cfg w sp).b.Services = w.b.Services
        ++ (if endpointIsNew cfg w sp then [endpointService cfg sp] else []) := by
  simp only [modelIsNew, toolIsNew, endpointIsNew, spanStep, extractModel, extractTool,
    extractEndpoint, (updateWindow_frame _ _).1, (updateWindow_frame _ _).2.1,
    (countSpan_frame _ _).1, (countSpan_frame _ _).2.1]
  by_cases hm : getStr sp.Attributes cfg.ModelAttrs = "" <;>
  by_cases ht : getStr sp.Attributes cfg.ToolAttrs = "" <;>
  by_cases he : getStr sp.Attributes cfg.EndpointAttrs = "" <;>
  by_cases hmk : (⟨"model", getStr sp.Attributes cfg.ModelAttrs⟩ : componentKey) ∈ w.seen <;>
  by_cases htk : (⟨"tool", getStr sp.Attributes cfg.ToolAttrs⟩ : componentKey) ∈ w.seen <;>
  by_cases hek : (⟨"endpoint", endpointHost (getStr sp.Attributes cfg.EndpointAttrs)⟩ :
      componentKey) ∈ w.seen <;>
  simp [hm, ht, he, hmk, htk, hek, (updateWindow_frame _ _).1, (updateWindow_frame _ _).2.1,
    (countSpan_frame _ _).1, (countSpan_frame _ _).2.1, AIBOM.AddModel, AIBOM.AddTool,
    AIBOM.AddFinding, AIBOM.AddService, modelComponent, toolComponent, modelFinding,
    toolFinding, endpointService]

/-- The framework block, as what it appends to each list. -/
theorem scopeStep_eq (w : Walk) (ss : scopeSpan) :
    (scopeStep w ss).seen =
      w.seen ++ (newFramework w ss).map (fun sc => (⟨"framework", sc.Name⟩ : componentKey)) ∧
    (scopeStep w ss).b.Components = w.b.Components ++ (newFramework w ss).map frameworkComponent ∧
    (scopeStep w ss).b.Evidence.Findings = w.b.Evidence.Findings ∧
    (scopeStep w ss).b.Services = w.b.Services := by
  unfold scopeStep newFramework
  cases ss.Scope with
  | none => simp
  | some sc =>
    by_cases hn : sc.Name = "" <;>
    by_cases hk : (⟨"framework", sc.Name⟩ : componentKey) ∈ w.seen <;>
    simp [hn, hk, AIBOM.AddFramework, frameworkComponent]

/-- Where a scope that the framework block records comes from. -/
theorem mem_newFramework (w : Walk) (ss : scopeSpan) (sc : scope) :
    sc ∈ newFramework w ss ↔
      ss.Scope = some sc ∧ sc.Name ≠ "" ∧ (⟨"framework", sc.Name⟩ : componentKey) ∉ w.seen := by
  unfold newFramework
  cases hs : ss.Scope with
  | none => simp
  | some sc' =>
    by_cases hc : sc'.Name ≠ "" ∧ (⟨"framework", sc'.Name⟩ : componentKey) ∉ w.seen
    · simp only [if_pos hc, List.mem_singleton]
      constructor
      · intro h; subst h; exact ⟨rfl, hc⟩
      · intro h; exact (Option.some.inj h.1).symm
    · simp only [if_neg hc]
      constructor
      · intro h; exact absurd h (List.not_mem_nil _)
      · intro h
        have : sc' = sc := Option.some.inj h.1
        subst this
        exact absurd h.2 hc

/-- An origin stays one after more visits. -/
theorem Component.Origin.mono {cfg : Config} {evs : List Event} {c : Component}
    (h : Component.Origin cfg evs c) (ev : Event) : Component.Origin cfg (evs ++ [ev]) c := by
  rcases h with ⟨sp, h1, h2⟩ | ⟨sp, h1, h2⟩ | ⟨ss, sc, h1, h2⟩
  · exact Or.inl ⟨sp, List.mem_append_left _ h1, h2⟩
  · exact Or.inr (Or.inl ⟨sp, List.mem_append_left _ h1, h2⟩)
  · exact Or.inr (Or.inr ⟨ss, sc, List.mem_append_left _ h1, h2⟩)

/-- Every Component of the walk was recorded at some visit. -/
theorem walk_component_origin (rt : Runtime) (cfg : Config) (appName : ByteString)
    (evs : List Event) :
    ∀ c ∈ (evs.foldl (eventStep rt cfg) (Walk.start rt appName)).b.Components,
      Component.Origin cfg evs c := by
  refine walk_induction rt cfg (fun evs w => ∀ c ∈ w.b.Components, Component.Origin cfg evs c)
    (Walk.start rt appName) ?_ ?_ evs
  · intro c hc; simp [Walk.start, New] at hc
  · intro evs w ev ih c hc
    cases ev with
    | scope ss =>
      simp only [eventStep, (scopeStep_eq w ss).2.1, List.mem_append, List.mem_map] at hc
      rcases hc with hc | ⟨sc, hsc, rfl⟩
      · exact (ih c hc).mono _
      · have := (mem_newFramework w ss sc).1 hsc
        exact Or.inr (Or.inr ⟨ss, sc, by simp, this.1, this.2.1, rfl⟩)
    | span sp =>
      simp only [eventStep, (spanStep_eq rt cfg w sp).2.1, List.mem_append] at hc
      rcases hc with (hc | hc) | hc
      · exact (ih c hc).mono _
      · by_cases hn : modelIsNew cfg w sp
        · rw [if_pos hn, List.mem_singleton] at hc
          exact Or.inl ⟨sp, by simp, hn.1, hc⟩
        · rw [if_neg hn] at hc; exact absurd hc (List.not_mem_nil _)
      · by_cases hn : toolIsNew cfg w sp
        · rw [if_pos hn, List.mem_singleton] at hc
          exact Or.inr (Or.inl ⟨sp, by simp, hn.1, hc⟩)
        · rw [if_neg hn] at hc; exact absurd hc (List.not_mem_nil _)

/-- The `seen` set only grows along a visit. -/
theorem eventStep_seen_mono (rt : Runtime) (cfg : Config) (w : Walk) (ev : Event)
    (k : componentKey) (hk : k ∈ w.seen) : k ∈ (eventStep rt cfg w ev).seen := by
  cases ev with
  | scope ss =>
    simp only [eventStep, (scopeStep_eq w ss).1]
    exact List.mem_append_left _ hk
  | span sp =>
    simp only [eventStep, (spanStep_eq rt cfg w sp).1]
    exact List.mem_append_left _ (List.mem_append_left _ (List.mem_append_left _ hk))

/-- Every identity met along the walk is in the `seen` set. -/
theorem walk_registered (rt : Runtime) (cfg : Config) (appName : ByteString) (evs : List Event) :
    Registered cfg evs (evs.foldl (eventStep rt cfg) (Walk.start rt appName)).seen := by
  refine walk_induction rt cfg (fun evs w => Registered cfg evs w.seen)
    (Walk.start rt appName) ?_ ?_ evs
  · refine ⟨?_, ?_, ?_, ?_⟩ <;> intros <;> simp_all
  · intro evs w ev ih
    obtain ⟨ih1, ih2, ih3, ih4⟩ := ih
    refine ⟨?_, ?_, ?_, ?_⟩
    · intro sp hsp hne
      rcases List.mem_append.1 hsp with hsp | hsp
      · exact eventStep_seen_mono rt cfg w ev _ (ih1 sp hsp hne)
      · rw [List.mem_singleton] at hsp; subst hsp
        simp only [eventStep, (spanStep_eq rt cfg w sp).1, modelIsNew]
        by_cases hk : (⟨"model", getStr sp.Attributes cfg.ModelAttrs⟩ : componentKey) ∈ w.seen
        · simp [hk]
        · simp [hk, hne]
    · intro sp hsp hne
      rcases List.mem_append.1 hsp with hsp | hsp
      · exact eventStep_seen_mono rt cfg w ev _ (ih2 sp hsp hne)
      · rw [List.mem_singleton] at hsp; subst hsp
        simp only [eventStep, (spanStep_eq rt cfg w sp).1, toolIsNew]
        by_cases hk : (⟨"tool", getStr sp.Attributes cfg.ToolAttrs⟩ : componentKey) ∈ w.seen
        · simp [hk]
        · simp [hk, hne]
    · intro sp hsp hne
      rcases List.mem_append.1 hsp with hsp | hsp
      · exact eventStep_seen_mono rt cfg w ev _ (ih3 sp hsp hne)
      · rw [List.mem_singleton] at hsp; subst hsp
        simp only [eventStep, (spanStep_eq rt cfg w sp).1, endpointIsNew]
        by_cases hk : (⟨"endpoint", endpointHost (getStr sp.Attributes cfg.EndpointAttrs)⟩ :
            componentKey) ∈ w.seen
        · simp [hk]
        · simp [hk, hne]
    · intro ss sc hss hsc hne
      rcases List.mem_append.1 hss with hss | hss
      · exact eventStep_seen_mono rt cfg w ev _ (ih4 ss sc hss hsc hne)
      · rw [List.mem_singleton] at hss; subst hss
        simp only [eventStep, (scopeStep_eq w ss).1, List.mem_append, List.mem_map]
        by_cases hk : (⟨"framework", sc.Name⟩ : componentKey) ∈ w.seen
        · exact Or.inl hk
        · exact Or.inr ⟨sc, (mem_newFramework w ss sc).2 ⟨hsc, hne, hk⟩, rfl⟩

/-! ### The last block -/

/-- The closing block leaves the Components, Services and Findings alone. -/
theorem finish_lists (rt : Runtime) (w : Walk) :
    (w.finish rt).Components = w.b.Components ∧
    (w.finish rt).Services = w.b.Services ∧
    (w.finish rt).Evidence.Findings = w.b.Evidence.Findings ∧
    (w.finish rt).Metadata = w.b.Metadata := by
  unfold Walk.finish
  refine ⟨rfl, rfl, ?_, rfl⟩
  dsimp only
  split_ifs <;> rfl

/-- The lists of the result are those of the walk. -/
theorem collect_lists (rt : Runtime) (xp : otlpExport) (appName : ByteString) (cfg : Config) :
    (collect rt xp appName cfg).Components =
      (xp.events.foldl (eventStep rt cfg) (Walk.start rt appName)).b.Components ∧
    (collect rt xp appName cfg).Services =
      (xp.events.foldl (eventStep rt cfg) (Walk.start rt appName)).b.Services ∧
    (collect rt xp appName cfg).Evidence.Findings =
      (xp.events.foldl (eventStep rt cfg) (Walk.start rt appName)).b.Evidence.Findings := by
  rw [collect_eq]
  exact ⟨(finish_lists rt _).1, (finish_lists rt _).2.1, (finish_lists rt _).2.2.1⟩

/-- In a list without two elements of the same key, a key that occurs does so once. -/
theorem filter_key_length_one {α β : Type} [DecidableEq β] (f : α → β) (l : List α) (k : β)
    (hnd : (l.map f).Nodup) (hex : ∃ x ∈ l, f x = k) :
    (l.filter fun x => f x = k).length = 1 := by
  induction l with
  | nil => obtain ⟨x, hx, _⟩ := hex; exact absurd hx (List.not_mem_nil _)
  | cons a rest ih =>
    rw [List.map_cons, List.nodup_cons] at hnd
    by_cases ha : f a = k
    · have hrest : rest.filter (fun x => decide (f x = k)) = [] := by
        rw [List.filter_eq_nil_iff]
        intro x hx hxk
        have hxk' : f x = k := of_decide_eq_true hxk
        exact hnd.1 (List.mem_map.2 ⟨x, hx, by rw [hxk', ha]⟩)
      simp [List.filter_cons, ha, hrest]
    · obtain ⟨x, hx, hxk⟩ := hex
      rcases List.mem_cons.1 hx with hx | hx
      · subst hx; exact absurd hxk ha
      · simp only [List.filter_cons, ha, decide_False, Bool.false_eq_true, if_false]
        exact ih hnd.2 ⟨x, hx, hxk⟩

/-! ## Dedup and extraction -/

/-- C2. The inventory returned for a parsed trace holds no two Components
with the same (Type, Name) and no two Findings with the same (Type,
Component); whenever at least one span resolves a model name (a tool name),
however many spans do, there is exactly one Component of that kind and name
and exactly one Finding for it. -/
theorem collect_dedup (rt : Runtime) (xp : otlpExport) (appName : ByteString) (cfg : Config) :
    ((collect rt xp appName cfg).Components.map fun c => (c.Typ, c.Name)).Nodup ∧
    ((collect rt xp appName cfg).Evidence.Findings.map fun f => (f.Typ, f.Component)).Nodup ∧
    (∀ sp ∈ xp.allSpans, getStr sp.Attributes cfg.ModelAttrs ≠ "" →
      ((collect rt xp appName cfg).Components.filter fun c =>
          (c.Typ, c.Name) = ("model", getStr sp.Attributes cfg.ModelAttrs)).length = 1 ∧
      ((collect rt xp appName cfg).Evidence.Findings.filter fun f =>
          (f.Typ, f.Component) = ("model_usage", getStr sp.Attributes cfg.ModelAttrs)).length
        = 1) ∧
    (∀ sp ∈ xp.allSpans, getStr sp.Attributes cfg.ToolAttrs ≠ "" →
      ((collect rt xp appName cfg).Components.filter fun c =>
          (c.Typ, c.Name) = ("tool", getStr sp.Attributes cfg.ToolAttrs)).length = 1 ∧
      ((collect rt xp appName cfg).Evidence.Findings.filter fun f =>
          (f.Typ, f.Component) = ("tool_call", getStr sp.Attributes cfg.ToolAttrs)).length
        = 1) := by
  obtain ⟨hc, _, hf⟩ := collect_lists rt xp appName cfg
  have hinv := walk_Inv rt cfg appName xp.events
  have hreg := walk_registered rt cfg appName xp.events
  rw [hc, hf]
  refine ⟨hinv.comp_nodup, hinv.finding_nodup, ?_, ?_⟩
  · intro sp hsp hne
    have hk := hreg.1 sp ((mem_events_span xp sp).2 hsp) hne
    obtain ⟨⟨c, hcm, hct, hcn⟩, ⟨f, hfm, hft, hfn⟩⟩ := hinv.seen_model _ hk
    exact ⟨filter_key_length_one _ _ _ hinv.comp_nodup ⟨c, hcm, by rw [hct, hcn]⟩,
      filter_key_length_one _ _ _ hinv.finding_nodup ⟨f, hfm, by rw [hft, hfn]⟩⟩
  · intro sp hsp hne
    have hk := hreg.2.1 sp ((mem_events_span xp sp).2 hsp) hne
    obtain ⟨⟨c, hcm, hct, hcn⟩, ⟨f, hfm, hft, hfn⟩⟩ := hinv.seen_tool _ hk
    exact ⟨filter_key_length_one _ _ _ hinv.comp_nodup ⟨c, hcm, by rw [hct, hcn]⟩,
      filter_key_length_one _ _ _ hinv.finding_nodup ⟨f, hfm, by rw [hft, hfn]⟩⟩

/-- Witness of C2: the two gpt-4 spans of `TestDeduplicatesModels` give one
model Component and one Finding. -/
theorem collect_dedup_witness :
    ((collect utcRuntime dedupTrace (stringBytes "test") DefaultConfig).Components.filter fun c =>
        (c.Typ, c.Name) = ("model", "gpt-4")).length = 1 ∧
    ((collect utcRuntime dedupTrace (stringBytes "test") DefaultConfig).Evidence.Findings.filter fun f =>
        (f.Typ, f.Component) = ("model_usage", "gpt-4")).length = 1 :=
  (collect_dedup utcRuntime dedupTrace (stringBytes "test") DefaultConfig).2.2.1
    { TraceID := "t1", Name := "chat gpt-4 again", StartNano := "1700000000100000000",
      Attributes := [strAttr "gen_ai.request.model" "gpt-4"] }
    (by decide!) (by decide!)

/-! ## Counters, trace IDs and the window -/

/-- The window block, bound by bound. -/
theorem updateWindow_eq (w : Walk) (ts : Time) :
    (updateWindow w ts).earliest =
      (if ts.IsZero then w.earliest
       else if w.earliest.IsZero || ts.Before w.earliest then ts else w.earliest) ∧
    (updateWindow w ts).latest =
      (if ts.IsZero then w.latest
       else if w.latest.IsZero || ts.After w.latest then ts else w.latest) := by
  simp only [updateWindow]
  by_cases h0 : ts.IsZero = true <;>
  by_cases h1 : (w.earliest.IsZero || ts.Before w.earliest) = true <;>
  by_cases h2 : (w.latest.IsZero || ts.After w.latest) = true <;>
  simp [h0, h1, h2]

/-- The loop body over a span, as what it does to the counters and bounds. -/
theorem spanStep_counters (rt : Runtime) (cfg : Config) (w : Walk) (sp : rawSpan) :
    (spanStep rt cfg w sp).spanCount = w.spanCount + 1 ∧
    (spanStep rt cfg w sp).traceIDs =
      (if sp.TraceID ∈ w.traceIDs then w.traceIDs else w.traceIDs ++ [sp.TraceID]) ∧
    (spanStep rt cfg w sp).earliest = (updateWindow w (parseNanos sp.StartNano)).earliest ∧
    (spanStep rt cfg w sp).latest = (updateWindow w (parseNanos sp.StartNano)).latest ∧
    (spanStep rt cfg w sp).b.Evidence.TraceIDs = w.b.Evidence.TraceIDs ∧
    (spanStep rt cfg w sp).b.Evidence.Window = w.b.Evidence.Window := by
  unfold spanStep
  simp only [(extractEndpoint_frame _ _ _).1, (extractEndpoint_frame _ _ _).2.1,
    (extractEndpoint_frame _ _ _).2.2.1, (extractEndpoint_frame _ _ _).2.2.2.1,
    (extractEndpoint_frame _ _ _).2.2.2.2.1, (extractEndpoint_frame _ _ _).2.2.2.2.2,
    (extractTool_frame _ _ _ _).1, (extractTool_frame _ _ _ _).2.1,
    (extractTool_frame _ _ _ _).2.2.1, (extractTool_frame _ _ _ _).2.2.2.1,
    (extractTool_frame _ _ _ _).2.2.2.2.1, (extractTool_frame _ _ _ _).2.2.2.2.2,
    (extractModel_frame _ _ _ _ _).1, (extractModel_frame _ _ _ _ _).2.1,
    (extractModel_frame _ _ _ _ _).2.2.1, (extractModel_frame _ _ _ _ _).2.2.2.1,
    (extractModel_frame _ _ _ _ _).2.2.2.2.1, (extractModel_frame _ _ _ _ _).2.2.2.2.2,
    (updateWindow_frame _ _).1, (updateWindow_frame _ _).2.2.1, (updateWindow_frame _ _).2.2.2,
    (updateWindow_eq _ _).1, (updateWindow_eq _ _).2]
  exact ⟨rfl, rfl, rfl, rfl, rfl, rfl⟩

/-- The spans among the visits of a group are its spans. -/
theorem eventSpans_scopeSpan (ss : scopeSpan) : eventSpans ss.events = ss.Spans := by
  unfold eventSpans scopeSpan.events
  rw [List.filterMap_cons]
  simp only [Event.span?]
  induction ss.Spans with
  | nil => rfl
  | cons sp rest ih => rw [List.map_cons, List.filterMap_cons]; simp only [Event.span?]; rw [ih]

/-- The spans among the visits of an export are its spans, in document order. -/
theorem eventSpans_events (xp : otlpExport) : eventSpans xp.events = xp.allSpans := by
  unfold otlpExport.events otlpExport.allSpans
  induction xp.allScopeSpans with
  | nil => rfl
  | cons ss rest ih =>
    rw [List.flatMap_cons, List.flatMap_cons]
    unfold eventSpans at ih ⊢
    rw [List.filterMap_append, ih]
    have := eventSpans_scopeSpan ss
    unfold eventSpans at this
    rw [this]

/-- The spans among the visits, one visit later. -/
theorem eventSpans_snoc (evs : List Event) (ev : Event) :
    eventSpans (evs ++ [ev]) = eventSpans evs ++ (match ev with
      | Event.scope _ => []
      | Event.span sp => [sp]) := by
  unfold eventSpans
  rw [List.filterMap_append]
  cases ev <;> rfl

/-- The counters of the walk: the span count is the number of spans visited,
the trace-ID set holds each trace ID of a visited span once, and the
evidence fields that only the closing block writes are still empty. -/
theorem walk_counters (rt : Runtime) (cfg : Config) (appName : ByteString) (evs : List Event) :
    (evs.foldl (eventStep rt cfg) (Walk.start rt appName)).spanCount
        = ((eventSpans evs).length : Int) ∧
    (evs.foldl (eventStep rt cfg) (Walk.start rt appName)).traceIDs.Nodup ∧
    (∀ tid, tid ∈ (evs.foldl (eventStep rt cfg) (Walk.start rt appName)).traceIDs ↔
        ∃ sp ∈ eventSpans evs, sp.TraceID = tid) ∧
    (evs.foldl (eventStep rt cfg) (Walk.start rt appName)).b.Evidence.TraceIDs = [] ∧
    (evs.foldl (eventStep rt cfg) (Walk.start rt appName)).b.Evidence.Window = none := by
  refine walk_induction rt cfg (fun evs w =>
    w.spanCount = ((eventSpans evs).length : Int) ∧ w.traceIDs.Nodup ∧
    (∀ tid, tid ∈ w.traceIDs ↔ ∃ sp ∈ eventSpans evs, sp.TraceID = tid) ∧
    w.b.Evidence.TraceIDs = [] ∧ w.b.Evidence.Window = none)
    (Walk.start rt appName) ?_ ?_ evs
  · simp [Walk.start, New, eventSpans]
  · intro evs w ev ⟨h1, h2, h3, h4, h5⟩
    cases ev with
    | scope ss =>
      have hf := scopeStep_frame w ss
      simp only [eventStep, eventSpans_snoc, List.append_nil, hf.1, hf.2.1, hf.2.2.2.2.1,
        hf.2.2.2.2.2]
      exact ⟨h1, h2, h3, h4, h5⟩
    | span sp =>
      have hc := spanStep_counters rt cfg w sp
      simp only [eventStep, eventSpans_snoc, hc.1, hc.2.1, hc.2.2.2.2.1, hc.2.2.2.2.2]
      refine ⟨?_, ?_, ?_, h4, h5⟩
      · rw [h1, List.length_append]; simp
      · by_cases hm : sp.TraceID ∈ w.traceIDs
        · rw [if_pos hm]; exact h2
        · rw [if_neg hm]
          exact List.Nodup.append h2 (List.nodup_singleton _)
            (by intro x hx hy; rw [List.mem_singleton] at hy; subst hy; exact hm hx)
      · intro tid
        by_cases hm : sp.TraceID ∈ w.traceIDs
        · rw [if_pos hm, h3]
          constructor
          · rintro ⟨s, hs, rfl⟩; exact ⟨s, List.mem_append_left _ hs, rfl⟩
          · rintro ⟨s, hs, rfl⟩
            rcases List.mem_append.1 hs with hs | hs
            · exact ⟨s, hs, rfl⟩
            · rw [List.mem_singleton] at hs; subst hs; exact (h3 _).1 hm
        · rw [if_neg hm, List.mem_append, h3, List.mem_singleton]
          constructor
          · rintro (⟨s, hs, rfl⟩ | rfl)
            · exact ⟨s, List.mem_append_left _ hs, rfl⟩
            · exact ⟨sp, by simp, rfl⟩
          · rintro ⟨s, hs, rfl⟩
            rcases List.mem_append.1 hs with hs | hs
            · exact Or.inl ⟨s, hs, rfl⟩
            · rw [List.mem_singleton] at hs; subst hs; exact Or.inr rfl

/-- The closing block: span count, trace IDs and window of the result. -/
theorem finish_evidence (rt : Runtime) (w : Walk) :
    (w.finish rt).Evidence.SpanCount = w.spanCount ∧
    (w.finish rt).Evidence.TraceIDs = w.b.Evidence.TraceIDs ++ rt.mapOrder w.traceIDs ∧
    (w.finish rt).Evidence.Window =
      (if !w.earliest.IsZero && !w.latest.IsZero then
        some { Start := rt.format w.earliest, End := rt.format w.latest }
       else w.b.Evidence.Window) := by
  unfold Walk.finish
  dsimp only
  split_ifs <;> exact ⟨rfl, rfl, rfl⟩

/-- C6. `Evidence.SpanCount` is the total number of spans over all groups;
`Evidence.TraceIDs` has no duplicates and exactly the trace identifiers that
the spans carry as members, so its length is the number of distinct trace
identifiers and is at most the span count. -/
theorem collect_evidence_counts (rt : Runtime) (xp : otlpExport) (appName : ByteString)
    (cfg : Config) :
    (collect rt xp appName cfg).Evidence.SpanCount = (xp.allSpans.length : Int) ∧
    (collect rt xp appName cfg).Evidence.TraceIDs.Nodup ∧
    (∀ tid, tid ∈ (collect rt xp appName cfg).Evidence.TraceIDs ↔
        ∃ sp ∈ xp.allSpans, sp.TraceID = tid) ∧
    (collect rt xp appName cfg).Evidence.TraceIDs.length =
        ((xp.allSpans.map fun sp => sp.TraceID).dedup).length ∧
    ((collect rt xp appName cfg).Evidence.TraceIDs.length : Int) ≤
        (collect rt xp appName cfg).Evidence.SpanCount := by
  obtain ⟨h1, h2, h3, h4, _⟩ := walk_counters rt cfg appName xp.events
  rw [eventSpans_events] at h1 h3
  obtain ⟨f1, f2, _⟩ := finish_evidence rt (xp.events.foldl (eventStep rt cfg) (Walk.start rt appName))
  rw [h4, List.nil_append] at f2
  rw [collect_eq, f1, f2, h1]
  have hp := rt.mapOrder_perm (xp.events.foldl (eventStep rt cfg) (Walk.start rt appName)).traceIDs
  have hnd : (rt.mapOrder
      (xp.events.foldl (eventStep rt cfg) (Walk.start rt appName)).traceIDs).Nodup :=
    hp.nodup_iff.2 h2
  have hmem : ∀ tid, tid ∈ rt.mapOrder
      (xp.events.foldl (eventStep rt cfg) (Walk.start rt appName)).traceIDs ↔
        ∃ sp ∈ xp.allSpans, sp.TraceID = tid := by
    intro tid; rw [hp.mem_iff]; exact h3 tid
  have hlen : (rt.mapOrder
      (xp.events.foldl (eventStep rt cfg) (Walk.start rt appName)).traceIDs).length =
        ((xp.allSpans.map fun sp => sp.TraceID).dedup).length := by
    apply List.Perm.length_eq
    rw [List.perm_ext_iff_of_nodup hnd (List.nodup_dedup _)]
    intro tid
    rw [hmem, List.mem_dedup, List.mem_map]
  refine ⟨rfl, hnd, hmem, hlen, ?_⟩
  rw [hlen]
  have := (List.dedup_sublist (xp.allSpans.map fun sp => sp.TraceID)).length_le
  rw [List.length_map] at this
  exact_mod_cast this

/-! ### parseNanos -/

/-- What `%d` scans fits an `int64`. -/
theorem scanInt64_range (input : List Char) (n : Int) (h : scanInt64 input = some n) :
    -(2 : Int) ^ 63 ≤ n ∧ n ≤ 2 ^ 63 - 1 := by
  unfold scanInt64 at h
  split at h
  · exact absurd h (by simp)
  · exact absurd h (by simp)
  · rename_i r rest _
    simp only at h
    split_ifs at h with h1 h2 h3 h4
    all_goals try cases h
    all_goals constructor <;> push_cast <;> omega

/-- A timestamp is the zero Time exactly when `Sscanf` left `ns` at 0: it
failed, or it read the number 0. -/
theorem parseNanos_isZero (s : String) :
    (parseNanos s).IsZero = true ↔ (scanInt64 s.data).getD 0 = 0 := by
  unfold parseNanos
  by_cases h0 : (scanInt64 s.data).getD 0 = 0
  · simp only [h0, if_true]
    exact ⟨fun _ => trivial, fun _ => rfl⟩
  · simp only [h0, if_false]
    constructor
    · intro hz
      exfalso
      cases hs : scanInt64 s.data with
      | none => rw [hs] at h0; exact h0 rfl
      | some n =>
        have hr := scanInt64_range _ _ hs
        rw [hs] at hz
        simp only [Option.getD_some, Time.IsZero, Time.Unix, Time.zero, beq_iff_eq] at hz
        omega
    · intro hc; exact absurd hc (by trivial)

/-! ### The window -/

/-- A time is zero iff it is the zero Time. -/
theorem Time.isZero_iff (t : Time) : t.IsZero = true ↔ t = Time.zero := by
  cases t with
  | mk i =>
    simp only [Time.IsZero, beq_iff_eq]
    constructor
    · intro h; show Time.mk i = Time.mk Time.zero.instant; rw [h]
    · intro h; exact congrArg Time.instant h

/-- The valid timestamps are not zero. -/
theorem validTimesOf_ne_zero (sps : List rawSpan) (t : Time) (h : t ∈ validTimesOf sps) :
    t.IsZero = false := by
  unfold validTimesOf at h
  have := (List.mem_filter.1 h).2
  simpa using this

/-- The valid timestamps, one span later. -/
theorem validTimesOf_snoc (sps : List rawSpan) (sp : rawSpan) :
    validTimesOf (sps ++ [sp]) = validTimesOf sps ++
      (if (parseNanos sp.StartNano).IsZero then [] else [parseNanos sp.StartNano]) := by
  unfold validTimesOf
  rw [List.map_append, List.filter_append]
  by_cases h : (parseNanos sp.StartNano).IsZero = true <;> simp [h]

/-- The window block keeps the bounds: after a span, `earliest` and `latest`
are the least and the greatest valid timestamp seen. -/
theorem updateWindow_bounds (w : Walk) (sps : List rawSpan) (sp : rawSpan)
    (h : Bounds (validTimesOf sps) w.earliest w.latest) :
    Bounds (validTimesOf (sps ++ [sp]))
      (updateWindow w (parseNanos sp.StartNano)).earliest
      (updateWindow w (parseNanos sp.StartNano)).latest := by
  rw [validTimesOf_snoc, (updateWindow_eq _ _).1, (updateWindow_eq _ _).2]
  by_cases hz : (parseNanos sp.StartNano).IsZero = true
  · simp only [hz, if_true, List.append_nil]; exact h
  · simp only [hz, Bool.false_eq_true, if_false]
    by_cases hv : validTimesOf sps = []
    · obtain ⟨he, hl⟩ := h.1 hv
      have hez : w.earliest.IsZero = true := (Time.isZero_iff _).2 he
      have hlz : w.latest.IsZero = true := (Time.isZero_iff _).2 hl
      simp only [hv, hez, hlz, Bool.true_or, if_true, List.nil_append]
      refine ⟨fun hc => absurd hc (by simp), fun _ => ⟨by simp, by simp, ?_⟩⟩
      intro t ht
      rw [List.mem_singleton] at ht; subst ht
      exact ⟨le_refl _, le_refl _⟩
    · obtain ⟨hem, hlm, hb⟩ := h.2 hv
      have hez : w.earliest.IsZero = false := validTimesOf_ne_zero _ _ hem
      have hlz : w.latest.IsZero = false := validTimesOf_ne_zero _ _ hlm
      simp only [hez, hlz, Bool.false_or, Time.Before, Time.After, decide_eq_true_eq]
      refine ⟨fun hc => absurd hc (by simp), fun _ => ⟨?_, ?_, ?_⟩⟩
      · by_cases hlt : (parseNanos sp.StartNano).instant < w.earliest.instant
        · rw [if_pos hlt]; simp
        · rw [if_neg hlt]; exact List.mem_append_left _ hem
      · by_cases hgt : (parseNanos sp.StartNano).instant > w.latest.instant
        · rw [if_pos hgt]; simp
        · rw [if_neg hgt]; exact List.mem_append_left _ hlm
      · intro t ht
        rcases List.mem_append.1 ht with ht | ht
        · have := hb t ht
          constructor
          · by_cases hlt : (parseNanos sp.StartNano).instant < w.earliest.instant
            · rw [if_pos hlt]; omega
            · rw [if_neg hlt]; exact this.1
          · by_cases hgt : (parseNanos sp.StartNano).instant > w.latest.instant
            · rw [if_pos hgt]; omega
            · rw [if_neg hgt]; exact this.2
        · rw [List.mem_singleton] at ht; subst ht
          have hel := hb _ hem
          constructor
          · by_cases hlt : (parseNanos sp.StartNano).instant < w.earliest.instant
            · rw [if_pos hlt]
            · rw [if_neg hlt]; omega
          · by_cases hgt : (parseNanos sp.StartNano).instant > w.latest.instant
            · rw [if_pos hgt]
            · rw [if_neg hgt]; omega

/-- The bounds hold along the walk. -/
theorem walk_bounds (rt : Runtime) (cfg : Config) (appName : ByteString) (evs : List Event) :
    Bounds (validTimesOf (eventSpans evs))
      (evs.foldl (eventStep rt cfg) (Walk.start rt appName)).earliest
      (evs.foldl (eventStep rt cfg) (Walk.start rt appName)).latest := by
  refine walk_induction rt cfg
    (fun evs w => Bounds (validTimesOf (eventSpans evs)) w.earliest w.latest)
    (Walk.start rt appName) ?_ ?_ evs
  · exact ⟨fun _ => ⟨rfl, rfl⟩, fun h => absurd rfl h⟩
  · intro evs w ev ih
    cases ev with
    | scope ss =>
      have hf := scopeStep_frame w ss
      simp only [eventStep, eventSpans_snoc, List.append_nil, hf.2.2.1, hf.2.2.2.1]
      exact ih
    | span sp =>
      have hc := spanStep_counters rt cfg w sp
      simp only [eventStep, eventSpans_snoc, hc.2.2.1, hc.2.2.2.1]
      exact updateWindow_bounds w _ sp ih

/-- The window of the result: absent without a valid timestamp, else the
formatted bounds of the walk. -/
theorem window_of_walk (rt : Runtime) (xp : otlpExport) (appName : ByteString) (cfg : Config) :
    (xp.validTimes = [] → (collect rt xp appName cfg).Evidence.Window = none) ∧
    (xp.validTimes ≠ [] → ∃ lo hi, lo ∈ xp.validTimes ∧ hi ∈ xp.validTimes ∧
      (∀ t ∈ xp.validTimes, lo.instant ≤ t.instant ∧ t.instant ≤ hi.instant) ∧
      (collect rt xp appName cfg).Evidence.Window =
        some { Start := rt.format lo, End := rt.format hi }) := by
  have hb := walk_bounds rt cfg appName xp.events
  rw [eventSpans_events] at hb
  have hw := (walk_counters rt cfg appName xp.events).2.2.2.2
  have hf := (finish_evidence rt
    (xp.events.foldl (eventStep rt cfg) (Walk.start rt appName))).2.2
  rw [hw] at hf
  rw [collect_eq, hf]
  unfold otlpExport.validTimes
  constructor
  · intro hv
    obtain ⟨he, _⟩ := hb.1 hv
    rw [(Time.isZero_iff _).2 he]; rfl
  · intro hv
    obtain ⟨hem, hlm, hbd⟩ := hb.2 hv
    refine ⟨_, _, hem, hlm, hbd, ?_⟩
    rw [validTimesOf_ne_zero _ _ hem, validTimesOf_ne_zero _ _ hlm]; rfl

/-- Reordering the spans reorders the valid timestamps. -/
theorem validTimesOf_perm {l1 l2 : List rawSpan} (h : l1.Perm l2) :
    (validTimesOf l1).Perm (validTimesOf l2) :=
  (h.map _).filter _

/-- The window in terms of the reader of the code: it is present iff at
least one span has a start timestamp that `parseNanos` reads as a non-zero
time; when present, its start is the formatted least and its end the
formatted greatest of the timestamps read this way; and the window does not
depend on the order in which the spans appear. A timestamp is read as a
non-zero time exactly when `Sscanf` reads a number other than 0 from it. -/
theorem window_by_reader (rt : Runtime) (xp : otlpExport) (appName : ByteString) (cfg : Config) :
    ((collect rt xp appName cfg).Evidence.Window ≠ none ↔
      ∃ sp ∈ xp.allSpans, (parseNanos sp.StartNano).IsZero = false) ∧
    (∀ win, (collect rt xp appName cfg).Evidence.Window = some win →
      ∃ lo hi, lo ∈ xp.validTimes ∧ hi ∈ xp.validTimes ∧
        (∀ t ∈ xp.validTimes, lo.instant ≤ t.instant ∧ t.instant ≤ hi.instant) ∧
        win = { Start := rt.format lo, End := rt.format hi }) ∧
    (∀ (xp2 : otlpExport) (appName2 : ByteString) (cfg2 : Config),
      xp2.allSpans.Perm xp.allSpans →
      (collect rt xp2 appName2 cfg2).Evidence.Window =
        (collect rt xp appName cfg).Evidence.Window) ∧
    (∀ sp : rawSpan, (parseNanos sp.StartNano).IsZero = false ↔
      (scanInt64 sp.StartNano.data).getD 0 ≠ 0) := by
  have hmem : xp.validTimes ≠ [] ↔
      ∃ sp ∈ xp.allSpans, (parseNanos sp.StartNano).IsZero = false := by
    unfold otlpExport.validTimes validTimesOf
    constructor
    · intro hne
      obtain ⟨t, ht⟩ := List.exists_mem_of_ne_nil _ hne
      obtain ⟨h1, h2⟩ := List.mem_filter.1 ht
      obtain ⟨sp, hsp, rfl⟩ := List.mem_map.1 h1
      exact ⟨sp, hsp, by simpa using h2⟩
    · rintro ⟨sp, hsp, hz⟩
      exact List.ne_nil_of_mem
        (List.mem_filter.2 ⟨List.mem_map.2 ⟨sp, hsp, rfl⟩, by simp [hz]⟩)
  obtain ⟨h0, h1⟩ := window_of_walk rt xp appName cfg
  refine ⟨?_, ?_, ?_, fun sp => by
    rw [Ne, ← parseNanos_isZero, Bool.not_eq_true]⟩
  · rw [← hmem]
    constructor
    · intro hne hv; exact hne (h0 hv)
    · intro hv
      obtain ⟨lo, hi, _, _, _, hw⟩ := h1 hv
      rw [hw]; exact Option.some_ne_none _
  · intro win hwin
    by_cases hv : xp.validTimes = []
    · rw [h0 hv] at hwin; exact absurd hwin (Option.some_ne_none _).symm
    · obtain ⟨lo, hi, hlo, hhi, hb, hw⟩ := h1 hv
      rw [hw] at hwin
      exact ⟨lo, hi, hlo, hhi, hb, (Option.some.inj hwin).symm⟩
  · intro xp2 appName2 cfg2 hperm
    have hp : xp2.validTimes.Perm xp.validTimes := validTimesOf_perm hperm
    obtain ⟨g0, g1⟩ := window_of_walk rt xp2 appName2 cfg2
    by_cases hv : xp.validTimes = []
    · have hv2 : xp2.validTimes = [] := by rw [hv] at hp; exact hp.eq_nil
      rw [h0 hv, g0 hv2]
    · have hv2 : xp2.validTimes ≠ [] := by
        intro hc; rw [hc] at hp; exact hv hp.symm.eq_nil
      obtain ⟨lo, hi, hlo, hhi, hb, hw⟩ := h1 hv
      obtain ⟨lo2, hi2, hlo2, hhi2, hb2, hw2⟩ := g1 hv2
      have e1 : lo2 = lo := by
        have a := (hb lo2 (hp.mem_iff.1 hlo2)).1
        have b := (hb2 lo (hp.mem_iff.2 hlo)).1
        cases lo; cases lo2
        simp only [Time.mk.injEq] at *
        omega
      have e2 : hi2 = hi := by
        have a := (hb hi2 (hp.mem_iff.1 hhi2)).2
        have b := (hb2 hi (hp.mem_iff.2 hhi)).2
        cases hi; cases hi2
        simp only [Time.mk.injEq] at *
        omega
      rw [hw, hw2, e1, e2]

/-! ### What does not depend on the runtime -/

/-- The `seen` set, the Components, the Services and the counters of the walk
depend on neither the runtime nor the application name. -/
theorem walk_runtime_indep (rt rt2 : Runtime) (cfg : Config) (appName appName2 : ByteString)
    (evs : List Event) :
    (evs.foldl (eventStep rt cfg) (Walk.start rt appName)).seen =
      (evs.foldl (eventStep rt2 cfg) (Walk.start rt2 appName2)).seen ∧
    (evs.foldl (eventStep rt cfg) (Walk.start rt appName)).b.Components =
      (evs.foldl (eventStep rt2 cfg) (Walk.start rt2 appName2)).b.Components ∧
    (evs.foldl (eventStep rt cfg) (Walk.start rt appName)).b.Services =
      (evs.foldl (eventStep rt2 cfg) (Walk.start rt2 appName2)).b.Services := by
  induction evs using List.reverseRecOn with
  | nil => exact ⟨rfl, rfl, rfl⟩
  | append_singleton l ev ih =>
    rw [List.foldl_append, List.foldl_append]
    simp only [List.foldl_cons, List.foldl_nil]
    generalize l.foldl (eventStep rt cfg) (Walk.start rt appName) = w at ih ⊢
    generalize l.foldl (eventStep rt2 cfg) (Walk.start rt2 appName2) = w2 at ih ⊢
    obtain ⟨h1, h2, h3⟩ := ih
    cases ev with
    | scope ss =>
      have a := scopeStep_eq w ss
      have b := scopeStep_eq w2 ss
      have hn : newFramework w ss = newFramework w2 ss := by
        unfold newFramework; rw [h1]
      simp only [eventStep]
      rw [a.1, a.2.1, a.2.2.2, b.1, b.2.1, b.2.2.2, h1, h2, h3, hn]
      exact ⟨rfl, rfl, rfl⟩
    | span sp =>
      have a := spanStep_eq rt cfg w sp
      have b := spanStep_eq rt2 cfg w2 sp
      simp only [eventStep]
      rw [a.1, a.2.1, a.2.2.2, b.1, b.2.1, b.2.2.2]
      refine ⟨?_, ?_, ?_⟩ <;> simp only [modelIsNew, toolIsNew, endpointIsNew, h1, h2, h3]

/-- The Components and Services of the result depend on neither the runtime
nor the application name. -/
theorem collect_runtime_indep (rt rt2 : Runtime) (xp : otlpExport) (appName appName2 : ByteString)
    (cfg : Config) :
    (collect rt xp appName cfg).Components = (collect rt2 xp appName2 cfg).Components ∧
    (collect rt xp appName cfg).Services = (collect rt2 xp appName2 cfg).Services := by
  obtain ⟨a1, a2, _⟩ := collect_lists rt xp appName cfg
  obtain ⟨b1, b2, _⟩ := collect_lists rt2 xp appName2 cfg
  obtain ⟨_, h2, h3⟩ := walk_runtime_indep rt rt2 cfg appName appName2 xp.events
  rw [a1, a2, b1, b2, h2, h3]
  exact ⟨rfl, rfl⟩

/-- C3. Extraction is sound and complete: `n` names a model Component of the
result iff `n` is non-empty and some span of the trace resolves `n` over the
model attributes; `n` names a tool Component iff `n` is non-empty and some
span resolves `n` over the tool attributes; `n` names a framework Component
iff some group has the non-empty scope name `n`. The sample trace yields
exactly 2 models, 1 tool and 1 framework. -/
theorem collect_extraction (rt : Runtime) (xp : otlpExport) (appName : ByteString) (cfg : Config)
    (n : String) :
    ((∃ c ∈ (collect rt xp appName cfg).Components, c.Typ = "model" ∧ c.Name = n) ↔
      n ≠ "" ∧ ∃ sp ∈ xp.allSpans, getStr sp.Attributes cfg.ModelAttrs = n) ∧
    ((∃ c ∈ (collect rt xp appName cfg).Components, c.Typ = "tool" ∧ c.Name = n) ↔
      n ≠ "" ∧ ∃ sp ∈ xp.allSpans, getStr sp.Attributes cfg.ToolAttrs = n) ∧
    ((∃ c ∈ (collect rt xp appName cfg).Components, c.Typ = "framework" ∧ c.Name = n) ↔
      n ≠ "" ∧ ∃ ss ∈ xp.allScopeSpans, ∃ sc, ss.Scope = some sc ∧ sc.Name = n) ∧
    ((collect rt sampleTrace appName DefaultConfig).Components.filter
        fun c => c.Typ = "model").length = 2 ∧
    ((collect rt sampleTrace appName DefaultConfig).Components.filter
        fun c => c.Typ = "tool").length = 1 ∧
    ((collect rt sampleTrace appName DefaultConfig).Components.filter
        fun c => c.Typ = "framework").length = 1 := by
  obtain ⟨hc, _, _⟩ := collect_lists rt xp appName cfg
  have hinv := walk_Inv rt cfg appName xp.events
  have hreg := walk_registered rt cfg appName xp.events
  have hor := walk_component_origin rt cfg appName xp.events
  rw [hc]
  have hs := (collect_runtime_indep rt utcRuntime sampleTrace appName (stringBytes "test") DefaultConfig).1
  rw [hs]
  refine ⟨⟨?_, ?_⟩, ⟨?_, ?_⟩, ⟨?_, ?_⟩, by decide!, by decide!, by decide!⟩
  · rintro ⟨c, hcm, hct, hcn⟩
    rcases hor c hcm with ⟨sp, hsp, hne, rfl⟩ | ⟨sp, _, _, rfl⟩ | ⟨ss, sc, _, _, _, rfl⟩
    · subst hcn
      exact ⟨hne, sp, (mem_events_span xp sp).1 hsp, rfl⟩
    · exact absurd hct (by simp [modelComponent, toolComponent, frameworkComponent])
    · exact absurd hct (by simp [modelComponent, toolComponent, frameworkComponent])
  · rintro ⟨hne, sp, hsp, rfl⟩
    exact (hinv.seen_model _ (hreg.1 sp ((mem_events_span xp sp).2 hsp) hne)).1
  · rintro ⟨c, hcm, hct, hcn⟩
    rcases hor c hcm with ⟨sp, _, _, rfl⟩ | ⟨sp, hsp, hne, rfl⟩ | ⟨ss, sc, _, _, _, rfl⟩
    · exact absurd hct (by simp [modelComponent, toolComponent, frameworkComponent])
    · subst hcn
      exact ⟨hne, sp, (mem_events_span xp sp).1 hsp, rfl⟩
    · exact absurd hct (by simp [modelComponent, toolComponent, frameworkComponent])
  · rintro ⟨hne, sp, hsp, rfl⟩
    exact (hinv.seen_tool _ (hreg.2.1 sp ((mem_events_span xp sp).2 hsp) hne)).1
  · rintro ⟨c, hcm, hct, hcn⟩
    rcases hor c hcm with ⟨sp, _, _, rfl⟩ | ⟨sp, _, _, rfl⟩ | ⟨ss, sc, hss, hsc, hne, rfl⟩
    · exact absurd hct (by simp [modelComponent, toolComponent, frameworkComponent])
    · exact absurd hct (by simp [modelComponent, toolComponent, frameworkComponent])
    · subst hcn
      exact ⟨hne, ss, (mem_events_scope xp ss).1 hss, sc, hsc, rfl⟩
  · rintro ⟨hne, ss, hss, sc, hsc, rfl⟩
    exact hinv.seen_framework _ (hreg.2.2.2 ss sc ((mem_events_scope xp ss).2 hss) hsc hne)

/-! ## Endpoint normalisation -/

/-- The offset found by `strings.Index` against the rest after the first occurrence. -/
theorem stringsIndex_afterFirst (pat s : List Char) :
    (stringsIndex s pat = -1 ∧ afterFirst pat s = none) ∨
    (∃ i : Nat, stringsIndex s pat = (i : Int) ∧
      afterFirst pat s = some (s.drop (i + pat.length))) := by
  induction s with
  | nil =>
    unfold stringsIndex afterFirst
    by_cases h : pat.isPrefixOf [] = true
    · right; exact ⟨0, by simp [h], by simp [h]⟩
    · left; simp [h]
  | cons c rest ih =>
    unfold stringsIndex afterFirst
    by_cases h : pat.isPrefixOf (c :: rest) = true
    · right; exact ⟨0, by simp [h], by simp [h]⟩
    · simp only [h, Bool.false_eq_true, if_false]
      rcases ih with ⟨h1, h2⟩ | ⟨i, h1, h2⟩
      · left; rw [h1, h2]; simp
      · right
        refine ⟨i + 1, ?_, ?_⟩
        · rw [h1]
          have : ¬ ((i : Int) < 0) := by omega
          simp [this]
        · rw [h2]
          have : i + 1 + pat.length = (i + pat.length) + 1 := by omega
          rw [this, List.drop_succ_cons]

/-- The offset of the first "/" against the run before it. -/
theorem stringsIndex_slash (s : List Char) :
    (stringsIndex s "/".data = -1 ∧ s.takeWhile (· ≠ '/') = s) ∨
    (∃ i : Nat, stringsIndex s "/".data = (i : Int) ∧ s.take i = s.takeWhile (· ≠ '/')) := by
  induction s with
  | nil => left; constructor <;> rfl
  | cons c rest ih =>
    unfold stringsIndex
    by_cases hc : c = '/'
    · right
      subst hc
      exact ⟨0, by simp [List.isPrefixOf], by simp⟩
    · have hp : "/".data.isPrefixOf (c :: rest) = false := by
        simp [List.isPrefixOf, Ne.symm hc]
      simp only [hp, Bool.false_eq_true, if_false]
      have hcp : decide (c ≠ '/') = true := decide_eq_true hc
      rcases ih with ⟨h1, h2⟩ | ⟨i, h1, h2⟩
      · left
        refine ⟨by rw [h1]; rfl, ?_⟩
        rw [List.takeWhile_cons]
        simp only [hcp, h2, if_true]
      · right
        refine ⟨i + 1, ?_, ?_⟩
        · rw [h1]
          have : ¬ ((i : Int) < 0) := by omega
          simp [this]
        · rw [List.takeWhile_cons, List.take_succ_cons]
          simp only [hcp, h2, if_true]

/-- The code's normalisation is the reference definition. -/
theorem endpointHost_eq_spec (endpoint : String) :
    endpointHost endpoint = normalizeEndpointSpec endpoint := by
  unfold endpointHost normalizeEndpointSpec
  have hlen : "://".data.length = 3 := rfl
  rcases stringsIndex_afterFirst "://".data endpoint.data with ⟨h1, h2⟩ | ⟨i, h1, h2⟩
  · rw [h1, h2]
    simp only [Option.getD_none]
    have t : ¬ ((-1 : Int) ≥ 0) := by decide
    simp only [t, if_false]
    rcases stringsIndex_slash endpoint.data with ⟨g1, g2⟩ | ⟨j, g1, g2⟩
    · simp only [g1, t, if_false, g2]
    · have e2 : (j : Int) ≥ 0 := by omega
      simp only [g1, e2, if_true, Int.toNat_ofNat, g2]
  · rw [h1, h2, hlen]
    simp only [Option.getD_some]
    have e1 : ((i : Int) + 3).toNat = i + 3 := by omega
    have e0 : (i : Int) ≥ 0 := by omega
    simp only [e0, if_true, e1]
    have t : ¬ ((-1 : Int) ≥ 0) := by decide
    rcases stringsIndex_slash (endpoint.data.drop (i + 3)) with ⟨g1, g2⟩ | ⟨j, g1, g2⟩
    · simp only [g1, t, if_false, g2]
    · have e2 : (j : Int) ≥ 0 := by omega
      simp only [g1, e2, if_true, Int.toNat_ofNat, g2]

/-- Where the pattern does not start, the search moves on by one character. -/
theorem afterFirst_cons_skip (pat : List Char) (c : Char) (rest : List Char)
    (h : pat.isPrefixOf (c :: rest) = false) :
    afterFirst pat (c :: rest) = afterFirst pat rest := by
  rw [afterFirst]
  simp only [h, Bool.false_eq_true, if_false]

/-- After a scheme without "/", the first "://" is the one that ends it. -/
theorem afterFirst_scheme (s rest : List Char) (hs : '/' ∉ s) :
    afterFirst "://".data (s ++ "://".data ++ rest) = some rest := by
  induction s with
  | nil =>
    unfold afterFirst
    simp [List.isPrefixOf]
  | cons c s1 ih =>
    have hs1 : '/' ∉ s1 := fun h => hs (List.mem_cons_of_mem _ h)
    have hp : "://".data.isPrefixOf (c :: s1 ++ "://".data ++ rest) = false := by
      cases s1 with
      | nil => simp [List.isPrefixOf]
      | cons d s2 =>
        have hd : d ≠ '/' := fun h => hs (by rw [h]; simp)
        simp [List.isPrefixOf, Ne.symm hd]
    have hc : c :: s1 ++ "://".data ++ rest = c :: (s1 ++ "://".data ++ rest) := rfl
    rw [hc] at hp ⊢
    rw [afterFirst_cons_skip _ _ _ hp]
    exact ih hs1

/-- No "/" at all means no "://" to strip. -/
theorem afterFirst_none_of_no_slash (s : List Char) (hs : '/' ∉ s) :
    afterFirst "://".data s = none := by
  induction s with
  | nil => unfold afterFirst; simp [List.isPrefixOf]
  | cons c s1 ih =>
    have hs1 : '/' ∉ s1 := fun h => hs (List.mem_cons_of_mem _ h)
    have hp : "://".data.isPrefixOf (c :: s1) = false := by
      cases s1 with
      | nil => simp [List.isPrefixOf]
      | cons d s2 =>
        have hd : d ≠ '/' := fun h => hs (by rw [h]; simp)
        simp [List.isPrefixOf, Ne.symm hd]
    rw [afterFirst_cons_skip _ _ _ hp]
    exact ih hs1

/-- A host without "/" followed by "/" and a path: the run before the first
"/" is the host. -/
theorem takeWhile_host (h p : List Char) (hh : '/' ∉ h) :
    (h ++ '/' :: p).takeWhile (· ≠ '/') = h := by
  induction h with
  | nil => simp [List.takeWhile_cons]
  | cons c h1 ih =>
    have hc : c ≠ '/' := fun e => hh (by rw [e]; simp)
    have hcp : decide (c ≠ '/') = true := decide_eq_true hc
    rw [List.cons_append, List.takeWhile_cons]
    simp only [hcp, if_true]
    rw [ih (fun e => hh (List.mem_cons_of_mem _ e))]

/-- Without any "/", nothing is cut. -/
theorem takeWhile_no_slash (h : List Char) (hh : '/' ∉ h) :
    h.takeWhile (· ≠ '/') = h := by
  induction h with
  | nil => rfl
  | cons c h1 ih =>
    have hc : c ≠ '/' := fun e => hh (by rw [e]; simp)
    have hcp : decide (c ≠ '/') = true := decide_eq_true hc
    rw [List.takeWhile_cons]
    simp only [hcp, if_true]
    rw [ih (fun e => hh (List.mem_cons_of_mem _ e))]

/-- C4. Endpoint normalisation in `CollectFromJSON` equals the reference
  definition: drop everything up to and including the first "://", if any,
  then cut before the first "/", if any. In particular a scheme without "/",
  then "://", a host without "/", then "/" and any path normalise to the
  host, and an endpoint with neither "://" nor "/" is returned unchanged. -/
theorem endpointHost_normalises :
    (∀ endpoint : String, endpointHost endpoint = normalizeEndpointSpec endpoint) ∧
    (∀ s h p : String, '/' ∉ s.data → '/' ∉ h.data →
      endpointHost (s ++ "://" ++ h ++ "/" ++ p) = h) ∧
    (∀ e : String, ¬ ("://".data <:+: e.data) → '/' ∉ e.data → endpointHost e = e) ∧
    endpointHost "https://api.openai.com/v1/chat" = "api.openai.com" ∧
    endpointHost "api.anthropic.com" = "api.anthropic.com" := by
  refine ⟨endpointHost_eq_spec, ?_, ?_, by decide, by decide⟩
  · intro s h p hs hh
    rw [endpointHost_eq_spec]
    unfold normalizeEndpointSpec
    have hd : (s ++ "://" ++ h ++ "/" ++ p).data =
        s.data ++ "://".data ++ (h.data ++ '/' :: p.data) := by
      simp [String.data_append]
    rw [hd, afterFirst_scheme _ _ hs, Option.getD_some, takeWhile_host _ _ hh]
  · intro e _ he
    rw [endpointHost_eq_spec]
    unfold normalizeEndpointSpec
    rw [afterFirst_none_of_no_slash _ he, Option.getD_none, takeWhile_no_slash _ he]

/-- Witness of C4: the two endpoints named by the specification. -/
theorem endpointHost_normalises_witness :
    endpointHost ("https" ++ "://" ++ "api.openai.com" ++ "/" ++ "v1/chat") = "api.openai.com" ∧
    endpointHost "api.anthropic.com" = "api.anthropic.com" :=
  ⟨endpointHost_normalises.2.1 "https" "api.openai.com" "v1/chat" (by decide) (by decide),
   endpointHost_normalises.2.2.1 "api.anthropic.com" (by decide) (by decide)⟩

/-! ## Reference tokens -/

/-- The chaining value keeps its eight words. -/
theorem Sha256.blocks_length (n : Nat) (hs bs : List Nat) (h : hs.length = 8) :
    (Sha256.blocks n hs bs).length = 8 := by
  induction n generalizing hs bs with
  | zero => exact h
  | succ k ih => exact ih _ _ rfl

/-- A digest has 32 bytes. -/
theorem Sha256.Sum256_length (msg : List Nat) : (Sha256.Sum256 msg).length = 32 := by
  have h := Sha256.blocks_length ((Sha256.pad msg).length / 64) Sha256.H0 (Sha256.pad msg)
    (by decide!)
  show ((Sha256.blocks ((Sha256.pad msg).length / 64) Sha256.H0 (Sha256.pad msg)).foldr
    (fun w acc => Sha256.be32 w ++ acc) []).length = 32
  generalize Sha256.blocks ((Sha256.pad msg).length / 64) Sha256.H0 (Sha256.pad msg) = ws at h
  match ws, h with
  | [a, b, c, d, e, f, g, i], _ => rfl

/-- The verb `%x` writes two digits per byte. -/
theorem hexBytes_length (bs : List Nat) : (hexBytes bs).length = 2 * bs.length := by
  unfold hexBytes
  rw [String.length]
  induction bs with
  | nil => rfl
  | cons b rest ih => simp only [List.foldr_cons, List.length_cons, ih]; omega

/-- Joining a name without ":" to a version loses nothing. -/
theorem join_injective (n1 v1 n2 v2 : List Char) (h1 : ':' ∉ n1) (h2 : ':' ∉ n2)
    (h : n1 ++ ':' :: v1 = n2 ++ ':' :: v2) : n1 = n2 ∧ v1 = v2 := by
  induction n1 generalizing n2 with
  | nil =>
    cases n2 with
    | nil => simp at h; exact ⟨rfl, h⟩
    | cons c r =>
      simp at h
      exact absurd (by rw [← h.1]; simp) h2
  | cons a r ih =>
    cases n2 with
    | nil =>
      simp at h
      exact absurd (by rw [h.1]; simp) h1
    | cons c r2 =>
      simp only [List.cons_append, List.cons.injEq] at h
      obtain ⟨e1, e2⟩ := ih r2 (fun m => h1 (List.mem_cons_of_mem _ m))
        (fun m => h2 (List.mem_cons_of_mem _ m)) h.2
      exact ⟨by rw [h.1, e1], e2⟩

/-- The reference token of the model gpt-4 without a version. -/
theorem bomRef_gpt4 : bomRef "gpt-4" "" = "e8de91ee3796e58a" := by decide!

/-- C8, counterexample: for the same name "x" and version "1", the Component
appended by `AddModel` and the one appended by `AddTool` carry different
references ("model-..." against "tool-..."). -/
theorem addModel_addTool_bomRef_ne :
    (((New "now" (stringBytes "app")).AddModel "x" "1" "p").Components.map fun c => c.BOMRef) ≠
    (((New "now" (stringBytes "app")).AddTool "x" "1").Components.map fun c => c.BOMRef) := by
  intro h
  have h2 : ("model-" ++ bomRef "x" "1") = ("tool-" ++ bomRef "x" "1") := by
    simpa [New, AIBOM.AddModel, AIBOM.AddTool] using h
  have h3 := congrArg (fun s => s.data.head?) h2
  simp [String.data_append] at h3

/-- C8, amended: a Component's reference is determined by its kind, name
and version: `AddModel`, `AddTool` and `AddFramework` append a Component whose
reference is "model-", "tool-" or "framework-" followed by the token of
(name, version); for each of the three, the reference is the same for any
provider and any prior inventory state. -/
theorem add_bomRef (b b2 : AIBOM) (name version provider provider2 : String) :
    (b.AddModel name version provider).Components =
      b.Components ++ [
        { Typ := "model", Name := name, Version := version, Provider := provider,
          BOMRef := "model-" ++ bomRef name version, Properties := [] }] ∧
    (b.AddTool name version).Components =
      b.Components ++ [
        { Typ := "tool", Name := name, Version := version, Provider := "",
          BOMRef := "tool-" ++ bomRef name version, Properties := [] }] ∧
    (b.AddFramework name version).Components =
      b.Components ++ [
        { Typ := "framework", Name := name, Version := version, Provider := "",
          BOMRef := "framework-" ++ bomRef name version, Properties := [] }] ∧
    ((b.AddModel name version provider).Components.getLast?.map fun c => c.BOMRef) =
      ((b2.AddModel name version provider2).Components.getLast?.map fun c => c.BOMRef) ∧
    ((b.AddTool name version).Components.getLast?.map fun c => c.BOMRef) =
      ((b2.AddTool name version).Components.getLast?.map fun c => c.BOMRef) ∧
    ((b.AddFramework name version).Components.getLast?.map fun c => c.BOMRef) =
      ((b2.AddFramework name version).Components.getLast?.map fun c => c.BOMRef) := by
  refine ⟨rfl, rfl, rfl, ?_, ?_, ?_⟩ <;>
    simp [AIBOM.AddModel, AIBOM.AddTool, AIBOM.AddFramework]

/-! ## The end-to-end scenario and the empty trace -/

/-- The counters and the window bounds of the walk depend on neither the
runtime nor the application name. -/
theorem walk_runtime_indep_counters (rt rt2 : Runtime) (cfg : Config)
    (appName appName2 : ByteString) (evs : List Event) :
    (evs.foldl (eventStep rt cfg) (Walk.start rt appName)).spanCount =
      (evs.foldl (eventStep rt2 cfg) (Walk.start rt2 appName2)).spanCount ∧
    (evs.foldl (eventStep rt cfg) (Walk.start rt appName)).traceIDs =
      (evs.foldl (eventStep rt2 cfg) (Walk.start rt2 appName2)).traceIDs ∧
    (evs.foldl (eventStep rt cfg) (Walk.start rt appName)).earliest =
      (evs.foldl (eventStep rt2 cfg) (Walk.start rt2 appName2)).earliest ∧
    (evs.foldl (eventStep rt cfg) (Walk.start rt appName)).latest =
      (evs.foldl (eventStep rt2 cfg) (Walk.start rt2 appName2)).latest := by
  induction evs using List.reverseRecOn with
  | nil => exact ⟨rfl, rfl, rfl, rfl⟩
  | append_singleton l ev ih =>
    rw [List.foldl_append, List.foldl_append]
    simp only [List.foldl_cons, List.foldl_nil]
    generalize l.foldl (eventStep rt cfg) (Walk.start rt appName) = w at ih ⊢
    generalize l.foldl (eventStep rt2 cfg) (Walk.start rt2 appName2) = w2 at ih ⊢
    obtain ⟨h1, h2, h3, h4⟩ := ih
    cases ev with
    | scope ss =>
      have a := scopeStep_frame w ss
      have b := scopeStep_frame w2 ss
      simp only [eventStep]
      rw [a.1, a.2.1, a.2.2.1, a.2.2.2.1, b.1, b.2.1, b.2.2.1, b.2.2.2.1]
      exact ⟨h1, h2, h3, h4⟩
    | span sp =>
      have a := spanStep_counters rt cfg w sp
      have b := spanStep_counters rt2 cfg w2 sp
      simp only [eventStep]
      rw [a.1, a.2.1, a.2.2.1, a.2.2.2.1, b.1, b.2.1, b.2.2.1, b.2.2.2.1,
        (updateWindow_eq _ _).1, (updateWindow_eq _ _).2, (updateWindow_eq _ _).1,
        (updateWindow_eq _ _).2, h1, h2, h3, h4]
      exact ⟨rfl, rfl, rfl, rfl⟩

/-- The span count, the number of trace IDs and the presence of a window
depend on neither the runtime nor the application name. -/
theorem collect_evidence_indep (rt rt2 : Runtime) (xp : otlpExport) (appName appName2 : ByteString)
    (cfg : Config) :
    (collect rt xp appName cfg).Evidence.SpanCount =
      (collect rt2 xp appName2 cfg).Evidence.SpanCount ∧
    (collect rt xp appName cfg).Evidence.TraceIDs.length =
      (collect rt2 xp appName2 cfg).Evidence.TraceIDs.length ∧
    (collect rt xp appName cfg).Evidence.Window.isSome =
      (collect rt2 xp appName2 cfg).Evidence.Window.isSome := by
  obtain ⟨h1, h2, h3, h4⟩ := walk_runtime_indep_counters rt rt2 cfg appName appName2 xp.events
  obtain ⟨a1, a2, a3⟩ := finish_evidence rt
    (xp.events.foldl (eventStep rt cfg) (Walk.start rt appName))
  obtain ⟨b1, b2, b3⟩ := finish_evidence rt2
    (xp.events.foldl (eventStep rt2 cfg) (Walk.start rt2 appName2))
  have c := walk_counters rt cfg appName xp.events
  have c2 := walk_counters rt2 cfg appName2 xp.events
  rw [c.2.2.2.1] at a2
  rw [c.2.2.2.2] at a3
  rw [c2.2.2.2.1] at b2
  rw [c2.2.2.2.2] at b3
  rw [collect_eq, collect_eq, a1, a2, a3, b1, b2, b3, h1, h3, h4]
  refine ⟨rfl, ?_, ?_⟩
  · rw [List.nil_append, List.nil_append, (rt.mapOrder_perm _).length_eq,
      (rt2.mapOrder_perm _).length_eq, h2]
  · split_ifs <;> rfl

/-- C9, counterexample: the sample trace does not yield 5 Components (it
yields 4: the framework, two models and one tool). -/
theorem sampleTrace_not_five_components :
    (collect utcRuntime sampleTrace (stringBytes "test") DefaultConfig).Components.length ≠ 5 := by
  decide!

/-- C9, amended: for the sample trace (one group "langchain" 0.1.0 with the
three spans gpt-4 / web_search / claude-3-sonnet, one trace ID, non-zero
timestamps) and the default config, the result has 4 Components, 2 Services,
span count 3, exactly 1 trace ID and a window, whatever the runtime and the
application name. -/
theorem sampleTrace_scenario (rt : Runtime) (appName : ByteString) :
    (collect rt sampleTrace appName DefaultConfig).Components.length = 4 ∧
    (collect rt sampleTrace appName DefaultConfig).Services.length = 2 ∧
    (collect rt sampleTrace appName DefaultConfig).Evidence.SpanCount = 3 ∧
    (collect rt sampleTrace appName DefaultConfig).Evidence.TraceIDs.length = 1 ∧
    (collect rt sampleTrace appName DefaultConfig).Evidence.Window ≠ none := by
  obtain ⟨h1, h2⟩ := collect_runtime_indep rt utcRuntime sampleTrace appName (stringBytes "test") DefaultConfig
  obtain ⟨h3, h4, h5⟩ :=
    collect_evidence_indep rt utcRuntime sampleTrace appName (stringBytes "test") DefaultConfig
  rw [h1, h2, h3, h4]
  refine ⟨by decide!, by decide!, by decide!, by decide!, ?_⟩
  intro hn
  rw [hn] at h5
  revert h5
  decide!

/-- Visits that change nothing leave the walk where it started. -/
theorem foldl_eventStep_fixed (rt : Runtime) (cfg : Config) (w : Walk) (evs : List Event)
    (h : ∀ ev ∈ evs, eventStep rt cfg w ev = w) : evs.foldl (eventStep rt cfg) w = w := by
  induction evs with
  | nil => rfl
  | cons ev rest ih =>
    rw [List.foldl_cons, h ev (List.mem_cons_self _ _)]
    exact ih (fun e he => h e (List.mem_cons_of_mem _ he))

/-- A group without a scope name changes nothing at its scope visit. -/
theorem scopeStep_unnamed (w : Walk) (ss : scopeSpan)
    (h : ∀ sc, ss.Scope = some sc → sc.Name = "") : scopeStep w ss = w := by
  unfold scopeStep
  cases hs : ss.Scope with
  | none => rfl
  | some sc => simp [h sc hs]

/-- The visits of an export are scopes of its groups and spans of its groups. -/
theorem mem_events (xp : otlpExport) (ev : Event) (h : ev ∈ xp.events) :
    (∃ ss ∈ xp.allScopeSpans, ev = Event.scope ss) ∨
    (∃ ss ∈ xp.allScopeSpans, ∃ sp ∈ ss.Spans, ev = Event.span sp) := by
  unfold otlpExport.events at h
  obtain ⟨ss, hss, hev⟩ := List.mem_flatMap.1 h
  unfold scopeSpan.events at hev
  rcases List.mem_cons.1 hev with hev | hev
  · exact Or.inl ⟨ss, hss, hev⟩
  · obtain ⟨sp, hsp, rfl⟩ := List.mem_map.1 hev
    exact Or.inr ⟨ss, hss, sp, hsp, rfl⟩

/-- C10. For every trace with zero groups, and more generally every trace
whose groups carry no scope name and contain no spans, `CollectFromJSON`
succeeds and the result has no Component, no Service, no Finding, no trace
ID, span count 0 and no window, for every config and application name. -/
theorem collect_empty (unmarshal : List Nat → Except String otlpExport) (rt : Runtime)
    (data : List Nat) (xp : otlpExport) (appName : ByteString) (cfg : Config)
    (hparse : unmarshal data = Except.ok xp)
    (hempty : ∀ ss ∈ xp.allScopeSpans,
      (∀ sc, ss.Scope = some sc → sc.Name = "") ∧ ss.Spans = []) :
    ∃ b, CollectFromJSON unmarshal rt data appName cfg = Except.ok b ∧
      b.Components = [] ∧ b.Services = [] ∧ b.Evidence.Findings = [] ∧
      b.Evidence.TraceIDs = [] ∧ b.Evidence.SpanCount = 0 ∧ b.Evidence.Window = none := by
  refine ⟨collect rt xp appName cfg, ?_, ?_⟩
  · unfold CollectFromJSON; rw [hparse]
  · have hfix : xp.events.foldl (eventStep rt cfg) (Walk.start rt appName) =
        Walk.start rt appName := by
      apply foldl_eventStep_fixed
      intro ev hev
      rcases mem_events xp ev hev with ⟨ss, hss, rfl⟩ | ⟨ss, hss, sp, hsp, rfl⟩
      · exact scopeStep_unnamed _ ss (hempty ss hss).1
      · rw [(hempty ss hss).2] at hsp
        exact absurd hsp (List.not_mem_nil _)
    obtain ⟨l1, l2, l3, _⟩ := finish_lists rt (Walk.start rt appName)
    obtain ⟨e1, e2, e3⟩ := finish_evidence rt (Walk.start rt appName)
    rw [collect_eq, hfix, l1, l2, l3, e1, e2, e3]
    refine ⟨rfl, rfl, rfl, ?_, rfl, rfl⟩
    have hp := rt.mapOrder_perm (Walk.start rt appName).traceIDs
    have hnil : (Walk.start rt appName).traceIDs = [] := rfl
    rw [hnil] at hp ⊢
    rw [hp.eq_nil]
    rfl

/-- Witness of C10: the input of `TestEmptyTrace`. -/
theorem collect_empty_witness :
    ∃ b, CollectFromJSON unmarshalEmptyTrace utcRuntime emptyTraceJSON (stringBytes "test")
        DefaultConfig = Except.ok b ∧
      b.Components = [] ∧ b.Services = [] ∧ b.Evidence.Findings = [] ∧
      b.Evidence.TraceIDs = [] ∧ b.Evidence.SpanCount = 0 ∧ b.Evidence.Window = none :=
  collect_empty unmarshalEmptyTrace utcRuntime emptyTraceJSON { ResourceSpans := [] }
    (stringBytes "test") DefaultConfig (if_pos rfl) (by intro ss hss; exact absurd hss (List.not_mem_nil _))

/-! ## Failure and the pass -/

/-- An offset found by `strings.Index` leaves room for the pattern: the slice
expressions `endpoint[idx+3:]` and `host[:idx]` stay in bounds. -/
theorem stringsIndex_bound (s pat : List Char) (h : 0 ≤ stringsIndex s pat) :
    (stringsIndex s pat).toNat + pat.length ≤ s.length := by
  induction s with
  | nil =>
    unfold stringsIndex at h ⊢
    by_cases hp : pat.isPrefixOf [] = true
    · have : pat = [] := by
        cases pat with
        | nil => rfl
        | cons a t => simp [List.isPrefixOf] at hp
      subst this; simp
    · simp [hp] at h
  | cons c rest ih =>
    unfold stringsIndex at h ⊢
    by_cases hp : pat.isPrefixOf (c :: rest) = true
    · simp only [hp, if_true, Int.toNat_zero, Nat.zero_add]
      exact (List.isPrefixOf_iff_prefix.1 hp).length_le
    · simp only [hp, Bool.false_eq_true, if_false] at h ⊢
      by_cases hi : stringsIndex rest pat < 0
      · simp [hi] at h
      · simp only [hi, if_false] at h ⊢
        have := ih (by omega)
        simp only [List.length_cons]
        omega

/-! ## Findings and Services -/

/-- Every Finding of the walk was recorded at some span. -/
theorem walk_finding_origin (rt : Runtime) (cfg : Config) (appName : ByteString)
    (evs : List Event) :
    ∀ f ∈ (evs.foldl (eventStep rt cfg) (Walk.start rt appName)).b.Evidence.Findings,
      RuntimeFinding.Origin rt cfg evs f := by
  refine walk_induction rt cfg
    (fun evs w => ∀ f ∈ w.b.Evidence.Findings, RuntimeFinding.Origin rt cfg evs f)
    (Walk.start rt appName) ?_ ?_ evs
  · intro f hf; simp [Walk.start, New] at hf
  · intro evs w ev ih f hf
    have mono : RuntimeFinding.Origin rt cfg evs f →
        RuntimeFinding.Origin rt cfg (evs ++ [ev]) f := by
      rintro (⟨sp, h1, h2⟩ | ⟨sp, h1, h2⟩)
      · exact Or.inl ⟨sp, List.mem_append_left _ h1, h2⟩
      · exact Or.inr ⟨sp, List.mem_append_left _ h1, h2⟩
    cases ev with
    | scope ss =>
      simp only [eventStep, (scopeStep_eq w ss).2.2.1] at hf
      exact mono (ih f hf)
    | span sp =>
      simp only [eventStep, (spanStep_eq rt cfg w sp).2.2.1, List.mem_append] at hf
      rcases hf with (hf | hf) | hf
      · exact mono (ih f hf)
      · by_cases hn : modelIsNew cfg w sp
        · rw [if_pos hn, List.mem_singleton] at hf
          exact Or.inl ⟨sp, by simp, hn.1, hf⟩
        · rw [if_neg hn] at hf; exact absurd hf (List.not_mem_nil _)
      · by_cases hn : toolIsNew cfg w sp
        · rw [if_pos hn, List.mem_singleton] at hf
          exact Or.inr ⟨sp, by simp, hn.1, hf⟩
        · rw [if_neg hn] at hf; exact absurd hf (List.not_mem_nil _)

/-- C13. Every Finding in the result of `CollectFromJSON` has `Count = 1` and
`FirstSeen = LastSeen`, however many spans report the same model or tool. -/
theorem collect_finding_count (rt : Runtime) (xp : otlpExport) (appName : ByteString)
    (cfg : Config) :
    ∀ f ∈ (collect rt xp appName cfg).Evidence.Findings,
      f.Count = 1 ∧ f.FirstSeen = f.LastSeen := by
  intro f hf
  rw [(collect_lists rt xp appName cfg).2.2] at hf
  rcases walk_finding_origin rt cfg appName xp.events f hf with
    ⟨sp, _, _, rfl⟩ | ⟨sp, _, _, rfl⟩
  · exact ⟨rfl, rfl⟩
  · exact ⟨rfl, rfl⟩

/-- Witness of C13: the one Finding of the trace in which two spans report
gpt-4. -/
theorem collect_finding_count_witness :
    ({ Typ := "model_usage", Component := "gpt-4", Count := 1,
       FirstSeen := "2023-11-14T22:13:20Z", LastSeen := "2023-11-14T22:13:20Z" } :
        RuntimeFinding) ∈
      (collect utcRuntime dedupTrace (stringBytes "test") DefaultConfig).Evidence.Findings ∧
    (1 : Int) = 1 ∧ "2023-11-14T22:13:20Z" = "2023-11-14T22:13:20Z" :=
  ⟨by decide!,
   collect_finding_count utcRuntime dedupTrace (stringBytes "test") DefaultConfig
    { Typ := "model_usage", Component := "gpt-4", Count := 1,
      FirstSeen := "2023-11-14T22:13:20Z", LastSeen := "2023-11-14T22:13:20Z" }
    (by decide!)⟩

/-- C16. The document model is append-only and never deduplicates: each of
`AddModel`, `AddTool` and `AddFramework` keeps the existing Components as the
front of the list and appends exactly one Component of its kind with the
given name and version (and provider, for models), leaving Services, Evidence,
Metadata and the header fields unchanged; `AddService` appends exactly one
Service and `AddFinding` exactly one Finding with the given fields, leaving
every other part unchanged; adding the same item twice appends it twice. -/
theorem add_frame (b : AIBOM) (name version provider endpoint typ component : String)
    (count : Int) (firstSeen lastSeen : String) :
    ((b.AddModel name version provider).Components = b.Components ++ [
        { Typ := "model", Name := name, Version := version, Provider := provider,
          BOMRef := "model-" ++ bomRef name version, Properties := [] }] ∧
      (b.AddModel name version provider).Services = b.Services ∧
      (b.AddModel name version provider).Evidence = b.Evidence ∧
      (b.AddModel name version provider).Metadata = b.Metadata) ∧
    ((b.AddTool name version).Components = b.Components ++ [
        { Typ := "tool", Name := name, Version := version, Provider := "",
          BOMRef := "tool-" ++ bomRef name version, Properties := [] }] ∧
      (b.AddTool name version).Services = b.Services ∧
      (b.AddTool name version).Evidence = b.Evidence ∧
      (b.AddTool name version).Metadata = b.Metadata) ∧
    ((b.AddFramework name version).Components = b.Components ++ [
        { Typ := "framework", Name := name, Version := version, Provider := "",
          BOMRef := "framework-" ++ bomRef name version, Properties := [] }] ∧
      (b.AddFramework name version).Services = b.Services ∧
      (b.AddFramework name version).Evidence = b.Evidence ∧
      (b.AddFramework name version).Metadata = b.Metadata) ∧
    (b.AddService name endpoint provider =
      { b with Services := b.Services ++ [
          { Name := name, Endpoint := endpoint, Provider := provider }] }) ∧
    (b.AddFinding typ component count firstSeen lastSeen =
      { b with Evidence := { b.Evidence with Findings := b.Evidence.Findings ++ [
          { Typ := typ, Component := component, Count := count,
            FirstSeen := firstSeen, LastSeen := lastSeen }] } }) ∧
    ((b.AddModel name version provider).BOMFormat = b.BOMFormat ∧
      (b.AddModel name version provider).SpecVersion = b.SpecVersion ∧
      (b.AddModel name version provider).Version = b.Version ∧
      (b.AddTool name version).BOMFormat = b.BOMFormat ∧
      (b.AddTool name version).SpecVersion = b.SpecVersion ∧
      (b.AddTool name version).Version = b.Version ∧
      (b.AddFramework name version).BOMFormat = b.BOMFormat ∧
      (b.AddFramework name version).SpecVersion = b.SpecVersion ∧
      (b.AddFramework name version).Version = b.Version) ∧
    (((b.AddModel name version provider).AddModel name version provider).Components.length =
        b.Components.length + 2 ∧
      ((b.AddService name endpoint provider).AddService name endpoint provider).Services.length
        = b.Services.length + 2 ∧
      ((b.AddFinding typ component count firstSeen lastSeen).AddFinding typ component count
        firstSeen lastSeen).Evidence.Findings.length = b.Evidence.Findings.length + 2) := by
  refine ⟨⟨rfl, rfl, rfl, rfl⟩, ⟨rfl, rfl, rfl, rfl⟩, ⟨rfl, rfl, rfl, rfl⟩, rfl, rfl,
    ⟨rfl, rfl, rfl, rfl, rfl, rfl, rfl, rfl, rfl⟩, ?_, ?_, ?_⟩
  · simp [AIBOM.AddModel]
  · simp [AIBOM.AddService]
  · simp [AIBOM.AddFinding]

/-! ## Findings mirror the model and tool Components -/

/-- Along the walk the Findings are, in order, the model and tool Components. -/
theorem walk_findings_mirror (rt : Runtime) (cfg : Config) (appName : ByteString)
    (evs : List Event) :
    ((evs.foldl (eventStep rt cfg) (Walk.start rt appName)).b.Evidence.Findings.map
        fun f => (findingKind f.Typ, f.Component)) =
      (((evs.foldl (eventStep rt cfg) (Walk.start rt appName)).b.Components.filter
        Component.isModelOrTool).map fun c => (c.Typ, c.Name)) := by
  refine walk_induction rt cfg (fun _ w =>
    (w.b.Evidence.Findings.map fun f => (findingKind f.Typ, f.Component)) =
      ((w.b.Components.filter Component.isModelOrTool).map fun c => (c.Typ, c.Name)))
    (Walk.start rt appName) ?_ ?_ evs
  · rfl
  · intro evs w ev ih
    cases ev with
    | scope ss =>
      simp only [eventStep, (scopeStep_eq w ss).2.1, (scopeStep_eq w ss).2.2.1,
        List.filter_append, List.map_append, ih]
      have : ((newFramework w ss).map frameworkComponent).filter Component.isModelOrTool
          = [] := by
        rw [List.filter_eq_nil_iff]
        intro c hc
        obtain ⟨sc, _, rfl⟩ := List.mem_map.1 hc
        simp [Component.isModelOrTool, frameworkComponent]
      rw [this]; simp
    | span sp =>
      simp only [eventStep, (spanStep_eq rt cfg w sp).2.1, (spanStep_eq rt cfg w sp).2.2.1,
        List.filter_append, List.map_append, ih]
      by_cases hm : modelIsNew cfg w sp <;> by_cases ht : toolIsNew cfg w sp <;>
        simp [hm, ht, Component.isModelOrTool, modelComponent, toolComponent, modelFinding,
          toolFinding, findingKind]

/-- C20. Findings mirror the model and tool Components: the Findings of
the result, mapped to (kind, name) with model_usage standing for model and
tool_call for tool, are equal, in length and order, to the Components of kind
model or tool mapped to (Type, Name); every Finding is a model_usage or a
tool_call, so frameworks and Services never produce one. -/
theorem collect_findings_mirror (rt : Runtime) (xp : otlpExport) (appName : ByteString)
    (cfg : Config) :
    ((collect rt xp appName cfg).Evidence.Findings.map
        fun f => (findingKind f.Typ, f.Component)) =
      (((collect rt xp appName cfg).Components.filter Component.isModelOrTool).map
        fun c => (c.Typ, c.Name)) ∧
    (∀ f ∈ (collect rt xp appName cfg).Evidence.Findings,
      f.Typ = "model_usage" ∨ f.Typ = "tool_call") ∧
    (collect rt xp appName cfg).Evidence.Findings.length =
      ((collect rt xp appName cfg).Components.filter Component.isModelOrTool).length := by
  obtain ⟨hc, _, hf⟩ := collect_lists rt xp appName cfg
  have hm := walk_findings_mirror rt cfg appName xp.events
  rw [hc, hf]
  refine ⟨hm, ?_, ?_⟩
  · intro f hfm
    rcases walk_finding_origin rt cfg appName xp.events f hfm with
      ⟨sp, _, _, rfl⟩ | ⟨sp, _, _, rfl⟩
    · exact Or.inl rfl
    · exact Or.inr rfl
  · have := congrArg List.length hm
    simpa using this

/-- Witness of C20: the tool Finding of the sample trace. -/
theorem collect_findings_mirror_witness :
    ({ Typ := "tool_call", Component := "web_search", Count := 1,
       FirstSeen := "2023-11-14T22:13:20Z", LastSeen := "2023-11-14T22:13:20Z" } :
        RuntimeFinding) ∈
      (collect utcRuntime sampleTrace (stringBytes "test") DefaultConfig).Evidence.Findings ∧
    ("tool_call" = "model_usage" ∨ "tool_call" = "tool_call") :=
  ⟨by decide!,
   (collect_findings_mirror utcRuntime sampleTrace (stringBytes "test") DefaultConfig).2.1
    { Typ := "tool_call", Component := "web_search", Count := 1,
      FirstSeen := "2023-11-14T22:13:20Z", LastSeen := "2023-11-14T22:13:20Z" }
    (by decide!)⟩

/-! ## First sightings -/

/-- The groups among the visits of an export are its groups, in document order. -/
theorem eventScopes_events (xp : otlpExport) : eventScopes xp.events = xp.allScopeSpans := by
  unfold otlpExport.events
  induction xp.allScopeSpans with
  | nil => rfl
  | cons ss rest ih =>
    rw [List.flatMap_cons]
    unfold eventScopes at ih ⊢
    rw [List.filterMap_append, ih]
    have : List.filterMap Event.scope? ss.events = [ss] := by
      unfold scopeSpan.events
      rw [List.filterMap_cons]
      simp only [Event.scope?]
      induction ss.Spans with
      | nil => rfl
      | cons sp r ih2 =>
        rw [List.map_cons, List.filterMap_cons]
        simp only [Event.scope?]
        exact ih2
    rw [this]; rfl

/-- The groups among the visits, one visit later. -/
theorem eventScopes_snoc (evs : List Event) (ev : Event) :
    eventScopes (evs ++ [ev]) = eventScopes evs ++ (match ev with
      | Event.scope ss => [ss]
      | Event.span _ => []) := by
  unfold eventScopes
  rw [List.filterMap_append]
  cases ev <;> rfl

/-- A span is among the spans of some visits iff it was visited. -/
theorem mem_eventSpans (evs : List Event) (sp : rawSpan) :
    sp ∈ eventSpans evs ↔ Event.span sp ∈ evs := by
  unfold eventSpans
  rw [List.mem_filterMap]
  constructor
  · rintro ⟨ev, hev, he⟩
    cases ev with
    | scope ss => simp [Event.span?] at he
    | span sp2 =>
      simp only [Event.span?, Option.some.injEq] at he
      subst he; exact hev
  · intro h; exact ⟨_, h, rfl⟩

/-- A group is among the groups of some visits iff its scope was visited. -/
theorem mem_eventScopes (evs : List Event) (ss : scopeSpan) :
    ss ∈ eventScopes evs ↔ Event.scope ss ∈ evs := by
  unfold eventScopes
  rw [List.mem_filterMap]
  constructor
  · rintro ⟨ev, hev, he⟩
    cases ev with
    | scope s2 =>
      simp only [Event.scope?, Option.some.injEq] at he
      subst he; exact hev
    | span sp => simp [Event.scope?] at he
  · intro h; exact ⟨_, h, rfl⟩

/-- Induction along the walk that also knows the state is the one reached. -/
theorem walk_induction_at (rt : Runtime) (cfg : Config) (P : List Event → Walk → Prop)
    (w0 : Walk) (h0 : P [] w0)
    (hstep : ∀ evs ev, P evs (evs.foldl (eventStep rt cfg) w0) →
      P (evs ++ [ev]) (eventStep rt cfg (evs.foldl (eventStep rt cfg) w0) ev))
    (evs : List Event) : P evs (evs.foldl (eventStep rt cfg) w0) := by
  induction evs using List.reverseRecOn with
  | nil => exact h0
  | append_singleton l a ih =>
    rw [List.foldl_append]
    exact hstep l a ih

/-- Each model Component was recorded at the first span that resolves its name. -/
theorem walk_first_model (rt : Runtime) (cfg : Config) (appName : ByteString)
    (evs : List Event) :
    ∀ c ∈ (evs.foldl (eventStep rt cfg) (Walk.start rt appName)).b.Components,
      c.Typ = "model" →
      ∃ pre sp post, eventSpans evs = pre ++ sp :: post ∧ c = modelComponent cfg sp ∧
        getStr sp.Attributes cfg.ModelAttrs ≠ "" ∧
        ∀ sp2 ∈ pre, getStr sp2.Attributes cfg.ModelAttrs ≠
          getStr sp.Attributes cfg.ModelAttrs := by
  refine walk_induction_at rt cfg (fun evs w => ∀ c ∈ w.b.Components, c.Typ = "model" →
      ∃ pre sp post, eventSpans evs = pre ++ sp :: post ∧ c = modelComponent cfg sp ∧
        getStr sp.Attributes cfg.ModelAttrs ≠ "" ∧
        ∀ sp2 ∈ pre, getStr sp2.Attributes cfg.ModelAttrs ≠
          getStr sp.Attributes cfg.ModelAttrs)
    (Walk.start rt appName) ?_ ?_ evs
  · intro c hc; simp [Walk.start, New] at hc
  · intro evs ev ih c hc ht
    have hreg := walk_registered rt cfg appName evs
    generalize evs.foldl (eventStep rt cfg) (Walk.start rt appName) = w at ih hc hreg
    have old : c ∈ w.b.Components →
        ∃ pre sp post, eventSpans (evs ++ [ev]) = pre ++ sp :: post ∧
          c = modelComponent cfg sp ∧ getStr sp.Attributes cfg.ModelAttrs ≠ "" ∧
          ∀ sp2 ∈ pre, getStr sp2.Attributes cfg.ModelAttrs ≠
            getStr sp.Attributes cfg.ModelAttrs := by
      intro hcw
      obtain ⟨pre, sp, post, h1, h2, h3, h4⟩ := ih c hcw ht
      refine ⟨pre, sp, post ++ eventSpans [ev], ?_, h2, h3, h4⟩
      unfold eventSpans at h1 ⊢
      rw [List.filterMap_append, h1, List.append_assoc, List.cons_append]
    cases ev with
    | scope ss =>
      simp only [eventStep, (scopeStep_eq w ss).2.1, List.mem_append, List.mem_map] at hc
      rcases hc with hc | ⟨sc, _, rfl⟩
      · exact old hc
      · exact absurd ht (by simp [frameworkComponent])
    | span sp =>
      simp only [eventStep, (spanStep_eq rt cfg w sp).2.1, List.mem_append] at hc
      rcases hc with (hc | hc) | hc
      · exact old hc
      · by_cases hn : modelIsNew cfg w sp
        · rw [if_pos hn, List.mem_singleton] at hc
          refine ⟨eventSpans evs, sp, [], ?_, hc, hn.1, ?_⟩
          · rw [eventSpans_snoc]
          · intro sp2 hsp2 he
            have hk := hreg.1 sp2 ((mem_eventSpans evs sp2).1 hsp2) (by rw [he]; exact hn.1)
            rw [he] at hk
            exact hn.2 hk
        · rw [if_neg hn] at hc; exact absurd hc (List.not_mem_nil _)
      · by_cases hn : toolIsNew cfg w sp
        · rw [if_pos hn, List.mem_singleton] at hc
          subst hc
          exact absurd ht (by simp [toolComponent])
        · rw [if_neg hn] at hc; exact absurd hc (List.not_mem_nil _)

/-- Each framework Component was recorded at the first group of its name. -/
theorem walk_first_framework (rt : Runtime) (cfg : Config) (appName : ByteString)
    (evs : List Event) :
    ∀ c ∈ (evs.foldl (eventStep rt cfg) (Walk.start rt appName)).b.Components,
      c.Typ = "framework" →
      ∃ pre ss post sc, eventScopes evs = pre ++ ss :: post ∧ ss.Scope = some sc ∧
        c = frameworkComponent sc ∧ sc.Name ≠ "" ∧
        ∀ ss2 ∈ pre, ∀ sc2, ss2.Scope = some sc2 → sc2.Name ≠ sc.Name := by
  refine walk_induction_at rt cfg (fun evs w => ∀ c ∈ w.b.Components, c.Typ = "framework" →
      ∃ pre ss post sc, eventScopes evs = pre ++ ss :: post ∧ ss.Scope = some sc ∧
        c = frameworkComponent sc ∧ sc.Name ≠ "" ∧
        ∀ ss2 ∈ pre, ∀ sc2, ss2.Scope = some sc2 → sc2.Name ≠ sc.Name)
    (Walk.start rt appName) ?_ ?_ evs
  · intro c hc; simp [Walk.start, New] at hc
  · intro evs ev ih c hc ht
    have hreg := walk_registered rt cfg appName evs
    generalize evs.foldl (eventStep rt cfg) (Walk.start rt appName) = w at ih hc hreg
    have old : c ∈ w.b.Components →
        ∃ pre ss post sc, eventScopes (evs ++ [ev]) = pre ++ ss :: post ∧ ss.Scope = some sc ∧
          c = frameworkComponent sc ∧ sc.Name ≠ "" ∧
          ∀ ss2 ∈ pre, ∀ sc2, ss2.Scope = some sc2 → sc2.Name ≠ sc.Name := by
      intro hcw
      obtain ⟨pre, ss, post, sc, h1, h2, h3, h4, h5⟩ := ih c hcw ht
      refine ⟨pre, ss, post ++ eventScopes [ev], sc, ?_, h2, h3, h4, h5⟩
      unfold eventScopes at h1 ⊢
      rw [List.filterMap_append, h1, List.append_assoc, List.cons_append]
    cases ev with
    | scope ss =>
      simp only [eventStep, (scopeStep_eq w ss).2.1, List.mem_append, List.mem_map] at hc
      rcases hc with hc | ⟨sc, hsc, rfl⟩
      · exact old hc
      · obtain ⟨hs, hne, hk⟩ := (mem_newFramework w ss sc).1 hsc
        refine ⟨eventScopes evs, ss, [], sc, ?_, hs, rfl, hne, ?_⟩
        · rw [eventScopes_snoc]
        · intro ss2 hss2 sc2 hsc2 he
          have := hreg.2.2.2 ss2 sc2 ((mem_eventScopes evs ss2).1 hss2) hsc2
            (by rw [he]; exact hne)
          rw [he] at this
          exact hk this
    | span sp =>
      simp only [eventStep, (spanStep_eq rt cfg w sp).2.1, List.mem_append] at hc
      rcases hc with (hc | hc) | hc
      · exact old hc
      · by_cases hn : modelIsNew cfg w sp
        · rw [if_pos hn, List.mem_singleton] at hc
          subst hc
          exact absurd ht (by simp [modelComponent])
        · rw [if_neg hn] at hc; exact absurd hc (List.not_mem_nil _)
      · by_cases hn : toolIsNew cfg w sp
        · rw [if_pos hn, List.mem_singleton] at hc
          subst hc
          exact absurd ht (by simp [toolComponent])
        · rw [if_neg hn] at hc; exact absurd hc (List.not_mem_nil _)

/-- First sightings of a longer list continue those of the shorter one. -/
theorem keepFirst_append {α : Type} [DecidableEq α] (l l2 : List α) :
    keepFirst (l ++ l2) =
      l2.foldl (fun acc k => if k ∈ acc then acc else acc ++ [k]) (keepFirst l) := by
  unfold keepFirst
  rw [List.foldl_append]

/-- For the three Component kinds, an identity is in the `seen` set iff a
Component carries it. -/
theorem Ledger.mem_keys {seen comps finds svcs} (h : Ledger seen comps finds svcs)
    (k : componentKey) (hk : k.typ = "model" ∨ k.typ = "tool" ∨ k.typ = "framework") :
    k ∈ comps.map Component.key ↔ k ∈ seen := by
  constructor
  · intro hm
    obtain ⟨c, hc, rfl⟩ := List.mem_map.1 hm
    exact h.comp_seen c hc
  · intro hs
    obtain ⟨t, n⟩ := k
    simp only at hk
    rcases hk with rfl | rfl | rfl
    · obtain ⟨⟨c, hc, h1, h2⟩, _⟩ := h.seen_model n hs
      exact List.mem_map.2 ⟨c, hc, by simp [Component.key, h1, h2]⟩
    · obtain ⟨⟨c, hc, h1, h2⟩, _⟩ := h.seen_tool n hs
      exact List.mem_map.2 ⟨c, hc, by simp [Component.key, h1, h2]⟩
    · obtain ⟨c, hc, h1, h2⟩ := h.seen_framework n hs
      exact List.mem_map.2 ⟨c, hc, by simp [Component.key, h1, h2]⟩

/-- The Components of the walk are the first sightings of the identities met,
in the order met. -/
theorem walk_order (rt : Runtime) (cfg : Config) (appName : ByteString) (evs : List Event) :
    (evs.foldl (eventStep rt cfg) (Walk.start rt appName)).b.Components.map Component.key =
      keepFirst (evs.flatMap (eventKeys cfg)) := by
  refine walk_induction_at rt cfg
    (fun evs w => w.b.Components.map Component.key = keepFirst (evs.flatMap (eventKeys cfg)))
    (Walk.start rt appName) ?_ ?_ evs
  · rfl
  · intro evs ev ih
    have hinv : (evs.foldl (eventStep rt cfg) (Walk.start rt appName)).Inv :=
      walk_Inv rt cfg appName evs
    generalize evs.foldl (eventStep rt cfg) (Walk.start rt appName) = w at ih hinv
    rw [List.flatMap_append, keepFirst_append, ← ih]
    simp only [List.flatMap_cons, List.flatMap_nil, List.append_nil]
    cases ev with
    | scope ss =>
      simp only [eventStep, (scopeStep_eq w ss).2.1, eventKeys, scopeSpan.frameworkName,
        newFramework, List.map_append]
      cases hs : ss.Scope with
      | none => simp
      | some sc =>
        by_cases hn : sc.Name = ""
        · simp [hn]
        · have hk := Ledger.mem_keys hinv ⟨"framework", sc.Name⟩ (Or.inr (Or.inr rfl))
          by_cases hseen : (⟨"framework", sc.Name⟩ : componentKey) ∈ w.seen
          · have := hk.2 hseen
            simp [hn, hseen, this]
          · have : (⟨"framework", sc.Name⟩ : componentKey) ∉ w.b.Components.map Component.key :=
              fun h => hseen (hk.1 h)
            simp [hn, hseen, this, frameworkComponent, Component.key]
    | span sp =>
      simp only [eventStep, (spanStep_eq rt cfg w sp).2.1, eventKeys, modelIsNew, toolIsNew,
        List.map_append]
      have hkm := Ledger.mem_keys hinv ⟨"model", getStr sp.Attributes cfg.ModelAttrs⟩
        (Or.inl rfl)
      have hkt := Ledger.mem_keys hinv ⟨"tool", getStr sp.Attributes cfg.ToolAttrs⟩
        (Or.inr (Or.inl rfl))
      by_cases hm : getStr sp.Attributes cfg.ModelAttrs = "" <;>
      by_cases ht : getStr sp.Attributes cfg.ToolAttrs = "" <;>
      by_cases hms : (⟨"model", getStr sp.Attributes cfg.ModelAttrs⟩ : componentKey) ∈ w.seen <;>
      by_cases hts : (⟨"tool", getStr sp.Attributes cfg.ToolAttrs⟩ : componentKey) ∈ w.seen <;>
      simp [hm, ht, hms, hts, hkm, hkt, modelComponent, toolComponent, Component.key]

/-! ## Frameworks and first sightings in the result -/

/-- The non-empty scope names of an export, by membership. -/
theorem mem_scopeNames (xp : otlpExport) (n : String) :
    n ∈ xp.scopeNames ↔
      n ≠ "" ∧ ∃ ss ∈ xp.allScopeSpans, ∃ sc, ss.Scope = some sc ∧ sc.Name = n := by
  unfold otlpExport.scopeNames
  rw [List.mem_filterMap]
  constructor
  · rintro ⟨ss, hss, hn⟩
    unfold scopeSpan.frameworkName at hn
    cases hs : ss.Scope with
    | none => rw [hs] at hn; simp at hn
    | some sc =>
      rw [hs] at hn
      by_cases hne : sc.Name = ""
      · simp [hne] at hn
      · simp only [ne_eq, hne, not_false_eq_true, if_true, Option.some.injEq] at hn
        subst hn
        exact ⟨hne, ss, hss, sc, hs, rfl⟩
  · rintro ⟨hne, ss, hss, sc, hs, rfl⟩
    refine ⟨ss, hss, ?_⟩
    unfold scopeSpan.frameworkName
    rw [hs]
    simp [hne]

/-- C14. The number of framework Components in the result equals the number
of distinct non-empty scope names over all groups: a group with no scope or
an empty scope name records nothing, a named group has its framework
recorded exactly once (whether or not it contains spans, however many groups
repeat the name), and each framework Component carries the version of the
first group of that name in document order. -/
theorem collect_frameworks (rt : Runtime) (xp : otlpExport) (appName : ByteString)
    (cfg : Config) :
    ((collect rt xp appName cfg).Components.filter fun c => c.Typ = "framework").length =
      xp.scopeNames.dedup.length ∧
    (∀ (w : Walk) (ss : scopeSpan), (∀ sc, ss.Scope = some sc → sc.Name = "") →
      scopeStep w ss = w) ∧
    (∀ ss ∈ xp.allScopeSpans, ∀ sc, ss.Scope = some sc → sc.Name ≠ "" →
      ((collect rt xp appName cfg).Components.filter fun c =>
        (c.Typ, c.Name) = ("framework", sc.Name)).length = 1) ∧
    (∀ c ∈ (collect rt xp appName cfg).Components, c.Typ = "framework" →
      ∃ pre ss post sc, xp.allScopeSpans = pre ++ ss :: post ∧ ss.Scope = some sc ∧
        sc.Name = c.Name ∧ sc.Version = c.Version ∧
        ∀ ss2 ∈ pre, ∀ sc2, ss2.Scope = some sc2 → sc2.Name ≠ c.Name) := by
  obtain ⟨hc, _, _⟩ := collect_lists rt xp appName cfg
  have hinv := walk_Inv rt cfg appName xp.events
  have hreg := walk_registered rt cfg appName xp.events
  have hor := walk_component_origin rt cfg appName xp.events
  have hfirst := walk_first_framework rt cfg appName xp.events
  rw [eventScopes_events] at hfirst
  rw [hc]
  generalize (xp.events.foldl (eventStep rt cfg) (Walk.start rt appName)) = w at hinv hreg hor hfirst
  refine ⟨?_, scopeStep_unnamed, ?_, ?_⟩
  · have hsub : ((w.b.Components.filter fun c => c.Typ = "framework").map
        fun c => (c.Typ, c.Name)).Nodup :=
      hinv.comp_nodup.sublist ((List.filter_sublist _).map _)
    have hnd : ((w.b.Components.filter fun c => c.Typ = "framework").map
        fun c => c.Name).Nodup := by
      have := List.Nodup.map_on (f := Prod.snd) (by
        intro x hx y hy hxy
        obtain ⟨cx, hcx, rfl⟩ := List.mem_map.1 hx
        obtain ⟨cy, hcy, rfl⟩ := List.mem_map.1 hy
        have tx : cx.Typ = "framework" := by simpa using (List.mem_filter.1 hcx).2
        have ty : cy.Typ = "framework" := by simpa using (List.mem_filter.1 hcy).2
        simp only at hxy
        rw [tx, ty, hxy]) hsub
      rwa [List.map_map] at this
    have hperm : ((w.b.Components.filter fun c => c.Typ = "framework").map
        fun c => c.Name).Perm xp.scopeNames.dedup := by
      rw [List.perm_ext_iff_of_nodup hnd (List.nodup_dedup _)]
      intro n
      rw [List.mem_dedup, mem_scopeNames, List.mem_map]
      constructor
      · rintro ⟨c, hcf, rfl⟩
        obtain ⟨hcm, hct⟩ := List.mem_filter.1 hcf
        have hct : c.Typ = "framework" := by simpa using hct
        rcases hor c hcm with ⟨sp, _, _, rfl⟩ | ⟨sp, _, _, rfl⟩ | ⟨ss, sc, hss, hsc, hne, rfl⟩
        · exact absurd hct (by simp [modelComponent])
        · exact absurd hct (by simp [toolComponent])
        · exact ⟨hne, ss, (mem_events_scope xp ss).1 hss, sc, hsc, rfl⟩
      · rintro ⟨hne, ss, hss, sc, hsc, rfl⟩
        obtain ⟨c, hcm, hct, hcn⟩ := hinv.seen_framework _
          (hreg.2.2.2 ss sc ((mem_events_scope xp ss).2 hss) hsc hne)
        exact ⟨c, List.mem_filter.2 ⟨hcm, by simp [hct]⟩, hcn⟩
    have := hperm.length_eq
    rwa [List.length_map] at this
  · intro ss hss sc hsc hne
    obtain ⟨c, hcm, hct, hcn⟩ := hinv.seen_framework _
      (hreg.2.2.2 ss sc ((mem_events_scope xp ss).2 hss) hsc hne)
    exact filter_key_length_one _ _ _ hinv.comp_nodup ⟨c, hcm, by rw [hct, hcn]⟩
  · intro c hcm hct
    obtain ⟨pre, ss, post, sc, h1, h2, rfl, _, h5⟩ := hfirst c hcm hct
    exact ⟨pre, ss, post, sc, h1, h2, rfl, rfl, h5⟩

/-- Witness of C14: "langchain" occurs in two span-less groups; it is
recorded once, with the version 0.1.0 of the first. -/
theorem collect_frameworks_witness :
    ((collect utcRuntime frameworkTrace (stringBytes "test") DefaultConfig).Components.filter
        fun c => (c.Typ, c.Name) = ("framework", "langchain")).length = 1 ∧
    ∃ pre ss post sc, frameworkTrace.allScopeSpans = pre ++ ss :: post ∧ ss.Scope = some sc ∧
      sc.Name = "langchain" ∧ sc.Version = "0.1.0" ∧
      ∀ ss2 ∈ pre, ∀ sc2, ss2.Scope = some sc2 → sc2.Name ≠ "langchain" :=
  ⟨(collect_frameworks utcRuntime frameworkTrace (stringBytes "test") DefaultConfig).2.2.1
      { Scope := some { Name := "langchain", Version := "0.2.0" }, Spans := [] } (by decide)
      { Name := "langchain", Version := "0.2.0" } rfl (by decide),
   (collect_frameworks utcRuntime frameworkTrace (stringBytes "test") DefaultConfig).2.2.2
      { Typ := "framework", Name := "langchain", Version := "0.1.0", Provider := "",
        BOMRef := "framework-" ++ bomRef "langchain" "0.1.0", Properties := [] }
      (by decide!) rfl⟩

/-- C19. First sighting wins: each model Component of the result has an
empty Version and the provider resolved on the first span, in document order,
on which its name resolved (so providers on later spans reporting the same
model are ignored); each tool Component has an empty Version and an empty
Provider; and the Components appear in the order of their first sighting:
their identities are the first sightings of the identities met on the walk. -/
theorem collect_first_sighting (rt : Runtime) (xp : otlpExport) (appName : ByteString)
    (cfg : Config) :
    (∀ c ∈ (collect rt xp appName cfg).Components, c.Typ = "model" →
      c.Version = "" ∧
      ∃ pre sp post, xp.allSpans = pre ++ sp :: post ∧
        getStr sp.Attributes cfg.ModelAttrs = c.Name ∧
        (∀ sp2 ∈ pre, getStr sp2.Attributes cfg.ModelAttrs ≠ c.Name) ∧
        c.Provider = getStr sp.Attributes cfg.ProviderAttrs) ∧
    (∀ c ∈ (collect rt xp appName cfg).Components, c.Typ = "tool" →
      c.Version = "" ∧ c.Provider = "") ∧
    (collect rt xp appName cfg).Components.map Component.key =
      keepFirst (xp.events.flatMap (eventKeys cfg)) := by
  obtain ⟨hc, _, _⟩ := collect_lists rt xp appName cfg
  have hor := walk_component_origin rt cfg appName xp.events
  have hfirst := walk_first_model rt cfg appName xp.events
  rw [eventSpans_events] at hfirst
  rw [hc]
  refine ⟨?_, ?_, walk_order rt cfg appName xp.events⟩
  · intro c hcm hct
    obtain ⟨pre, sp, post, h1, rfl, _, h4⟩ := hfirst c hcm hct
    exact ⟨rfl, pre, sp, post, h1, rfl, h4, rfl⟩
  · intro c hcm hct
    rcases hor c hcm with ⟨sp, _, _, rfl⟩ | ⟨sp, _, _, rfl⟩ | ⟨ss, sc, _, _, _, rfl⟩
    · exact absurd hct (by simp [modelComponent])
    · exact ⟨rfl, rfl⟩
    · exact absurd hct (by simp [frameworkComponent])

/-- Witness of C19: gpt-4 is reported with the provider openai and later
with azure; the Component keeps openai. -/
theorem collect_first_sighting_witness :
    "" = "" ∧
    ∃ pre sp post, providerTrace.allSpans = pre ++ sp :: post ∧
      getStr sp.Attributes DefaultConfig.ModelAttrs = "gpt-4" ∧
      (∀ sp2 ∈ pre, getStr sp2.Attributes DefaultConfig.ModelAttrs ≠ "gpt-4") ∧
      "openai" = getStr sp.Attributes DefaultConfig.ProviderAttrs :=
  (collect_first_sighting utcRuntime providerTrace (stringBytes "test") DefaultConfig).1
    { Typ := "model", Name := "gpt-4", Version := "", Provider := "openai",
      BOMRef := "model-" ++ bomRef "gpt-4" "", Properties := [] }
    (by decide!) rfl

/-! ## Timestamps that are left out of the window -/

/-- The span count of the result is the number of spans. -/
theorem collect_spanCount (rt : Runtime) (xp : otlpExport) (appName : ByteString)
    (cfg : Config) :
    (collect rt xp appName cfg).Evidence.SpanCount = (xp.allSpans.length : Int) := by
  have h1 := (walk_counters rt cfg appName xp.events).1
  rw [eventSpans_events] at h1
  rw [collect_eq, (finish_evidence rt _).1, h1]

/-- The trace IDs of the result are those of the spans. -/
theorem collect_traceIDs_mem (rt : Runtime) (xp : otlpExport) (appName : ByteString)
    (cfg : Config) (tid : String) :
    tid ∈ (collect rt xp appName cfg).Evidence.TraceIDs ↔
      ∃ sp ∈ xp.allSpans, sp.TraceID = tid := by
  obtain ⟨_, _, h3, h4, _⟩ := walk_counters rt cfg appName xp.events
  rw [eventSpans_events] at h3
  rw [collect_eq, (finish_evidence rt _).2.1, h4, List.nil_append,
    (rt.mapOrder_perm _).mem_iff]
  exact h3 tid

/-- The window depends on the valid timestamps only, not on their order. -/
theorem window_congr (rt : Runtime) (xp xp2 : otlpExport) (appName appName2 : ByteString)
    (cfg cfg2 : Config) (hp : xp2.validTimes.Perm xp.validTimes) :
    (collect rt xp2 appName2 cfg2).Evidence.Window =
      (collect rt xp appName cfg).Evidence.Window := by
  obtain ⟨h0, h1⟩ := window_of_walk rt xp appName cfg
  obtain ⟨g0, g1⟩ := window_of_walk rt xp2 appName2 cfg2
  by_cases hv : xp.validTimes = []
  · have hv2 : xp2.validTimes = [] := by rw [hv] at hp; exact hp.eq_nil
    rw [h0 hv, g0 hv2]
  · have hv2 : xp2.validTimes ≠ [] := by
      intro hc; rw [hc] at hp; exact hv hp.symm.eq_nil
    obtain ⟨lo, hi, hlo, hhi, hb, hw⟩ := h1 hv
    obtain ⟨lo2, hi2, hlo2, hhi2, hb2, hw2⟩ := g1 hv2
    have e1 : lo2 = lo := by
      have a := (hb lo2 (hp.mem_iff.1 hlo2)).1
      have b := (hb2 lo (hp.mem_iff.2 hlo)).1
      cases lo; cases lo2
      simp only [Time.mk.injEq] at *
      omega
    have e2 : hi2 = hi := by
      have a := (hb hi2 (hp.mem_iff.1 hhi2)).2
      have b := (hb2 hi (hp.mem_iff.2 hhi)).2
      cases hi; cases hi2
      simp only [Time.mk.injEq] at *
      omega
    rw [hw, hw2, e1, e2]

/-- A string that starts with neither space, sign nor digit scans to nothing. -/
theorem scanInt64_no_number (c : Char) (rest : List Char) (h1 : isSpace c = false)
    (h2 : c ≠ '+') (h3 : c ≠ '-') (h4 : c.isDigit = false) :
    scanInt64 (c :: rest) = none := by
  have hr : c ≠ '\r' := by intro e; rw [e] at h1; exact absurd h1 (by decide)
  have hn : c ≠ '\n' := by intro e; rw [e] at h1; exact absurd h1 (by decide)
  have hs : ∀ t, skipSpace (c :: t) = some (c :: t) := by
    intro t; simp [skipSpace, hr, hn, h1]
  have htake : (c :: rest).take hugeWid = c :: rest.take (hugeWid - 1) := by
    have : hugeWid = (hugeWid - 1) + 1 := by decide
    rw [this, List.take_succ_cons]; rfl
  unfold scanInt64
  rw [htake, hs]
  simp only [Option.bind, hs]
  simp [h2, h3, List.takeWhile_cons, h4]

/-- C11, counterexample: the timestamp string "123abc" is not a well-formed
decimal integer, yet the scan reads 123 from it and the span takes part in
the window: with it the window starts in 1970, without it the window is the
single timestamp of the other span. -/
theorem malformed_timestamp_in_window :
    (collect utcRuntime malformedTrace (stringBytes "test") DefaultConfig).Evidence.Window =
      some { Start := "1970-01-01T00:00:00Z", End := "2023-11-14T22:13:20Z" } ∧
    (collect utcRuntime malformedTraceRest (stringBytes "test") DefaultConfig).Evidence.Window =
      some { Start := "2023-11-14T22:13:20Z", End := "2023-11-14T22:13:20Z" } := by
  decide!

/-- C11, amended: a span whose start-timestamp string gives the scan no
integer, or the integer 0, still counts in `SpanCount` and has its trace ID
recorded, and the window of the result equals the window computed from the
remaining spans alone. The empty string, "0", and every string that starts
with neither space, sign nor digit are such strings. -/
theorem zero_timestamp_excluded (rt : Runtime) (cfg : Config) (appName : ByteString)
    (xp xp2 : otlpExport) (pre post : List rawSpan) (sp : rawSpan)
    (hz : (scanInt64 sp.StartNano.data).getD 0 = 0)
    (h1 : xp.allSpans = pre ++ sp :: post) (h2 : xp2.allSpans = pre ++ post) :
    (collect rt xp appName cfg).Evidence.SpanCount =
      (collect rt xp2 appName cfg).Evidence.SpanCount + 1 ∧
    sp.TraceID ∈ (collect rt xp appName cfg).Evidence.TraceIDs ∧
    (collect rt xp appName cfg).Evidence.Window =
      (collect rt xp2 appName cfg).Evidence.Window ∧
    (scanInt64 "".data).getD 0 = 0 ∧ (scanInt64 "0".data).getD 0 = 0 ∧
    (∀ (c : Char) (rest : List Char), isSpace c = false → c ≠ '+' → c ≠ '-' →
      c.isDigit = false → (scanInt64 (c :: rest)).getD 0 = 0) := by
  refine ⟨?_, ?_, ?_, by decide!, by decide!, ?_⟩
  · rw [collect_spanCount, collect_spanCount, h1, h2]
    simp only [List.length_append, List.length_cons]
    push_cast
    omega
  · rw [collect_traceIDs_mem]
    exact ⟨sp, by rw [h1]; simp, rfl⟩
  · apply window_congr
    have hzero : (parseNanos sp.StartNano).IsZero = true := (parseNanos_isZero _).2 hz
    unfold otlpExport.validTimes validTimesOf
    rw [h1, h2]
    simp only [List.map_append, List.map_cons, List.filter_append, List.filter_cons, hzero,
      Bool.not_true, Bool.false_eq_true, if_false]
    exact List.Perm.refl _
  · intro c rest a b d e
    rw [scanInt64_no_number c rest a b d e]
    rfl

/-- Witness of C11, amended: a span with the timestamp string "abc" leaves
the window as it is without that span. -/
theorem zero_timestamp_excluded_witness :
    (collect utcRuntime
        { ResourceSpans := [{ Resource := none, ScopeSpans := [{ Scope := none, Spans := [
          { TraceID := "t1", Name := "good", StartNano := "1700000000000000000",
            Attributes := [] },
          { TraceID := "t2", Name := "bad", StartNano := "abc", Attributes := [] }] }] }] }
        (stringBytes "test") DefaultConfig).Evidence.Window =
      (collect utcRuntime malformedTraceRest (stringBytes "test") DefaultConfig).Evidence.Window :=
  (zero_timestamp_excluded utcRuntime DefaultConfig (stringBytes "test")
    { ResourceSpans := [{ Resource := none, ScopeSpans := [{ Scope := none, Spans := [
      { TraceID := "t1", Name := "good", StartNano := "1700000000000000000",
        Attributes := [] },
      { TraceID := "t2", Name := "bad", StartNano := "abc", Attributes := [] }] }] }] }
    malformedTraceRest
    [{ TraceID := "t1", Name := "good", StartNano := "1700000000000000000", Attributes := [] }]
    []
    { TraceID := "t2", Name := "bad", StartNano := "abc", Attributes := [] }
    (by decide!) rfl rfl).2.2.1

/-! ## Determinism -/

/-- A visit does the same under two runtimes with the same layout routine. -/
theorem eventStep_congr (rt rt2 : Runtime) (hf : rt.format = rt2.format) (cfg : Config)
    (w : Walk) (ev : Event) : eventStep rt cfg w ev = eventStep rt2 cfg w ev := by
  cases ev with
  | scope ss => rfl
  | span sp =>
    simp only [eventStep, spanStep, extractModel, extractTool, hf]

/-- The walk is the same under two runtimes with the same clock reading and
the same layout routine. -/
theorem walk_congr (rt rt2 : Runtime) (hn : rt.now = rt2.now) (hf : rt.format = rt2.format)
    (cfg : Config) (appName : ByteString) (evs : List Event) :
    evs.foldl (eventStep rt cfg) (Walk.start rt appName) =
      evs.foldl (eventStep rt2 cfg) (Walk.start rt2 appName) := by
  have hs : Walk.start rt appName = Walk.start rt2 appName := by
    unfold Walk.start; rw [hn]
  rw [hs]
  generalize Walk.start rt2 appName = w
  induction evs generalizing w with
  | nil => rfl
  | cons ev rest ih =>
    rw [List.foldl_cons, List.foldl_cons, eventStep_congr rt rt2 hf, ih]

/-- C18, counterexample: two runs on the same trace, application name and
config, with the same clock reading and layout routine, whose map iteration
visits the two trace IDs in opposite orders: the inventories differ in the
order of `Evidence.TraceIDs`. -/
theorem traceIDs_order_differs :
    utcRuntime.now = reversedRuntime.now ∧ utcRuntime.format = reversedRuntime.format ∧
    (collect utcRuntime windowTrace (stringBytes "test") DefaultConfig).Evidence.TraceIDs =
      ["t1", "t2"] ∧
    (collect reversedRuntime windowTrace (stringBytes "test") DefaultConfig).Evidence.TraceIDs =
      ["t2", "t1"] ∧
    collect utcRuntime windowTrace (stringBytes "test") DefaultConfig ≠
      collect reversedRuntime windowTrace (stringBytes "test") DefaultConfig := by
  refine ⟨rfl, rfl, by decide!, by decide!, ?_⟩
  intro h
  have h2 := congrArg (fun b => b.Evidence.TraceIDs) h
  revert h2
  decide!

/-- C18, amended: two runs of the pass on the same parsed input, application
name and config, with the same generation timestamp and layout routine,
return inventories that are identical except for the order of
`Evidence.TraceIDs`, which holds the same trace IDs in both; the inventories
are identical when the map iteration order is the same, and when there is at
most one trace ID. -/
theorem collect_deterministic (rt rt2 : Runtime) (xp : otlpExport) (appName : ByteString)
    (cfg : Config) (hn : rt.now = rt2.now) (hf : rt.format = rt2.format) :
    collect rt xp appName cfg =
      { collect rt2 xp appName cfg with
        Evidence := { (collect rt2 xp appName cfg).Evidence with
          TraceIDs := (collect rt xp appName cfg).Evidence.TraceIDs } } ∧
    ((collect rt xp appName cfg).Evidence.TraceIDs).Perm
      (collect rt2 xp appName cfg).Evidence.TraceIDs ∧
    (rt.mapOrder = rt2.mapOrder → collect rt xp appName cfg = collect rt2 xp appName cfg) ∧
    ((collect rt xp appName cfg).Evidence.TraceIDs.length ≤ 1 →
      collect rt xp appName cfg = collect rt2 xp appName cfg) := by
  have hw := walk_congr rt rt2 hn hf cfg appName xp.events
  have hfin : ∀ w : Walk, w.finish rt =
      { w.finish rt2 with
        Evidence := { (w.finish rt2).Evidence with
          TraceIDs := (w.finish rt).Evidence.TraceIDs } } := by
    intro w
    unfold Walk.finish
    simp only [hf]
    split_ifs <;> rfl
  have hperm : ∀ w : Walk, ((w.finish rt).Evidence.TraceIDs).Perm
      (w.finish rt2).Evidence.TraceIDs := by
    intro w
    rw [(finish_evidence rt w).2.1, (finish_evidence rt2 w).2.1]
    exact List.Perm.append_left _
      ((rt.mapOrder_perm _).trans (rt2.mapOrder_perm _).symm)
  have heq : ∀ w : Walk, (w.finish rt).Evidence.TraceIDs = (w.finish rt2).Evidence.TraceIDs →
      w.finish rt = w.finish rt2 := by
    intro w h
    rw [hfin w, h]
  rw [collect_eq, collect_eq, hw]
  generalize xp.events.foldl (eventStep rt2 cfg) (Walk.start rt2 appName) = w
  refine ⟨hfin w, hperm w, ?_, ?_⟩
  · intro hm
    apply heq
    rw [(finish_evidence rt w).2.1, (finish_evidence rt2 w).2.1, hm]
  · intro hl
    apply heq
    have hp := hperm w
    generalize (w.finish rt).Evidence.TraceIDs = l1 at hp hl
    generalize (w.finish rt2).Evidence.TraceIDs = l2 at hp
    match l1, hl with
    | [], _ => exact hp.symm.eq_nil.symm
    | [a], _ => exact (List.perm_singleton.1 hp.symm).symm

/-- Witness of C18, amended: the two runs of the counterexample hold the same
trace IDs. -/
theorem collect_deterministic_witness :
    ((collect utcRuntime windowTrace (stringBytes "test") DefaultConfig).Evidence.TraceIDs).Perm
      (collect reversedRuntime windowTrace (stringBytes "test") DefaultConfig).Evidence.TraceIDs :=
  (collect_deterministic utcRuntime reversedRuntime windowTrace (stringBytes "test")
    DefaultConfig rfl rfl).2.1

/-! ## The round trip through the document

### Coercion to valid UTF-8 -/

/-- A valid two-byte encoding decodes with width 2. -/
theorem decodeRune_two (s0 s1 : Nat) (rest : List Nat) (a : 0xC2 ≤ s0) (b : s0 < 0xE0)
    (c : 0x80 ≤ s1) (d : s1 ≤ 0xBF) :
    decodeRune (s0 :: s1 :: rest) = (Char.ofNat (s0 % 32 * 64 + s1 % 64), 2) := by
  have f1 : ¬ s0 < 0x80 := by omega
  have f2 : ¬ (s0 < 0xC2 ∨ 0xF4 < s0) := by omega
  have f3 : s0 ≠ 0xE0 := by omega
  have f4 : s0 ≠ 0xF0 := by omega
  have f5 : s0 ≠ 0xED := by omega
  have f6 : s0 ≠ 0xF4 := by omega
  have f7 : ¬ (s1 < 0x80 ∨ 0xBF < s1) := by omega
  have f8 : ¬ ((s1 :: rest).length + 1 < 2) := by simp
  simp only [decodeRune, f1, f2, b, f3, f4, f5, f6, f7, f8, if_true, if_false,
    List.getD_cons_zero]

/-- A valid three-byte encoding decodes with width 3. -/
theorem decodeRune_three (s0 s1 s2 : Nat) (rest : List Nat) (a : 0xE0 ≤ s0) (b : s0 < 0xF0)
    (c : (if s0 = 0xE0 then 0xA0 else 0x80) ≤ s1)
    (d : s1 ≤ (if s0 = 0xED then 0x9F else 0xBF))
    (e : 0x80 ≤ s2) (f : s2 ≤ 0xBF) :
    decodeRune (s0 :: s1 :: s2 :: rest) =
      (Char.ofNat (s0 % 16 * 4096 + s1 % 64 * 64 + s2 % 64), 3) := by
  have f1 : ¬ s0 < 0x80 := by omega
  have f2 : ¬ (s0 < 0xC2 ∨ 0xF4 < s0) := by omega
  have f3 : ¬ s0 < 0xE0 := by omega
  have f4 : s0 ≠ 0xF0 := by omega
  have f6 : s0 ≠ 0xF4 := by omega
  have f8 : ¬ ((s1 :: s2 :: rest).length + 1 < 3) := by simp
  have f9 : ¬ (s2 < 0x80 ∨ 0xBF < s2) := by omega
  have g2 : (3 : Nat) ≠ 2 := by decide
  by_cases h0 : s0 = 0xE0
  · have f5 : s0 ≠ 0xED := by omega
    have f7 : ¬ (s1 < 0xA0 ∨ 0xBF < s1) := by
      simp only [h0, if_true] at c
      simp only [f5, if_false] at d
      omega
    subst h0
    simp [decodeRune, f7, f9]
  · by_cases h1 : s0 = 0xED
    · have f7 : ¬ (s1 < 0x80 ∨ 0x9F < s1) := by
        simp only [h0, if_false] at c
        simp only [h1, if_true] at d
        omega
      subst h1
      simp [decodeRune, f7, f9]
    · have f7 : ¬ (s1 < 0x80 ∨ 0xBF < s1) := by
        simp only [h0, if_false] at c
        simp only [h1, if_false] at d
        omega
      simp only [decodeRune, f1, f2, f3, b, f4, h0, h1, f6, f7, f8, f9, g2, if_true, if_false,
        List.getD_cons_zero, List.getD_cons_succ]

/-- A valid four-byte encoding decodes with width 4. -/
theorem decodeRune_four (s0 s1 s2 s3 : Nat) (rest : List Nat) (a : 0xF0 ≤ s0) (b : s0 ≤ 0xF4)
    (c : (if s0 = 0xF0 then 0x90 else 0x80) ≤ s1)
    (d : s1 ≤ (if s0 = 0xF4 then 0x8F else 0xBF))
    (e : 0x80 ≤ s2) (f : s2 ≤ 0xBF) (g : 0x80 ≤ s3) (h : s3 ≤ 0xBF) :
    decodeRune (s0 :: s1 :: s2 :: s3 :: rest) =
      (Char.ofNat (s0 % 8 * 262144 + s1 % 64 * 4096 + s2 % 64 * 64 + s3 % 64), 4) := by
  have f9 : ¬ (s2 < 0x80 ∨ 0xBF < s2) := by omega
  have f10 : ¬ (s3 < 0x80 ∨ 0xBF < s3) := by omega
  have hs : s0 = 0xF0 ∨ s0 = 0xF1 ∨ s0 = 0xF2 ∨ s0 = 0xF3 ∨ s0 = 0xF4 := by omega
  rcases hs with rfl | rfl | rfl | rfl | rfl
  · have f7 : ¬ (s1 < 0x90 ∨ 0xBF < s1) := by
      simp only [if_true] at c
      norm_num at d
      omega
    simp [decodeRune, f7, f9, f10]
  · have f7 : ¬ (s1 < 0x80 ∨ 0xBF < s1) := by
      norm_num at c d
      omega
    simp [decodeRune, f7, f9, f10]
  · have f7 : ¬ (s1 < 0x80 ∨ 0xBF < s1) := by
      norm_num at c d
      omega
    simp [decodeRune, f7, f9, f10]
  · have f7 : ¬ (s1 < 0x80 ∨ 0xBF < s1) := by
      norm_num at c d
      omega
    simp [decodeRune, f7, f9, f10]
  · have f7 : ¬ (s1 < 0x80 ∨ 0x8F < s1) := by
      norm_num at c d
      omega
    simp [decodeRune, f7, f9, f10]

/-- Decoding the front of an encoded character gives the character back. -/
theorem decodeRune_encode (c : Char) (rest : List Nat) :
    decodeRune (utf8EncodeChar c ++ rest) = (c, (utf8EncodeChar c).length) := by
  have hv : c.toNat < 0xD800 ∨ (0xDFFF < c.toNat ∧ c.toNat < 0x110000) := c.valid
  have hc : Char.ofNat c.toNat = c := Char.ofNat_toNat c
  unfold utf8EncodeChar
  simp only []
  generalize c.toNat = v at hv hc
  by_cases h1 : v < 0x80
  · simp only [h1, if_true, List.cons_append, List.nil_append, decodeRune, List.length_singleton]
    rw [hc]
  · by_cases h2 : v < 0x800
    · simp only [h1, h2, if_true, if_false, List.cons_append, List.nil_append,
        List.length_cons, List.length_nil]
      rw [decodeRune_two _ _ _ (by omega) (by omega) (by omega) (by omega),
        show (0xC0 + v / 64) % 32 * 64 + (0x80 + v % 64) % 64 = v by omega, hc]
    · by_cases h3 : v < 0x10000
      · simp only [h1, h2, h3, if_true, if_false, List.cons_append, List.nil_append,
          List.length_cons, List.length_nil]
        rw [decodeRune_three _ _ _ _ (by omega) (by omega)
            (by split_ifs <;> omega) (by split_ifs <;> omega) (by omega) (by omega),
          show (0xE0 + v / 4096) % 16 * 4096 + (0x80 + v / 64 % 64) % 64 * 64 +
            (0x80 + v % 64) % 64 = v by omega, hc]
      · simp only [h1, h2, h3, if_false, List.cons_append, List.nil_append,
          List.length_cons, List.length_nil]
        rw [decodeRune_four _ _ _ _ _ (by omega) (by omega)
            (by split_ifs <;> omega) (by split_ifs <;> omega) (by omega) (by omega)
            (by omega) (by omega),
          show (0xF0 + v / 262144) % 8 * 262144 + (0x80 + v / 4096 % 64) % 64 * 4096 +
            (0x80 + v / 64 % 64) % 64 * 64 + (0x80 + v % 64) % 64 = v by omega, hc]

/-- The encoding of a character is not empty. -/
theorem utf8EncodeChar_length_pos (c : Char) : 0 < (utf8EncodeChar c).length := by
  unfold utf8EncodeChar
  simp only []
  split_ifs <;> simp

/-- The bytes of a text, character by character. -/
theorem stringBytes_cons (c : Char) (cs : List Char) :
    stringBytes (String.mk (c :: cs)) = utf8EncodeChar c ++ stringBytes (String.mk cs) := rfl

/-- Reading the bytes of a text rune by rune gives the text, with enough fuel. -/
theorem coerceRunes_stringBytes (cs : List Char) (fuel : Nat)
    (h : (stringBytes (String.mk cs)).length ≤ fuel) :
    coerceRunes fuel (stringBytes (String.mk cs)) = cs := by
  induction cs generalizing fuel with
  | nil =>
    cases fuel <;> rfl
  | cons c rest ih =>
    rw [stringBytes_cons] at h ⊢
    have hpos := utf8EncodeChar_length_pos c
    rw [List.length_append] at h
    cases fuel with
    | zero => omega
    | succ f =>
      have hd := decodeRune_encode c (stringBytes (String.mk rest))
      generalize hb : utf8EncodeChar c ++ stringBytes (String.mk rest) = bs at hd
      cases bs with
      | nil =>
        have := congrArg List.length hb
        rw [List.length_append, List.length_nil] at this
        omega
      | cons b bs2 =>
        unfold coerceRunes
        rw [hd]
        simp only []
        rw [← hb, List.drop_left]
        rw [ih f (by omega)]

/-- The coercion to valid UTF-8 leaves the bytes of a text as they are. -/
theorem coerceUTF8_stringBytes (s : String) : coerceUTF8 (stringBytes s) = s := by
  unfold coerceUTF8
  have := coerceRunes_stringBytes s.data (stringBytes s).length (le_refl _)
  rw [show String.mk s.data = s from rfl] at this
  rw [this]

/-! ### Each struct reads back as written -/

/-- Items written one by one are read back one by one. -/
theorem decodeItems_map {α : Type} (enc : α → JValue) (dec : JValue → Except String α)
    (l : List α) (h : ∀ x ∈ l, dec (enc x) = Except.ok x) :
    decodeItems dec (l.map enc) = Except.ok l := by
  induction l with
  | nil => rfl
  | cons a rest ih =>
    rw [List.map_cons]
    unfold decodeItems
    rw [h a (List.mem_cons_self _ _), ih (fun x hx => h x (List.mem_cons_of_mem _ hx))]

/-- A `TimeWindow` reads back as written. -/
theorem timeWindow_roundtrip (w : TimeWindow) :
    TimeWindow.fromJValue w.toJValue = Except.ok w := by
  simp [TimeWindow.toJValue, TimeWindow.fromJValue, decodeField, lookupField, decodeText,
    bind, Except.bind, pure, Except.pure]

/-- A `RuntimeFinding` reads back as written. -/
theorem runtimeFinding_roundtrip (f : RuntimeFinding) :
    RuntimeFinding.fromJValue f.toJValue = Except.ok f := by
  simp [RuntimeFinding.toJValue, RuntimeFinding.fromJValue, decodeField, lookupField,
    decodeText, decodeNumber, bind, Except.bind, pure, Except.pure]

/-- A `Service` reads back as written. -/
theorem service_roundtrip (s : Service) : Service.fromJValue s.toJValue = Except.ok s := by
  obtain ⟨n, e, p⟩ := s
  by_cases h1 : e = "" <;> by_cases h2 : p = "" <;>
    simp [Service.toJValue, Service.fromJValue, decodeField, lookupField, decodeText,
      omitEmptyText, bind, Except.bind, pure, Except.pure, h1, h2]

/-- A properties map reads back as written. -/
theorem decodeProperties_roundtrip (props : List (String × String)) :
    decodeProperties (JValue.object (props.map fun p => (p.1, JValue.text p.2))) =
      Except.ok props := by
  unfold decodeProperties
  have h1 : ((props.map fun p => (p.1, JValue.text p.2)).map fun p => p.2) =
      (props.map fun p => p.2).map JValue.text := by
    simp [List.map_map, Function.comp]
  have h2 : ((props.map fun p => (p.1, JValue.text p.2)).map fun p => p.1) =
      props.map fun p => p.1 := by
    simp [List.map_map, Function.comp]
  dsimp only
  rw [h1, h2, decodeItems_map JValue.text (fun v => decodeText v) _ (fun x _ => rfl)]
  have h3 : (props.map fun p => p.1).zip (props.map fun p => p.2) = props := by
    induction props with
    | nil => rfl
    | cons a rest ih => simp [ih]
  simp [Except.map, h3]

/-- A `Component` reads back as written. -/
theorem component_roundtrip (c : Component) :
    Component.fromJValue c.toJValue = Except.ok c := by
  obtain ⟨t, n, v, p, r, props⟩ := c
  have hp := decodeProperties_roundtrip props
  by_cases h1 : v = "" <;> by_cases h2 : p = "" <;> by_cases h3 : props = [] <;>
    simp [Component.toJValue, Component.fromJValue, decodeField, lookupField, decodeText,
      omitEmptyText, bind, Except.bind, pure, Except.pure, h1, h2, h3, hp]

/-- A `Metadata` whose application name is valid UTF-8 reads back as written. -/
theorem metadata_roundtrip (m : Metadata)
    (h : stringBytes (coerceUTF8 m.Component) = m.Component) :
    Metadata.fromJValue m.toJValue = Except.ok m := by
  obtain ⟨ts, tn, tv, comp⟩ := m
  simp only at h
  by_cases h1 : comp = []
  · subst h1
    simp [Metadata.toJValue, Metadata.fromJValue, decodeField, lookupField, decodeText,
      bind, Except.bind, pure, Except.pure, stringBytes]
  · simp [Metadata.toJValue, Metadata.fromJValue, decodeField, lookupField, decodeText,
      bind, Except.bind, pure, Except.pure, h1, h]

/-- A trace-ID list reads back as written. -/
theorem decodeSlice_text (l : List String) :
    decodeSlice decodeText (JValue.array (l.map JValue.text)) = Except.ok l := by
  unfold decodeSlice
  exact decodeItems_map JValue.text decodeText l (fun x _ => rfl)

/-- A window reads back as written. -/
theorem decodeWindow_roundtrip (w : TimeWindow) :
    decodeWindow w.toJValue = Except.ok (some w) := by
  unfold decodeWindow
  have := timeWindow_roundtrip w
  simp only [TimeWindow.toJValue] at this ⊢
  rw [this]
  rfl

/-- An `Evidence` reads back as written. -/
theorem evidence_roundtrip (e : Evidence) : Evidence.fromJValue e.toJValue = Except.ok e := by
  obtain ⟨src, tids, n, win, finds⟩ := e
  have hf : decodeSlice RuntimeFinding.fromJValue
      (JValue.array (finds.map RuntimeFinding.toJValue)) = Except.ok finds := by
    unfold decodeSlice
    exact decodeItems_map _ _ finds (fun x _ => runtimeFinding_roundtrip x)
  have ht : decodeSlice decodeText (JValue.array (tids.map JValue.text)) = Except.ok tids := by
    unfold decodeSlice
    exact decodeItems_map JValue.text decodeText tids (fun x _ => rfl)
  cases win with
  | none =>
    by_cases h1 : tids = [] <;> by_cases h2 : n = 0 <;> by_cases h3 : finds = [] <;>
      simp [Evidence.toJValue, Evidence.fromJValue, decodeField, lookupField, decodeText,
        decodeNumber, bind, Except.bind, pure, Except.pure, h1, h2, h3, hf, ht]
  | some w =>
    have hw := decodeWindow_roundtrip w
    by_cases h1 : tids = [] <;> by_cases h2 : n = 0 <;> by_cases h3 : finds = [] <;>
      simp [Evidence.toJValue, Evidence.fromJValue, decodeField, lookupField, decodeText,
        decodeNumber, bind, Except.bind, pure, Except.pure, h1, h2, h3, hf, ht, hw]

/-- An AIBOM whose application name is valid UTF-8 reads back as written. -/
theorem aibom_roundtrip (b : AIBOM)
    (h : stringBytes (coerceUTF8 b.Metadata.Component) = b.Metadata.Component) :
    AIBOM.fromJSON b.ToJSON = Except.ok b := by
  obtain ⟨fmt, sv, v, md, comps, svcs, ev⟩ := b
  simp only at h
  have hm := metadata_roundtrip md h
  have he := evidence_roundtrip ev
  have hc : decodeSlice Component.fromJValue
      (JValue.array (comps.map Component.toJValue)) = Except.ok comps := by
    unfold decodeSlice
    exact decodeItems_map _ _ comps (fun x _ => component_roundtrip x)
  have hs : decodeSlice Service.fromJValue
      (JValue.array (svcs.map Service.toJValue)) = Except.ok svcs := by
    unfold decodeSlice
    exact decodeItems_map _ _ svcs (fun x _ => service_roundtrip x)
  have hnull : decodeSlice Component.fromJValue JValue.null = Except.ok [] := rfl
  by_cases h1 : comps = [] <;> by_cases h2 : svcs = [] <;>
    simp [AIBOM.ToJSON, AIBOM.fromJSON, decodeField, lookupField, decodeText,
      decodeNumber, bind, Except.bind, pure, Except.pure, h1, h2, hm, he, hc, hs, hnull]

/-! ### The application name of the result -/

/-- No visit changes the metadata block. -/
theorem eventStep_metadata (rt : Runtime) (cfg : Config) (w : Walk) (ev : Event) :
    (eventStep rt cfg w ev).b.Metadata = w.b.Metadata := by
  cases ev with
  | scope ss =>
    show (scopeStep w ss).b.Metadata = w.b.Metadata
    rcases scopeStep_cases w ss with h | ⟨sc, _, _, _, h⟩
    · rw [h]
    · rw [h]; rfl
  | span sp =>
    show (spanStep rt cfg w sp).b.Metadata = w.b.Metadata
    have e1 : ∀ (w : Walk) (e p : String), (extractEndpoint w e p).b.Metadata = w.b.Metadata := by
      intro w e p
      rcases extractEndpoint_cases w e p with h | ⟨_, _, h⟩
      · rw [h]
      · rw [h]; rfl
    have e2 : ∀ (w : Walk) (t : String) (ts : Time),
        (extractTool rt w t ts).b.Metadata = w.b.Metadata := by
      intro w t ts
      rcases extractTool_cases rt w t ts with h | ⟨_, _, h⟩
      · rw [h]
      · rw [h]; rfl
    have e3 : ∀ (w : Walk) (m p : String) (ts : Time),
        (extractModel rt w m p ts).b.Metadata = w.b.Metadata := by
      intro w m p ts
      rcases extractModel_cases rt w m p ts with h | ⟨_, _, h⟩
      · rw [h]
      · rw [h]; rfl
    unfold spanStep
    simp only [e1, e2, e3, (updateWindow_frame _ _).1]
    rfl

/-- The metadata block of the result is the one `New` wrote. -/
theorem collect_metadata (rt : Runtime) (xp : otlpExport) (appName : ByteString)
    (cfg : Config) :
    (collect rt xp appName cfg).Metadata = (New rt.now appName).Metadata := by
  rw [collect_eq, (finish_lists rt _).2.2.2]
  exact walk_induction rt cfg (fun _ w => w.b.Metadata = (New rt.now appName).Metadata)
    (Walk.start rt appName) rfl
    (fun evs w ev h => (eventStep_metadata rt cfg w ev).trans h) xp.events

/-- The stand-in parser reads the input of `TestEmptyTrace`. -/
theorem CollectFromJSON_emptyTrace (rt : Runtime) (appName : ByteString) (cfg : Config) :
    CollectFromJSON unmarshalEmptyTrace rt emptyTraceJSON appName cfg =
      Except.ok (collect rt { ResourceSpans := [] } appName cfg) := by
  unfold CollectFromJSON
  rw [show unmarshalEmptyTrace emptyTraceJSON = Except.ok { ResourceSpans := [] } from
    if_pos rfl]

/-! ### Round trip through JSON -/

/-- Counterexample to C17 as written: the inventory that `CollectFromJSON`
produces from the input of `TestEmptyTrace` for the application name made of
the single byte 0xFF (a Go string that is not valid UTF-8) is written with the
name coerced to U+FFFD, so it reads back with the three bytes EF BF BD as its
name and differs from the inventory that was written. -/
theorem roundtrip_invalid_name :
    ∃ b b2 : AIBOM,
      CollectFromJSON unmarshalEmptyTrace utcRuntime emptyTraceJSON [255] DefaultConfig =
        Except.ok b ∧
      AIBOM.fromJSON b.ToJSON = Except.ok b2 ∧
      b.Metadata.Component = [255] ∧
      b2.Metadata.Component = [239, 191, 189] ∧
      b2 ≠ b :=
  ⟨collect utcRuntime { ResourceSpans := [] } [255] DefaultConfig,
   { collect utcRuntime { ResourceSpans := [] } [255] DefaultConfig with
     Metadata :=
       { (collect utcRuntime { ResourceSpans := [] } [255] DefaultConfig).Metadata with
         Component := [239, 191, 189] } },
   CollectFromJSON_emptyTrace _ _ _, by rfl, by decide, by decide, by decide⟩

/-- C17 (amended). Round trip for application names that are valid UTF-8:
for every inventory `b` that `CollectFromJSON` produces for an application
name that is the UTF-8 encoding of a string, the JSON value that `b.ToJSON()`
writes is parsed back (as `LoadFile` does) without error, and the inventory
read equals `b` field for field. -/
theorem roundtrip_valid_name (unmarshal : List Nat → Except String otlpExport)
    (rt : Runtime) (data : List Nat) (name : String) (cfg : Config) (b : AIBOM)
    (h : CollectFromJSON unmarshal rt data (stringBytes name) cfg = Except.ok b) :
    AIBOM.fromJSON b.ToJSON = Except.ok b := by
  apply aibom_roundtrip
  unfold CollectFromJSON at h
  cases hu : unmarshal data with
  | error e => rw [hu] at h; cases h
  | ok xp =>
    rw [hu] at h
    cases h
    rw [collect_metadata]
    show stringBytes (coerceUTF8 (stringBytes name)) = stringBytes name
    rw [coerceUTF8_stringBytes]

/-- Witness of C17 (amended): the inventory of the input of `TestEmptyTrace`
for the application name "test" reads back as written. -/
theorem roundtrip_valid_name_witness :
    CollectFromJSON unmarshalEmptyTrace utcRuntime emptyTraceJSON (stringBytes "test")
        DefaultConfig =
      Except.ok (collect utcRuntime { ResourceSpans := [] } (stringBytes "test")
        DefaultConfig) ∧
    AIBOM.fromJSON (collect utcRuntime { ResourceSpans := [] } (stringBytes "test")
        DefaultConfig).ToJSON =
      Except.ok (collect utcRuntime { ResourceSpans := [] } (stringBytes "test")
        DefaultConfig) :=
  ⟨CollectFromJSON_emptyTrace _ _ _,
   roundtrip_valid_name unmarshalEmptyTrace utcRuntime emptyTraceJSON "test" DefaultConfig _
     (CollectFromJSON_emptyTrace _ _ _)⟩

/-! ## An empty string value shadows later candidates -/

/-- Agreement on a kind is reflexive. -/
theorem sameKind_refl (K : String) (w : Walk) : SameKind K w w :=
  ⟨fun _ => Iff.rfl, Eq.refl _, fun _ => Eq.refl _⟩

/-- Agreement on a kind is symmetric. -/
theorem sameKind_symm {K : String} {w1 w2 : Walk} (h : SameKind K w1 w2) : SameKind K w2 w1 :=
  ⟨fun n => (h.seen n).symm, h.comps.symm, fun hk => (h.svcs hk).symm⟩

/-- Agreement on a kind is transitive. -/
theorem sameKind_trans {K : String} {w1 w2 w3 : Walk} (h : SameKind K w1 w2)
    (h2 : SameKind K w2 w3) : SameKind K w1 w3 :=
  ⟨fun n => (h.seen n).trans (h2.seen n), h.comps.trans h2.comps,
   fun hk => (h.svcs hk).trans (h2.svcs hk)⟩

/-- The framework block changes nothing of another kind. -/
theorem scopeStep_sameKind (K : String) (hK : K ≠ "framework") (w : Walk) (ss : scopeSpan) :
    SameKind K (scopeStep w ss) w := by
  obtain ⟨h1, h2, _, h4⟩ := scopeStep_eq w ss
  refine ⟨?_, ?_, fun _ => h4⟩
  · intro n
    rw [h1, List.mem_append]
    constructor
    · rintro (h | h)
      · exact h
      · obtain ⟨sc, _, he⟩ := List.mem_map.1 h
        exact absurd (congrArg componentKey.typ he).symm hK
    · exact Or.inl
  · rw [h2, List.filter_append]
    have : ((newFramework w ss).map frameworkComponent).filter (fun c => c.Typ = K) = [] := by
      rw [List.filter_eq_nil_iff]
      intro c hc
      obtain ⟨sc, _, rfl⟩ := List.mem_map.1 hc
      simpa [frameworkComponent] using fun h => hK h.symm
    rw [this, List.append_nil]

/-- The loop body over a span keeps two states in agreement on a kind. -/
theorem spanStep_sameKind (rt : Runtime) (cfg : Config) (K : String)
    (hK : K = "model" ∨ K = "tool" ∨ K = "endpoint") (w1 w2 : Walk) (sp : rawSpan)
    (h : SameKind K w1 w2) :
    SameKind K (spanStep rt cfg w1 sp) (spanStep rt cfg w2 sp) := by
  obtain ⟨a1, a2, _, a4⟩ := spanStep_eq rt cfg w1 sp
  obtain ⟨b1, b2, _, b4⟩ := spanStep_eq rt cfg w2 sp
  obtain ⟨hs, hc, hv⟩ := h
  rcases hK with rfl | rfl | rfl
  · have hnew : modelIsNew cfg w1 sp ↔ modelIsNew cfg w2 sp := by
      unfold modelIsNew; rw [hs]
    refine ⟨?_, ?_, fun hk => absurd hk (by decide)⟩
    · intro n
      rw [a1, b1]
      by_cases m1 : modelIsNew cfg w1 sp <;> by_cases t1 : toolIsNew cfg w1 sp <;>
        by_cases e1 : endpointIsNew cfg w1 sp <;> by_cases t2 : toolIsNew cfg w2 sp <;>
        by_cases e2 : endpointIsNew cfg w2 sp <;>
        simp [m1, hnew.symm, t1, e1, t2, e2, hs]
    · rw [a2, b2]
      by_cases m1 : modelIsNew cfg w1 sp <;> by_cases t1 : toolIsNew cfg w1 sp <;>
        by_cases t2 : toolIsNew cfg w2 sp <;>
        simp [m1, hnew.symm, t1, t2, hc, List.filter_append, modelComponent, toolComponent]
  · have hnew : toolIsNew cfg w1 sp ↔ toolIsNew cfg w2 sp := by
      unfold toolIsNew; rw [hs]
    refine ⟨?_, ?_, fun hk => absurd hk (by decide)⟩
    · intro n
      rw [a1, b1]
      by_cases m1 : modelIsNew cfg w1 sp <;> by_cases t1 : toolIsNew cfg w1 sp <;>
        by_cases e1 : endpointIsNew cfg w1 sp <;> by_cases m2 : modelIsNew cfg w2 sp <;>
        by_cases e2 : endpointIsNew cfg w2 sp <;>
        simp [m1, hnew.symm, t1, e1, m2, e2, hs]
    · rw [a2, b2]
      by_cases m1 : modelIsNew cfg w1 sp <;> by_cases t1 : toolIsNew cfg w1 sp <;>
        by_cases m2 : modelIsNew cfg w2 sp <;>
        simp [m1, hnew.symm, t1, m2, hc, List.filter_append, modelComponent, toolComponent]
  · have hnew : endpointIsNew cfg w1 sp ↔ endpointIsNew cfg w2 sp := by
      unfold endpointIsNew; rw [hs]
    refine ⟨?_, ?_, ?_⟩
    · intro n
      rw [a1, b1]
      by_cases m1 : modelIsNew cfg w1 sp <;> by_cases t1 : toolIsNew cfg w1 sp <;>
        by_cases e1 : endpointIsNew cfg w1 sp <;> by_cases m2 : modelIsNew cfg w2 sp <;>
        by_cases t2 : toolIsNew cfg w2 sp <;>
        simp [m1, hnew.symm, t1, e1, m2, t2, hs]
    · rw [a2, b2]
      by_cases m1 : modelIsNew cfg w1 sp <;> by_cases t1 : toolIsNew cfg w1 sp <;>
        by_cases m2 : modelIsNew cfg w2 sp <;> by_cases t2 : toolIsNew cfg w2 sp <;>
        simp [m1, t1, m2, t2, hc, List.filter_append, modelComponent, toolComponent]
    · intro _
      rw [a4, b4, hv rfl]
      by_cases e1 : endpointIsNew cfg w1 sp <;> simp [e1, hnew.symm]

/-- The loop body over a span whose model resolves to the empty string
changes nothing of the model kind. -/
theorem spanStep_no_model (rt : Runtime) (cfg : Config) (w : Walk) (sp : rawSpan)
    (h : getStr sp.Attributes cfg.ModelAttrs = "") : SameKind "model" (spanStep rt cfg w sp) w := by
  obtain ⟨a1, a2, _, _⟩ := spanStep_eq rt cfg w sp
  have hm : ¬ modelIsNew cfg w sp := fun hn => hn.1 h
  refine ⟨?_, ?_, fun hk => absurd hk (by decide)⟩
  · intro n
    rw [a1]
    by_cases t1 : toolIsNew cfg w sp <;> by_cases e1 : endpointIsNew cfg w sp <;>
      simp [hm, t1, e1]
  · rw [a2]
    by_cases t1 : toolIsNew cfg w sp <;> simp [hm, t1, List.filter_append, toolComponent]

/-- The loop body over a span whose tool resolves to the empty string changes
nothing of the tool kind. -/
theorem spanStep_no_tool (rt : Runtime) (cfg : Config) (w : Walk) (sp : rawSpan)
    (h : getStr sp.Attributes cfg.ToolAttrs = "") : SameKind "tool" (spanStep rt cfg w sp) w := by
  obtain ⟨a1, a2, _, _⟩ := spanStep_eq rt cfg w sp
  have ht : ¬ toolIsNew cfg w sp := fun hn => hn.1 h
  refine ⟨?_, ?_, fun hk => absurd hk (by decide)⟩
  · intro n
    rw [a1]
    by_cases m1 : modelIsNew cfg w sp <;> by_cases e1 : endpointIsNew cfg w sp <;>
      simp [ht, m1, e1]
  · rw [a2]
    by_cases m1 : modelIsNew cfg w sp <;> simp [ht, m1, List.filter_append, modelComponent]

/-- The loop body over a span whose endpoint resolves to the empty string
changes nothing of the endpoint kind. -/
theorem spanStep_no_endpoint (rt : Runtime) (cfg : Config) (w : Walk) (sp : rawSpan)
    (h : getStr sp.Attributes cfg.EndpointAttrs = "") :
    SameKind "endpoint" (spanStep rt cfg w sp) w := by
  obtain ⟨a1, a2, _, a4⟩ := spanStep_eq rt cfg w sp
  have he : ¬ endpointIsNew cfg w sp := fun hn => hn.1 h
  refine ⟨?_, ?_, ?_⟩
  · intro n
    rw [a1]
    by_cases m1 : modelIsNew cfg w sp <;> by_cases t1 : toolIsNew cfg w sp <;>
      simp [he, m1, t1]
  · rw [a2]
    by_cases m1 : modelIsNew cfg w sp <;> by_cases t1 : toolIsNew cfg w sp <;>
      simp [m1, t1, List.filter_append, modelComponent, toolComponent]
  · intro _
    rw [a4]
    simp [he]

/-- For the records of the model, tool and endpoint kinds, only the span
visits of a walk count. -/
theorem walk_spans_only (rt : Runtime) (cfg : Config) (K : String)
    (hK : K = "model" ∨ K = "tool" ∨ K = "endpoint") (w0 : Walk) (evs : List Event) :
    SameKind K (evs.foldl (eventStep rt cfg) w0)
      ((eventSpans evs).foldl (spanStep rt cfg) w0) := by
  have hf : K ≠ "framework" := by rcases hK with rfl | rfl | rfl <;> decide
  induction evs using List.reverseRecOn with
  | nil => exact sameKind_refl K w0
  | append_singleton l ev ih =>
    rw [List.foldl_append, eventSpans_snoc, List.foldl_append]
    cases ev with
    | scope ss =>
      exact sameKind_trans (scopeStep_sameKind K hf _ ss) ih
    | span sp =>
      exact spanStep_sameKind rt cfg K hK _ _ sp ih

/-- A run of spans keeps two states in agreement on a kind. -/
theorem foldl_spans_sameKind (rt : Runtime) (cfg : Config) (K : String)
    (hK : K = "model" ∨ K = "tool" ∨ K = "endpoint") (sps : List rawSpan) (w1 w2 : Walk)
    (h : SameKind K w1 w2) :
    SameKind K (sps.foldl (spanStep rt cfg) w1) (sps.foldl (spanStep rt cfg) w2) := by
  induction sps generalizing w1 w2 with
  | nil => exact h
  | cons sp rest ih =>
    rw [List.foldl_cons, List.foldl_cons]
    exact ih _ _ (spanStep_sameKind rt cfg K hK w1 w2 sp h)

/-- Leaving out a span that changes nothing of a kind leaves the result of the
pass unchanged for that kind. -/
theorem collect_without_span (rt : Runtime) (cfg : Config) (K : String)
    (hK : K = "model" ∨ K = "tool" ∨ K = "endpoint") (appName : ByteString)
    (xp xp2 : otlpExport) (p q : List rawSpan) (sp : rawSpan)
    (hsp : ∀ w, SameKind K (spanStep rt cfg w sp) w)
    (h1 : xp.allSpans = p ++ sp :: q) (h2 : xp2.allSpans = p ++ q) :
    ((collect rt xp appName cfg).Components.filter fun c => c.Typ = K) =
        (collect rt xp2 appName cfg).Components.filter (fun c => c.Typ = K) ∧
    (K = "endpoint" → (collect rt xp appName cfg).Services =
        (collect rt xp2 appName cfg).Services) := by
  have e1 := walk_spans_only rt cfg K hK (Walk.start rt appName) xp.events
  have e2 := walk_spans_only rt cfg K hK (Walk.start rt appName) xp2.events
  rw [eventSpans_events, h1, List.foldl_append, List.foldl_cons] at e1
  rw [eventSpans_events, h2, List.foldl_append] at e2
  have e3 := foldl_spans_sameKind rt cfg K hK q _ _ (hsp (p.foldl (spanStep rt cfg)
    (Walk.start rt appName)))
  have e := sameKind_trans (sameKind_trans e1 e3) (sameKind_symm e2)
  obtain ⟨c1, s1, _⟩ := collect_lists rt xp appName cfg
  obtain ⟨c2, s2, _⟩ := collect_lists rt xp2 appName cfg
  rw [c1, c2, s1, s2]
  exact ⟨e.comps, e.svcs⟩

/-- C21. An empty string value shadows later candidates. When the candidate
list is `pre ++ c :: post`, no candidate of `pre` has an attribute with a
string value, and the first attribute with key `c` and a string value holds
the empty string, `getStr` returns the empty string, whatever `post` and the
other attributes hold (a later candidate with a non-empty value included).
Consequently a span with these attributes records nothing of the kind that is
resolved from this candidate list: if it is the model list, the loop body
over the span leaves the model Components as they are in every state, and the
model Components of the result are those of the export without that span; the
same for the tool list and the tool Components, and for the endpoint list and
the Services. -/
theorem empty_value_shadows (attrs : List kv) (cands pre post : List String) (c : String)
    (a1 a2 : List kv)
    (hc : cands = pre ++ c :: post)
    (hpre : ∀ c2 ∈ pre, ∀ a ∈ attrs, a.Key = c2 → a.Value.StringValue = none)
    (ha : attrs = a1 ++ { Key := c, Value := { StringValue := some "" } } :: a2)
    (ha1 : ∀ a ∈ a1, a.Key = c → a.Value.StringValue = none) :
    getStr attrs cands = "" ∧
    ∀ (rt : Runtime) (cfg : Config) (sp : rawSpan), sp.Attributes = attrs →
      (cfg.ModelAttrs = cands →
        (∀ w : Walk, ((spanStep rt cfg w sp).b.Components.filter fun x => x.Typ = "model") =
            w.b.Components.filter fun x => x.Typ = "model") ∧
        (∀ (appName : ByteString) (xp xp2 : otlpExport) (p q : List rawSpan),
          xp.allSpans = p ++ sp :: q → xp2.allSpans = p ++ q →
          ((collect rt xp appName cfg).Components.filter fun x => x.Typ = "model") =
            (collect rt xp2 appName cfg).Components.filter fun x => x.Typ = "model")) ∧
      (cfg.ToolAttrs = cands →
        (∀ w : Walk, ((spanStep rt cfg w sp).b.Components.filter fun x => x.Typ = "tool") =
            w.b.Components.filter fun x => x.Typ = "tool") ∧
        (∀ (appName : ByteString) (xp xp2 : otlpExport) (p q : List rawSpan),
          xp.allSpans = p ++ sp :: q → xp2.allSpans = p ++ q →
          ((collect rt xp appName cfg).Components.filter fun x => x.Typ = "tool") =
            (collect rt xp2 appName cfg).Components.filter fun x => x.Typ = "tool")) ∧
      (cfg.EndpointAttrs = cands →
        (∀ w : Walk, (spanStep rt cfg w sp).b.Services = w.b.Services) ∧
        (∀ (appName : ByteString) (xp xp2 : otlpExport) (p q : List rawSpan),
          xp.allSpans = p ++ sp :: q → xp2.allSpans = p ++ q →
          (collect rt xp appName cfg).Services = (collect rt xp2 appName cfg).Services)) := by
  have hg : getStr attrs cands = "" := by
    subst hc
    rw [getStr_skip attrs pre _ hpre]
    have hs := getStr.scan_eq_some c "" a1 a2 ha1
    rw [← ha] at hs
    simp only [getStr, hs]
  refine ⟨hg, ?_⟩
  intro rt cfg sp hsp
  subst hsp
  refine ⟨?_, ?_, ?_⟩
  · intro hm
    rw [← hm] at hg
    refine ⟨fun w => (spanStep_no_model rt cfg w sp hg).comps, ?_⟩
    intro appName xp xp2 p q h1 h2
    exact (collect_without_span rt cfg "model" (Or.inl rfl) appName xp xp2 p q sp
      (fun w => spanStep_no_model rt cfg w sp hg) h1 h2).1
  · intro hm
    rw [← hm] at hg
    refine ⟨fun w => (spanStep_no_tool rt cfg w sp hg).comps, ?_⟩
    intro appName xp xp2 p q h1 h2
    exact (collect_without_span rt cfg "tool" (Or.inr (Or.inl rfl)) appName xp xp2 p q sp
      (fun w => spanStep_no_tool rt cfg w sp hg) h1 h2).1
  · intro hm
    rw [← hm] at hg
    refine ⟨fun w => (spanStep_no_endpoint rt cfg w sp hg).svcs rfl, ?_⟩
    intro appName xp xp2 p q h1 h2
    exact (collect_without_span rt cfg "endpoint" (Or.inr (Or.inr rfl)) appName xp xp2 p q sp
      (fun w => spanStep_no_endpoint rt cfg w sp hg) h1 h2).2 rfl

/-- Witness of C21: on the first span of `shadowTrace` the model attribute of
highest priority holds the empty string and shadows "gpt-4", which the later
candidates alone would resolve; the model Components of the trace are those
of the trace without that span, and "gpt-4" is not among them. -/
theorem empty_value_shadows_witness :
    getStr [{ Key := "gen_ai.request.model", Value := { StringValue := some "" } },
            { Key := "llm.model_name", Value := { StringValue := some "gpt-4" } },
            { Key := "tool.name", Value := { StringValue := some "search" } }]
      DefaultConfig.ModelAttrs = "" ∧
    getStr [{ Key := "gen_ai.request.model", Value := { StringValue := some "" } },
            { Key := "llm.model_name", Value := { StringValue := some "gpt-4" } },
            { Key := "tool.name", Value := { StringValue := some "search" } }]
      ["llm.model_name", "ai.model.id"] = "gpt-4" ∧
    ((collect utcRuntime shadowTrace (stringBytes "test") DefaultConfig).Components.filter
        fun x => x.Typ = "model") =
      ((collect utcRuntime shadowTraceRest (stringBytes "test") DefaultConfig).Components.filter
        fun x => x.Typ = "model") ∧
    ((collect utcRuntime shadowTrace (stringBytes "test") DefaultConfig).Components.map
        fun x => (x.Typ, x.Name)) = [("tool", "search"), ("model", "claude-3")] :=
  ⟨(empty_value_shadows
      [{ Key := "gen_ai.request.model", Value := { StringValue := some "" } },
       { Key := "llm.model_name", Value := { StringValue := some "gpt-4" } },
       { Key := "tool.name", Value := { StringValue := some "search" } }]
      DefaultConfig.ModelAttrs [] ["llm.model_name", "ai.model.id"] "gen_ai.request.model" []
      [{ Key := "llm.model_name", Value := { StringValue := some "gpt-4" } },
       { Key := "tool.name", Value := { StringValue := some "search" } }]
      rfl (by simp) rfl (by simp)).1,
   by decide,
   (((empty_value_shadows
      [{ Key := "gen_ai.request.model", Value := { StringValue := some "" } },
       { Key := "llm.model_name", Value := { StringValue := some "gpt-4" } },
       { Key := "tool.name", Value := { StringValue := some "search" } }]
      DefaultConfig.ModelAttrs [] ["llm.model_name", "ai.model.id"] "gen_ai.request.model" []
      [{ Key := "llm.model_name", Value := { StringValue := some "gpt-4" } },
       { Key := "tool.name", Value := { StringValue := some "search" } }]
      rfl (by simp) rfl (by simp)).2 utcRuntime DefaultConfig
      { TraceID := "t1", Name := "shadowed", StartNano := "1700000000000000000",
        Attributes := [
          { Key := "gen_ai.request.model", Value := { StringValue := some "" } },
          { Key := "llm.model_name", Value := { StringValue := some "gpt-4" } },
          { Key := "tool.name", Value := { StringValue := some "search" } }] }
      rfl).1 rfl).2 (stringBytes "test") shadowTrace shadowTraceRest []
      [{ TraceID := "t1", Name := "plain", StartNano := "1700000001000000000",
         Attributes := [
           { Key := "gen_ai.request.model",
             Value := { StringValue := some "claude-3" } }] }]
      rfl rfl,
   by decide!⟩

/-! ## The reading of timestamps against its reference -/

/-- A decimal digit is no space, no sign and no line break. -/
theorem isDigit_not_space (c : Char) (h : c.isDigit = true) :
    isSpace c = false ∧ c ≠ '\r' ∧ c ≠ '\n' ∧ c ≠ '+' ∧ c ≠ '-' := by
  have hv : 48 ≤ c.toNat ∧ c.toNat ≤ 57 := by
    simp only [Char.isDigit, Bool.and_eq_true, decide_eq_true_eq] at h
    have h1 : (48 : UInt32) ≤ c.val := h.1
    have h2 : c.val ≤ (57 : UInt32) := h.2
    exact ⟨by simpa [Char.toNat, UInt32.le_def] using h1, by simpa [Char.toNat, UInt32.le_def] using h2⟩
  refine ⟨?_, ?_, ?_, ?_, ?_⟩
  · simp only [isSpace, Bool.decide_or, Bool.decide_and, Bool.or_eq_false_iff,
      Bool.and_eq_false_iff, decide_eq_false_iff_not]
    omega
  all_goals
    intro e
    rw [e] at hv
    revert hv
    decide

/-- The value the scan computes for a run of digits is the number the run
writes. -/
theorem decimalValue_eq_ofDigits (ds : List Char) :
    decimalValue ds = Nat.ofDigits 10 (ds.reverse.map fun c => c.toNat - '0'.toNat) := by
  induction ds using List.reverseRecOn with
  | nil => rfl
  | append_singleton l d ih =>
    unfold decimalValue at ih ⊢
    rw [List.foldl_append, List.foldl_cons, List.foldl_nil, ih, List.reverse_append,
      List.reverse_singleton, List.singleton_append, List.map_cons, Nat.ofDigits_cons]
    omega

/-- A string of at most `hugeWid` characters is scanned whole. -/
theorem take_hugeWid (l : List Char) (h : l.length ≤ hugeWid) : l.take hugeWid = l :=
  List.take_of_length_le h

/-- Blanks in front of the input are skipped. -/
theorem skipSpace_blanks (bl cs : List Char)
    (hb : ∀ c ∈ bl, isSpace c = true ∧ c ≠ '\n' ∧ c ≠ '\r') :
    skipSpace (bl ++ cs) = skipSpace cs := by
  induction bl with
  | nil => rfl
  | cons c rest ih =>
    obtain ⟨h1, h2, h3⟩ := hb c (List.mem_cons_self _ _)
    rw [List.cons_append, skipSpace]
    simp only [h3, false_and, if_false, h2, h1, if_true]
    exact ih (fun x hx => hb x (List.mem_cons_of_mem _ hx))

/-- The digits in front of something that does not start with a digit. -/
theorem takeWhile_digits (ds rest : List Char) (hd : ∀ c ∈ ds, c.isDigit = true)
    (hr : ∀ c, rest.head? = some c → c.isDigit = false) :
    (ds ++ rest).takeWhile Char.isDigit = ds := by
  induction ds with
  | nil =>
    cases rest with
    | nil => rfl
    | cons c r => simp [List.takeWhile_cons, hr c rfl]
  | cons d ds ih =>
    rw [List.cons_append, List.takeWhile_cons, hd d (List.mem_cons_self _ _)]
    simp only [if_true]
    rw [ih (fun x hx => hd x (List.mem_cons_of_mem _ hx))]

/-- The scan of a run of digits and what follows it: the number the digits
write, if that fits 64 bits; what follows is left unread. -/
theorem scanInt64_digits (ds rest : List Char) (hne : ds ≠ [])
    (hd : ∀ c ∈ ds, c.isDigit = true)
    (hr : ∀ c, rest.head? = some c → c.isDigit = false)
    (hlen : (ds ++ rest).length ≤ hugeWid) :
    scanInt64 (ds ++ rest) =
      if decimalValue ds ≤ 2 ^ 63 - 1 then some (decimalValue ds : Int) else none := by
  obtain ⟨c, tl, rfl⟩ := List.exists_cons_of_ne_nil hne
  have hc := hd c (List.mem_cons_self _ _)
  obtain ⟨h1, hcr, hn, hp, hm⟩ := isDigit_not_space c hc
  have hs : skipSpace (c :: (tl ++ rest)) = some (c :: (tl ++ rest)) := by
    simp [skipSpace, hcr, hn, h1]
  have htw : (c :: (tl ++ rest)).takeWhile Char.isDigit = c :: tl :=
    takeWhile_digits (c :: tl) rest hd hr
  unfold scanInt64
  rw [take_hugeWid _ hlen, List.cons_append, hs]
  simp only [Option.bind, hs]
  simp only [hp, hm, or_self, if_false, htw, decide_False, Bool.false_eq_true]
  simp

/-- The scan of a sign, a run of digits and what follows it. -/
theorem scanInt64_signed (sgn : Char) (hsgn : sgn = '+' ∨ sgn = '-') (ds rest : List Char)
    (hne : ds ≠ []) (hd : ∀ c ∈ ds, c.isDigit = true)
    (hr : ∀ c, rest.head? = some c → c.isDigit = false)
    (hlen : (sgn :: ds ++ rest).length ≤ hugeWid) :
    scanInt64 (sgn :: ds ++ rest) =
      if sgn = '-' then
        (if decimalValue ds ≤ 2 ^ 63 then some (-(decimalValue ds : Int)) else none)
      else (if decimalValue ds ≤ 2 ^ 63 - 1 then some (decimalValue ds : Int) else none) := by
  have hs : skipSpace (sgn :: (ds ++ rest)) = some (sgn :: (ds ++ rest)) := by
    rcases hsgn with rfl | rfl <;> simp [skipSpace, isSpace]
  have htw : (ds ++ rest).takeWhile Char.isDigit = ds := takeWhile_digits ds rest hd hr
  unfold scanInt64
  rw [take_hugeWid _ hlen, List.cons_append, hs]
  simp only [Option.bind, hs]
  simp only [hsgn, if_true, htw, hne, if_false]

/-- What `decimalNat` accepts. -/
theorem decimalNat_eq_some (ds : List Char) (n : Nat) (h : decimalNat ds = some n) :
    ds ≠ [] ∧ (∀ c ∈ ds, c.isDigit = true) ∧ decimalValue ds = n := by
  unfold decimalNat at h
  split_ifs at h with hc
  rw [decimalValue_eq_ofDigits]
  exact ⟨hc.1, fun c hcm => List.all_eq_true.1 hc.2 c hcm, Option.some.inj h⟩

/-- An integer written by `body`, with anything behind it that does not
continue the digits: the scan reads the integer, if it fits 64 bits, and
leaves the rest unread. -/
theorem scanInt64_decimalInteger (body rest : List Char) (n : Int)
    (hr : ∀ c, rest.head? = some c → c.isDigit = false)
    (hlen : (body ++ rest).length ≤ hugeWid)
    (h : decimalInteger body = some n) :
    scanInt64 (body ++ rest) =
      if -(2 : Int) ^ 63 ≤ n ∧ n ≤ 2 ^ 63 - 1 then some n else none := by
  unfold decimalInteger at h
  split at h
  · rename_i ds
    cases hd : decimalNat ds with
    | none => rw [hd] at h; cases h
    | some m =>
      rw [hd] at h
      obtain ⟨h1, h2, h3⟩ := decimalNat_eq_some ds m hd
      rw [scanInt64_signed '-' (Or.inr rfl) ds rest h1 h2 hr hlen, h3]
      have hn : n = -(m : Int) := (Option.some.inj h).symm
      subst hn
      simp only [if_true]
      by_cases hr : m ≤ 2 ^ 63
      · rw [if_pos hr, if_pos (by constructor <;> omega)]
      · rw [if_neg hr, if_neg (by intro hc; omega)]
  · rename_i ds
    cases hd : decimalNat ds with
    | none => rw [hd] at h; cases h
    | some m =>
      rw [hd] at h
      obtain ⟨h1, h2, h3⟩ := decimalNat_eq_some ds m hd
      rw [scanInt64_signed '+' (Or.inl rfl) ds rest h1 h2 hr hlen, h3]
      have hn : n = (m : Int) := (Option.some.inj h).symm
      subst hn
      rw [if_neg (by decide)]
      by_cases hr : m ≤ 2 ^ 63 - 1
      · rw [if_pos hr, if_pos (by constructor <;> omega)]
      · rw [if_neg hr, if_neg (by intro hc; omega)]
  · cases hd : decimalNat body with
    | none => rw [hd] at h; cases h
    | some m =>
      rw [hd] at h
      obtain ⟨h1, h2, h3⟩ := decimalNat_eq_some body m hd
      rw [scanInt64_digits body rest h1 h2 hr hlen, h3]
      have hn : n = (m : Int) := (Option.some.inj h).symm
      subst hn
      by_cases hr : m ≤ 2 ^ 63 - 1
      · rw [if_pos hr, if_pos (by constructor <;> omega)]
      · rw [if_neg hr, if_neg (by intro hc; omega)]

/-- The grammar of the scan: blanks, an integer, and anything that does not
continue its digits. The blanks are skipped, the integer is read if it fits
64 bits, the rest is left unread. -/
theorem scanInt64_grammar (bl body rest : List Char) (n : Int)
    (hb : ∀ c ∈ bl, isSpace c = true ∧ c ≠ '\n' ∧ c ≠ '\r')
    (hr : ∀ c, rest.head? = some c → c.isDigit = false)
    (hlen : (bl ++ (body ++ rest)).length ≤ hugeWid)
    (h : decimalInteger body = some n) :
    scanInt64 (bl ++ (body ++ rest)) =
      if -(2 : Int) ^ 63 ≤ n ∧ n ≤ 2 ^ 63 - 1 then some n else none := by
  have hlen2 : (body ++ rest).length ≤ hugeWid := by
    rw [List.length_append] at hlen; omega
  rw [← scanInt64_decimalInteger body rest n hr hlen2 h]
  unfold scanInt64
  rw [take_hugeWid _ hlen, take_hugeWid _ hlen2, skipSpace_blanks bl _ hb]

/-- A line break in front of the input makes the scan fail. -/
theorem scanInt64_newline (cs : List Char) : scanInt64 ('\n' :: cs) = none := by
  have htake : ('\n' :: cs).take hugeWid = '\n' :: cs.take (hugeWid - 1) := by
    have : hugeWid = (hugeWid - 1) + 1 := by decide
    rw [this, List.take_succ_cons]; rfl
  unfold scanInt64
  rw [htake]
  simp [skipSpace]

/-- On the strings of the data model (empty, or a whole-string integer) the
reader of the code agrees with the reference reading: a usable timestamp is
read as the instant it writes, any other as the zero time. -/
theorem parseNanos_eq_spec (s : String) (hlen : s.length ≤ hugeWid)
    (hwf : s = "" ∨ decimalInteger s.data ≠ none) :
    parseNanos s = (parseNanosSpec s).getD Time.zero := by
  rcases hwf with rfl | hwf
  · decide!
  · cases hd : decimalInteger s.data with
    | none => exact absurd hd hwf
    | some n =>
      have hsc := scanInt64_decimalInteger s.data [] n (fun c hc => by cases hc)
        (by rw [List.append_nil]; exact hlen) hd
      rw [List.append_nil] at hsc
      have hspec : parseNanosSpec s =
          if n ≠ 0 ∧ -(2 : Int) ^ 63 ≤ n ∧ n ≤ 2 ^ 63 - 1 then some (Time.Unix n) else none := by
        unfold parseNanosSpec; rw [hd]
      have hcode : parseNanos s =
          if (scanInt64 s.data).getD 0 = 0 then Time.zero
          else Time.Unix ((scanInt64 s.data).getD 0) := rfl
      rw [hspec, hcode, hsc]
      by_cases hr : -(2 : Int) ^ 63 ≤ n ∧ n ≤ 2 ^ 63 - 1
      · rw [if_pos hr, Option.getD_some]
        by_cases h0 : n = 0
        · rw [if_pos h0, if_neg (fun hc => hc.1 h0)]; rfl
        · rw [if_neg h0, if_pos ⟨h0, hr⟩]; rfl
      · have hs : ¬ (n ≠ 0 ∧ -(2 : Int) ^ 63 ≤ n ∧ n ≤ 2 ^ 63 - 1) := fun hc => hr hc.2
        rw [if_neg hr, if_neg hs, Option.getD_none, if_pos rfl]; rfl

/-- A usable timestamp by the reference reading is never the zero time. -/
theorem parseNanosSpec_ne_zero (s : String) (t : Time) (h : parseNanosSpec s = some t) :
    t.IsZero = false := by
  unfold parseNanosSpec at h
  split at h
  · rename_i n _
    split_ifs at h with hc
    cases h
    simp only [Time.IsZero, Time.Unix, Time.zero, beq_eq_false_iff_ne, ne_eq]
    omega
  · cases h

/-- The character of a digit below ten is that decimal digit. -/
theorem digitChar_decimal (k : Nat) (h : k < 10) :
    (Nat.digitChar k).isDigit = true ∧ (Nat.digitChar k).toNat - '0'.toNat = k := by
  interval_cases k <;> exact ⟨by decide, by decide⟩

/-- The digits that `Nat.toDigitsCore` puts in front of its accumulator write
the number. -/
theorem toDigitsCore_decimal (fuel n : Nat) (acc : List Char) (h : n < fuel) :
    ∃ ds, Nat.toDigitsCore 10 fuel n acc = ds ++ acc ∧ ds ≠ [] ∧
      (∀ c ∈ ds, c.isDigit = true) ∧
      Nat.ofDigits 10 (ds.reverse.map fun c => c.toNat - '0'.toNat) = n := by
  induction fuel generalizing n acc with
  | zero => omega
  | succ fuel ih =>
    obtain ⟨d1, d2⟩ := digitChar_decimal (n % 10) (Nat.mod_lt _ (by decide))
    unfold Nat.toDigitsCore
    by_cases h0 : n / 10 = 0
    · refine ⟨[Nat.digitChar (n % 10)], ?_, by simp, ?_, ?_⟩
      · simp [h0]
      · intro c hc; rw [List.mem_singleton.1 hc]; exact d1
      · simp only [List.reverse_singleton, List.map_cons, List.map_nil, Nat.ofDigits_singleton, d2]
        omega
    · obtain ⟨ds, e1, _, e3, e4⟩ := ih (n / 10) (Nat.digitChar (n % 10) :: acc) (by omega)
      refine ⟨ds ++ [Nat.digitChar (n % 10)], ?_, by simp, ?_, ?_⟩
      · simp only [h0, if_false]
        rw [e1, List.append_assoc, List.singleton_append]
      · intro c hc
        rcases List.mem_append.1 hc with hc | hc
        · exact e3 c hc
        · rw [List.mem_singleton.1 hc]; exact d1
      · rw [List.reverse_append, List.reverse_singleton, List.singleton_append, List.map_cons,
          Nat.ofDigits_cons, e4, d2]
        omega

/-- The decimal numeral of a natural number writes that number. -/
theorem decimalNat_repr (n : Nat) : decimalNat (toString n).data = some n := by
  obtain ⟨ds, e1, e2, e3, e4⟩ := toDigitsCore_decimal (n + 1) n [] (by omega)
  have hd : (toString n).data = ds := by
    show (Nat.toDigits 10 n).asString.data = ds
    rw [List.append_nil] at e1
    exact e1
  rw [hd]
  unfold decimalNat
  rw [if_pos ⟨e2, List.all_eq_true.2 e3⟩, e4]

/-- A positive timestamp of 64 bits, written as its decimal numeral, is read
as that instant, by the reference reading and by the code. -/
theorem parseNanos_numeral (n : Nat) (hpos : 0 < n) (hmax : n < 2 ^ 63) :
    parseNanosSpec (toString n) = some (Time.Unix n) ∧
    parseNanos (toString n) = Time.Unix n := by
  have hnat := decimalNat_repr n
  obtain ⟨hne, hdig, _⟩ := decimalNat_eq_some _ _ hnat
  have hint : decimalInteger (toString n).data = some (n : Int) := by
    obtain ⟨c, rest, hcs⟩ := List.exists_cons_of_ne_nil hne
    have hc : c.isDigit = true := hdig c (by rw [hcs]; exact List.mem_cons_self _ _)
    obtain ⟨_, _, _, hp, hm⟩ := isDigit_not_space c hc
    unfold decimalInteger
    split
    · rename_i ds heq; rw [hcs] at heq; exact absurd (List.cons.inj heq).1 hm
    · rename_i ds heq; rw [hcs] at heq; exact absurd (List.cons.inj heq).1 hp
    · rw [hnat]; rfl
  have hspec : parseNanosSpec (toString n) = some (Time.Unix n) := by
    unfold parseNanosSpec
    rw [hint]
    exact if_pos ⟨by omega, by omega, by omega⟩
  have hlen : (toString n).length ≤ hugeWid := by
    have := Nat.repr_length n 19 (by decide) (by omega)
    have h2 : (19 : Nat) ≤ hugeWid := by decide
    exact le_trans this h2
  refine ⟨hspec, ?_⟩
  rw [parseNanos_eq_spec _ hlen (Or.inr (by rw [hint]; exact Option.some_ne_none _)), hspec]
  rfl

/-- On spans of the data model the valid timestamps of the code are the
usable timestamps of the reference reading. -/
theorem validTimesOf_eq_spec (sps : List rawSpan)
    (h : ∀ sp ∈ sps, sp.StartNano.length ≤ hugeWid ∧
      (sp.StartNano = "" ∨ decimalInteger sp.StartNano.data ≠ none)) :
    validTimesOf sps = sps.filterMap fun sp => parseNanosSpec sp.StartNano := by
  induction sps with
  | nil => rfl
  | cons sp rest ih =>
    have hrest := ih (fun x hx => h x (List.mem_cons_of_mem _ hx))
    obtain ⟨hl, hw⟩ := h sp (List.mem_cons_self _ _)
    have hag := parseNanos_eq_spec sp.StartNano hl hw
    unfold validTimesOf at hrest ⊢
    rw [List.map_cons, List.filter_cons, List.filterMap_cons, hrest, hag]
    cases hs : parseNanosSpec sp.StartNano with
    | none => simp [Time.IsZero]
    | some t => simp [parseNanosSpec_ne_zero _ _ hs]

/-- C5, counterexample: the only span of `partlyNumericTrace` has the
timestamp string "123abc", which writes no integer, so no span has a valid
timestamp; yet the result has a window, at 123 ns after the epoch. In
`malformedTrace` the only valid timestamp is 2023-11-14T22:13:20Z, yet the
window starts in 1970. -/
theorem window_without_valid_timestamp :
    (∀ sp ∈ partlyNumericTrace.allSpans, parseNanosSpec sp.StartNano = none) ∧
    (collect utcRuntime partlyNumericTrace (stringBytes "test") DefaultConfig).Evidence.Window =
      some { Start := "1970-01-01T00:00:00Z", End := "1970-01-01T00:00:00Z" } ∧
    malformedTrace.specTimes = [Time.Unix 1700000000000000000] ∧
    utcRuntime.format (Time.Unix 1700000000000000000) = "2023-11-14T22:13:20Z" ∧
    (collect utcRuntime malformedTrace (stringBytes "test") DefaultConfig).Evidence.Window =
      some { Start := "1970-01-01T00:00:00Z", End := "2023-11-14T22:13:20Z" } := by
  decide!

/-- C5, amended. `Evidence.Window` is present iff at least one span has a
start timestamp from which `Sscanf` with the verb d reads a number other than
0; when present, its start is the formatted least and its end the formatted
greatest of the timestamps read this way, and the window does not depend on
the order in which the spans appear. On the strings of the data model (empty,
or an integer written by the whole string) of at most `hugeWid` characters
the code reads what the reference reading reads, and the decimal numeral of a
positive 64-bit number is read as that number. In general the scan skips
blanks, reads an integer that fits 64 bits and leaves unread whatever follows
its digits, and it fails on a leading line break. For an export all of whose
timestamps are strings of the data model the window is present iff a span has
a usable timestamp by the reference reading, and it runs from the least to
the greatest usable timestamp. -/
theorem collect_window (rt : Runtime) (xp : otlpExport) (appName : ByteString) (cfg : Config) :
    ((collect rt xp appName cfg).Evidence.Window ≠ none ↔
      ∃ sp ∈ xp.allSpans, (parseNanos sp.StartNano).IsZero = false) ∧
    (∀ win, (collect rt xp appName cfg).Evidence.Window = some win →
      ∃ lo hi, lo ∈ xp.validTimes ∧ hi ∈ xp.validTimes ∧
        (∀ t ∈ xp.validTimes, lo.instant ≤ t.instant ∧ t.instant ≤ hi.instant) ∧
        win = { Start := rt.format lo, End := rt.format hi }) ∧
    (∀ (xp2 : otlpExport) (appName2 : ByteString) (cfg2 : Config),
      xp2.allSpans.Perm xp.allSpans →
      (collect rt xp2 appName2 cfg2).Evidence.Window =
        (collect rt xp appName cfg).Evidence.Window) ∧
    (∀ sp : rawSpan, (parseNanos sp.StartNano).IsZero = false ↔
      (scanInt64 sp.StartNano.data).getD 0 ≠ 0) ∧
    (∀ s : String, s.length ≤ hugeWid → (s = "" ∨ decimalInteger s.data ≠ none) →
      parseNanos s = (parseNanosSpec s).getD Time.zero) ∧
    (∀ n : Nat, 0 < n → n < 2 ^ 63 →
      parseNanosSpec (toString n) = some (Time.Unix n) ∧
      parseNanos (toString n) = Time.Unix n) ∧
    (∀ (bl body rest : List Char) (n : Int),
      (∀ c ∈ bl, isSpace c = true ∧ c ≠ '\n' ∧ c ≠ '\r') →
      (∀ c, rest.head? = some c → c.isDigit = false) →
      (bl ++ (body ++ rest)).length ≤ hugeWid →
      decimalInteger body = some n →
      scanInt64 (bl ++ (body ++ rest)) =
        if -(2 : Int) ^ 63 ≤ n ∧ n ≤ 2 ^ 63 - 1 then some n else none) ∧
    (∀ cs : List Char, scanInt64 ('\n' :: cs) = none) ∧
    ((∀ sp ∈ xp.allSpans, sp.StartNano.length ≤ hugeWid ∧
        (sp.StartNano = "" ∨ decimalInteger sp.StartNano.data ≠ none)) →
      ((collect rt xp appName cfg).Evidence.Window ≠ none ↔
        ∃ sp ∈ xp.allSpans, parseNanosSpec sp.StartNano ≠ none) ∧
      (∀ win, (collect rt xp appName cfg).Evidence.Window = some win →
        ∃ lo hi, lo ∈ xp.specTimes ∧ hi ∈ xp.specTimes ∧
          (∀ t ∈ xp.specTimes, lo.instant ≤ t.instant ∧ t.instant ≤ hi.instant) ∧
          win = { Start := rt.format lo, End := rt.format hi })) := by
  obtain ⟨h1, h2, h3, _⟩ := window_by_reader rt xp appName cfg
  refine ⟨h1, h2, h3, fun sp => by rw [Ne, ← parseNanos_isZero, Bool.not_eq_true],
    parseNanos_eq_spec, parseNanos_numeral, scanInt64_grammar, scanInt64_newline, ?_⟩
  intro hconf
  have hv : xp.validTimes = xp.specTimes := validTimesOf_eq_spec xp.allSpans hconf
  refine ⟨?_, ?_⟩
  · rw [h1]
    constructor
    · rintro ⟨sp, hsp, hz⟩
      refine ⟨sp, hsp, ?_⟩
      intro hn
      obtain ⟨hl, hw⟩ := hconf sp hsp
      rw [parseNanos_eq_spec _ hl hw, hn] at hz
      exact absurd hz (by decide)
    · rintro ⟨sp, hsp, hs⟩
      refine ⟨sp, hsp, ?_⟩
      obtain ⟨hl, hw⟩ := hconf sp hsp
      rw [parseNanos_eq_spec _ hl hw]
      cases hp : parseNanosSpec sp.StartNano with
      | none => exact absurd hp hs
      | some t => exact parseNanosSpec_ne_zero _ _ hp
  · rw [← hv]; exact h2

/-- Witness of C5, amended: for spans visited in the order T2, T3, T1 the
window runs from T1 to T3, and the three timestamps are usable by the
reference reading. -/
theorem collect_window_witness :
    (∃ lo hi, lo ∈ windowTrace.validTimes ∧ hi ∈ windowTrace.validTimes ∧
      (∀ t ∈ windowTrace.validTimes, lo.instant ≤ t.instant ∧ t.instant ≤ hi.instant) ∧
      ({ Start := "2023-11-14T22:13:20Z", End := "2023-11-14T23:13:20Z" } : TimeWindow) =
        { Start := utcRuntime.format lo, End := utcRuntime.format hi }) ∧
    ((collect utcRuntime windowTrace (stringBytes "test") DefaultConfig).Evidence.Window ≠ none ↔
      ∃ sp ∈ windowTrace.allSpans, parseNanosSpec sp.StartNano ≠ none) ∧
    windowTrace.specTimes = [Time.Unix 1700000060000000000, Time.Unix 1700003600000000000,
      Time.Unix 1700000000000000000] :=
  ⟨(collect_window utcRuntime windowTrace (stringBytes "test") DefaultConfig).2.1
      { Start := "2023-11-14T22:13:20Z", End := "2023-11-14T23:13:20Z" } (by decide!),
   ((collect_window utcRuntime windowTrace (stringBytes "test") DefaultConfig).2.2.2.2.2.2.2.2
      (by decide!)).1,
   by decide!⟩

/-! ## The reference token as the written digest -/

/-- The sixteen hexadecimal digits are distinct. -/
theorem hexDigit_injective (a b : Nat) (ha : a < 16) (hb : b < 16)
    (h : hexDigit a = hexDigit b) : a = b := by
  have key : ∀ x : Fin 16, ∀ y : Fin 16, hexDigit x.val = hexDigit y.val → x = y := by decide
  exact congrArg Fin.val (key ⟨a, ha⟩ ⟨b, hb⟩ h)

/-- A hexadecimal digit is one of the sixteen lowercase digits. -/
theorem hexDigit_mem (a : Nat) (ha : a < 16) : hexDigit a ∈ "0123456789abcdef".data := by
  have key : ∀ x : Fin 16, hexDigit x.val ∈ "0123456789abcdef".data := by decide
  exact key ⟨a, ha⟩

/-- The digits written for a byte string, two per byte. -/
theorem hexBytes_cons (b : Nat) (bs : List Nat) :
    (hexBytes (b :: bs)).data = hexDigit (b / 16 % 16) :: hexDigit (b % 16) :: (hexBytes bs).data :=
  rfl

/-- Writing bytes in hexadecimal loses nothing. -/
theorem hexBytes_injective (l1 l2 : List Nat) (h1 : ∀ b ∈ l1, b < 256) (h2 : ∀ b ∈ l2, b < 256)
    (h : hexBytes l1 = hexBytes l2) : l1 = l2 := by
  induction l1 generalizing l2 with
  | nil =>
    cases l2 with
    | nil => rfl
    | cons b bs =>
      have := congrArg String.data h
      rw [hexBytes_cons] at this
      exact absurd this (by simp [hexBytes])
  | cons a as ih =>
    cases l2 with
    | nil =>
      have := congrArg String.data h
      rw [hexBytes_cons] at this
      exact absurd this (by simp [hexBytes])
    | cons b bs =>
      have hd := congrArg String.data h
      rw [hexBytes_cons, hexBytes_cons] at hd
      simp only [List.cons.injEq] at hd
      obtain ⟨e1, e2, e3⟩ := hd
      have ha := h1 a (List.mem_cons_self _ _)
      have hb := h2 b (List.mem_cons_self _ _)
      have q1 := hexDigit_injective _ _ (Nat.mod_lt _ (by decide)) (Nat.mod_lt _ (by decide)) e1
      have q2 := hexDigit_injective _ _ (Nat.mod_lt _ (by decide)) (Nat.mod_lt _ (by decide)) e2
      have hab : a = b := by omega
      have hrest := ih bs (fun x hx => h1 x (List.mem_cons_of_mem _ hx))
        (fun x hx => h2 x (List.mem_cons_of_mem _ hx)) (String.ext e3)
      rw [hab, hrest]

/-- Every character written for a byte string is a lowercase hexadecimal digit. -/
theorem hexBytes_alphabet (bs : List Nat) :
    ∀ c ∈ (hexBytes bs).data, c ∈ "0123456789abcdef".data := by
  induction bs with
  | nil => intro c hc; cases hc
  | cons b rest ih =>
    intro c hc
    rw [hexBytes_cons] at hc
    rcases List.mem_cons.1 hc with rfl | hc
    · exact hexDigit_mem _ (Nat.mod_lt _ (by decide))
    · rcases List.mem_cons.1 hc with rfl | hc
      · exact hexDigit_mem _ (Nat.mod_lt _ (by decide))
      · exact ih c hc

/-- The bytes of a digest are bytes. -/
theorem Sha256.Sum256_lt (msg : List Nat) : ∀ b ∈ Sha256.Sum256 msg, b < 256 := by
  unfold Sha256.Sum256
  simp only
  generalize Sha256.blocks _ Sha256.H0 _ = ws
  induction ws with
  | nil => intro b hb; cases hb
  | cons w rest ih =>
    intro b hb
    rw [List.foldr_cons] at hb
    rcases List.mem_append.1 hb with hb | hb
    · simp only [Sha256.be32, List.mem_cons, List.mem_singleton, List.not_mem_nil, or_false] at hb
      rcases hb with rfl | rfl | rfl | rfl <;> exact Nat.mod_lt _ (by decide)
    · exact ih b hb

/-- The conversion to bytes loses nothing. -/
theorem stringBytes_injective (s t : String) (h : stringBytes s = stringBytes t) : s = t := by
  rw [← coerceUTF8_stringBytes s, ← coerceUTF8_stringBytes t, h]

/-- Two tokens are equal exactly when the first 8 bytes of the two digests are. -/
theorem bomRef_eq_iff (n1 v1 n2 v2 : String) :
    bomRef n1 v1 = bomRef n2 v2 ↔
      (Sha256.Sum256 (stringBytes (n1 ++ ":" ++ v1))).take 8 =
        (Sha256.Sum256 (stringBytes (n2 ++ ":" ++ v2))).take 8 := by
  constructor
  · intro h
    exact hexBytes_injective _ _
      (fun b hb => Sha256.Sum256_lt _ b (List.mem_of_mem_take hb))
      (fun b hb => Sha256.Sum256_lt _ b (List.mem_of_mem_take hb)) h
  · intro h
    unfold bomRef
    rw [h]

/-- There are more names than tokens: two distinct names without ":" share
their token. -/
theorem bomRef_pigeonhole :
    ∃ n1 n2 : String, ':' ∉ n1.data ∧ ':' ∉ n2.data ∧ n1 ≠ n2 ∧ bomRef n1 "" = bomRef n2 "" := by
  let name : Nat → String := fun k => String.mk (List.replicate k 'a')
  let f : Nat → (Fin 8 → Fin 256) := fun k i =>
    ⟨((Sha256.Sum256 (stringBytes (name k ++ ":" ++ ""))).take 8).getD i.val 0 % 256,
      Nat.mod_lt _ (by decide)⟩
  obtain ⟨k1, k2, hne, hf⟩ := Finite.exists_ne_map_eq_of_infinite f
  have hcolon : ∀ k, ':' ∉ (name k).data := by
    intro k hm
    have := List.eq_of_mem_replicate hm
    exact absurd this (by decide)
  refine ⟨name k1, name k2, hcolon k1, hcolon k2, ?_, ?_⟩
  · intro h
    apply hne
    have := congrArg String.length h
    simpa [name, String.length] using this
  · rw [bomRef_eq_iff]
    have hlen : ∀ k, ((Sha256.Sum256 (stringBytes (name k ++ ":" ++ ""))).take 8).length = 8 := by
      intro k
      rw [List.length_take, Sha256.Sum256_length]; rfl
    apply List.ext_getElem (by rw [hlen, hlen])
    intro i h1 h2
    have hi : i < 8 := by rw [hlen] at h1; exact h1
    have hfi := congrArg (fun g => (g ⟨i, hi⟩).val) hf
    simp only [f] at hfi
    have b1 := Sha256.Sum256_lt _ _ (List.mem_of_mem_take (List.getElem_mem h1))
    have b2 := Sha256.Sum256_lt _ _ (List.mem_of_mem_take (List.getElem_mem h2))
    rw [List.getD_eq_getElem _ _ h1, List.getD_eq_getElem _ _ h2,
      Nat.mod_eq_of_lt b1, Nat.mod_eq_of_lt b2] at hfi
    exact hfi

/-- C7, counterexample: the pairs ("a:b", "c") and ("a", "b:c") are distinct
and join to the same string "a:b:c", so they get the same reference token,
"b0ee04f880c4ff42". Names without ":" do not escape either: a token has 64
bits and there are infinitely many names, so two distinct names without ":"
(among the names "", "a", "aa", ...) get the same token with the empty
version. -/
theorem bomRef_collision :
    ((("a:b", "c") : String × String) ≠ ("a", "b:c") ∧
      bomRef "a:b" "c" = bomRef "a" "b:c" ∧ bomRef "a:b" "c" = "b0ee04f880c4ff42") ∧
    (∃ n1 n2 : String, ':' ∉ n1.data ∧ ':' ∉ n2.data ∧ ((n1, "") : String × String) ≠ (n2, "") ∧
      bomRef n1 "" = bomRef n2 "") := by
  refine ⟨⟨by decide, rfl, by decide!⟩, ?_⟩
  obtain ⟨n1, n2, h1, h2, hne, h⟩ := bomRef_pigeonhole
  exact ⟨n1, n2, h1, h2, fun he => hne (congrArg Prod.fst he), h⟩

/-- C7, amended. The reference token is the first 8 bytes of the SHA-256
digest of `name ++ ":" ++ version`, written as 16 lowercase hexadecimal
digits, and nothing else decides it: two pairs get the same token exactly
when those 8 bytes agree. Pairs with the same joined string so share their
token; when neither name contains ":", distinct pairs have distinct joined
strings and distinct hash inputs, and their tokens differ unless the
truncated digests agree. The digest is SHA-256: it gives the digests of the
standard for the empty message, for "abc" and for the two-block message, and
the token of ("gpt-4", "") is "e8de91ee3796e58a". -/
theorem bomRef_joined (n1 v1 n2 v2 : String) :
    (bomRef n1 v1 = bomRef n2 v2 ↔
      (Sha256.Sum256 (stringBytes (n1 ++ ":" ++ v1))).take 8 =
        (Sha256.Sum256 (stringBytes (n2 ++ ":" ++ v2))).take 8) ∧
    (n1 ++ ":" ++ v1 = n2 ++ ":" ++ v2 → bomRef n1 v1 = bomRef n2 v2) ∧
    (':' ∉ n1.data → ':' ∉ n2.data → (n1, v1) ≠ (n2, v2) →
      n1 ++ ":" ++ v1 ≠ n2 ++ ":" ++ v2 ∧
      stringBytes (n1 ++ ":" ++ v1) ≠ stringBytes (n2 ++ ":" ++ v2)) ∧
    (bomRef n1 v1).length = 16 ∧
    (∀ c ∈ (bomRef n1 v1).data, c ∈ "0123456789abcdef".data) ∧
    (bomRef n1 v1).data =
      ((Sha256.Sum256 (stringBytes (n1 ++ ":" ++ v1))).take 8).flatMap
        (fun b => [hexDigit (b / 16), hexDigit (b % 16)]) ∧
    hexBytes (Sha256.Sum256 (stringBytes "")) =
      "e3b0c44298fc1c149afbf4c8996fb92427ae41e4649b934ca495991b7852b855" ∧
    hexBytes (Sha256.Sum256 (stringBytes "abc")) =
      "ba7816bf8f01cfea414140de5dae2223b00361a396177a9cb410ff61f20015ad" ∧
    hexBytes (Sha256.Sum256
        (stringBytes "abcdbcdecdefdefgefghfghighijhijkijkljklmklmnlmnomnopnopq")) =
      "248d6a61d20638b8e5c026930c3e6039a33ce45964ff2167f6ecedd419db06c1" ∧
    bomRef "gpt-4" "" = "e8de91ee3796e58a" := by
  have hjoin : ':' ∉ n1.data → ':' ∉ n2.data → (n1, v1) ≠ (n2, v2) →
      n1 ++ ":" ++ v1 ≠ n2 ++ ":" ++ v2 := by
    intro h1 h2 hne he
    apply hne
    have hd := congrArg String.data he
    simp only [String.data_append] at hd
    have hd2 : n1.data ++ ':' :: v1.data = n2.data ++ ':' :: v2.data := by
      simpa using hd
    obtain ⟨e1, e2⟩ := join_injective _ _ _ _ h1 h2 hd2
    have en : n1 = n2 := String.ext e1
    have ev : v1 = v2 := String.ext e2
    rw [en, ev]
  refine ⟨bomRef_eq_iff n1 v1 n2 v2, ?_, ?_, ?_, hexBytes_alphabet _, ?_,
    by decide!, by decide!, by decide!, bomRef_gpt4⟩
  · intro h
    unfold bomRef
    rw [h]
  · intro h1 h2 hne
    exact ⟨hjoin h1 h2 hne, fun hb => hjoin h1 h2 hne (stringBytes_injective _ _ hb)⟩
  · unfold bomRef
    rw [hexBytes_length, List.length_take, Sha256.Sum256_length]
    rfl
  · unfold bomRef
    have hlt : ∀ b ∈ (Sha256.Sum256 (stringBytes (n1 ++ ":" ++ v1))).take 8, b < 256 :=
      fun b hb => Sha256.Sum256_lt _ b (List.mem_of_mem_take hb)
    generalize (Sha256.Sum256 (stringBytes (n1 ++ ":" ++ v1))).take 8 = bs at hlt
    induction bs with
    | nil => rfl
    | cons b rest ih =>
      have hb := hlt b (List.mem_cons_self _ _)
      have hdiv : b / 16 % 16 = b / 16 := Nat.mod_eq_of_lt (by omega)
      rw [hexBytes_cons, List.flatMap_cons, ih (fun x hx => hlt x (List.mem_cons_of_mem _ hx)),
        hdiv]
      rfl

/-- Witness of C7, amended: a pair of pairs with the same joined string, a
pair of pairs without ":" in the names, and two tokens that differ because
the truncated digests do. -/
theorem bomRef_joined_witness :
    bomRef "a:b" "c" = bomRef "a" "b:c" ∧
    ("gpt-4" ++ ":" ++ "" ≠ "gpt" ++ ":" ++ "4" ∧
      stringBytes ("gpt-4" ++ ":" ++ "") ≠ stringBytes ("gpt" ++ ":" ++ "4")) ∧
    bomRef "gpt-4" "" ≠ bomRef "x" "1" :=
  ⟨(bomRef_joined "a:b" "c" "a" "b:c").2.1 (by decide),
   (bomRef_joined "gpt-4" "" "gpt" "4").2.2.1 (by decide) (by decide) (by decide),
   fun h => absurd ((bomRef_joined "gpt-4" "" "x" "1").1.1 h) (by decide!)⟩

/-! ## The pass never panics -/

/-- The checked inner loop of `getStr` finds what the loop finds. -/
theorem getStrChecked.scan_eq (c : String) (attrs : List kv) :
    getStrChecked.scan c attrs = Except.ok (getStr.scan c attrs) := by
  induction attrs with
  | nil => rfl
  | cons a rest ih =>
    unfold getStrChecked.scan getStr.scan
    by_cases h : a.Key = c ∧ a.Value.StringValue ≠ none
    · rw [if_pos h, if_pos h]
      cases hv : a.Value.StringValue with
      | none => exact absurd hv h.2
      | some v => rfl
    · rw [if_neg h, if_neg h]; exact ih

/-- The dereference in `getStr` is never reached with a nil pointer. -/
theorem getStrChecked_eq (attrs : List kv) (cands : List String) :
    getStrChecked attrs cands = Except.ok (getStr attrs cands) := by
  induction cands with
  | nil => rfl
  | cons c rest ih =>
    unfold getStrChecked getStr
    rw [getStrChecked.scan_eq]
    cases getStr.scan c attrs with
    | none => exact ih
    | some v => rfl

/-- The dereference of `ss.Scope` is never reached with a nil pointer. -/
theorem scopeStepChecked_eq (w : Walk) (ss : scopeSpan) :
    scopeStepChecked w ss = Except.ok (scopeStep w ss) := by
  unfold scopeStepChecked scopeStep
  cases ss.Scope with
  | none => rfl
  | some sc =>
    simp only [ne_eq, reduceCtorEq, not_false_eq_true, if_true, deref]
    by_cases hn : sc.Name = ""
    · simp [hn]
    · by_cases hk : (⟨"framework", sc.Name⟩ : componentKey) ∈ w.seen
      · simp [hn, hk]
      · simp [hn, hk]

/-- A loop whose body never fails is the plain loop. -/
theorem loopChecked_eq {α β : Type} (body : β → α → Except Fault β) (g : β → α → β)
    (h : ∀ w x, body w x = Except.ok (g w x)) (w : β) (l : List α) :
    loopChecked body w l = Except.ok (l.foldl g w) := by
  induction l generalizing w with
  | nil => rfl
  | cons x rest ih =>
    unfold loopChecked
    rw [h w x]
    exact ih (g w x)

/-- A byte offset found by `strings.Index` leaves room for the pattern. -/
theorem bytesIndex_bound (s pat : ByteString) (h : 0 ≤ bytesIndex s pat) :
    (bytesIndex s pat).toNat + pat.length ≤ s.length := by
  induction s with
  | nil =>
    unfold bytesIndex at h ⊢
    by_cases hp : pat.isPrefixOf [] = true
    · have : pat = [] := by
        cases pat with
        | nil => rfl
        | cons a t => simp [List.isPrefixOf] at hp
      subst this; simp
    · simp [hp] at h
  | cons c rest ih =>
    unfold bytesIndex at h ⊢
    by_cases hp : pat.isPrefixOf (c :: rest) = true
    · simp only [hp, if_true, Int.toNat_zero, Nat.zero_add]
      exact (List.isPrefixOf_iff_prefix.1 hp).length_le
    · simp only [hp, Bool.false_eq_true, if_false] at h ⊢
      by_cases hi : bytesIndex rest pat < 0
      · simp [hi] at h
      · simp only [hi, if_false] at h ⊢
        have := ih (by omega)
        simp only [List.length_cons]
        omega

/-- The two slice expressions of the endpoint block stay in bounds for every
Go string, valid UTF-8 or not: the block returns a host. -/
theorem endpointHostBytes_ok (endpoint : ByteString) :
    ∃ host, endpointHostBytes endpoint = Except.ok host := by
  unfold endpointHostBytes
  have hp3 : (stringBytes "://").length = 3 := by decide
  have hp1 : (stringBytes "/").length = 1 := by decide
  have first : ∃ host, (if bytesIndex endpoint (stringBytes "://") ≥ 0 then
      sliceFrom endpoint (bytesIndex endpoint (stringBytes "://") + 3)
      else Except.ok endpoint) = Except.ok host := by
    by_cases h : bytesIndex endpoint (stringBytes "://") ≥ 0
    · have hb := bytesIndex_bound endpoint (stringBytes "://") h
      rw [hp3] at hb
      rw [if_pos h]
      unfold sliceFrom
      rw [if_pos ⟨by omega, by omega⟩]
      exact ⟨_, rfl⟩
    · rw [if_neg h]; exact ⟨_, rfl⟩
  obtain ⟨host, hh⟩ := first
  simp only [hh]
  by_cases h : bytesIndex host (stringBytes "/") ≥ 0
  · have hb := bytesIndex_bound host (stringBytes "/") h
    rw [hp1] at hb
    rw [if_pos h]
    unfold sliceTo
    rw [if_pos ⟨by omega, by omega⟩]
    exact ⟨_, rfl⟩
  · rw [if_neg h]; exact ⟨_, rfl⟩

/-! ### Byte offsets against character offsets -/

/-- The bytes of a text, part by part. -/
theorem stringBytes_append (a b : List Char) :
    stringBytes (String.mk (a ++ b)) = stringBytes (String.mk a) ++ stringBytes (String.mk b) := by
  induction a with
  | nil => rfl
  | cons c rest ih =>
    rw [List.cons_append, stringBytes_cons, stringBytes_cons, ih, List.append_assoc]

/-- An ASCII character is one byte. -/
theorem utf8EncodeChar_ascii (c : Char) (h : c.toNat < 128) : utf8EncodeChar c = [c.toNat] := by
  unfold utf8EncodeChar
  simp only []
  rw [if_pos h]

/-- The bytes of any other character are all above the ASCII range. -/
theorem utf8EncodeChar_high (c : Char) (h : 128 ≤ c.toNat) :
    ∀ b ∈ utf8EncodeChar c, 128 ≤ b := by
  unfold utf8EncodeChar
  simp only []
  intro b hb
  split_ifs at hb <;> simp only [List.mem_cons, List.mem_singleton, List.not_mem_nil, or_false] at hb <;>
    omega

/-- An ASCII pattern starts a text exactly when its bytes start the bytes of
the text. -/
theorem isPrefixOf_stringBytes (p cs : List Char) (hp : ∀ c ∈ p, c.toNat < 128) :
    (stringBytes (String.mk p)).isPrefixOf (stringBytes (String.mk cs)) = p.isPrefixOf cs := by
  induction p generalizing cs with
  | nil => simp [stringBytes]
  | cons q p2 ih =>
    have hq := hp q (List.mem_cons_self _ _)
    have hp2 : ∀ c ∈ p2, c.toNat < 128 := fun c hc => hp c (List.mem_cons_of_mem _ hc)
    rw [stringBytes_cons, utf8EncodeChar_ascii q hq, List.singleton_append]
    cases cs with
    | nil => rfl
    | cons c rest =>
      have hcc : ∀ (a b : Nat) (l1 l2 : List Nat),
          (a :: l1).isPrefixOf (b :: l2) = (a == b && l1.isPrefixOf l2) := fun _ _ _ _ => rfl
      have hch : (q :: p2).isPrefixOf (c :: rest) = (q == c && p2.isPrefixOf rest) := rfl
      rw [stringBytes_cons, hch]
      by_cases hc : c.toNat < 128
      · rw [utf8EncodeChar_ascii c hc, List.singleton_append, hcc, ih rest hp2]
        by_cases e : q = c
        · rw [e]; simp
        · have : q.toNat ≠ c.toNat := by
            intro h
            have h2 := congrArg Char.ofNat h
            rw [Char.ofNat_toNat, Char.ofNat_toNat] at h2
            exact e h2
          rw [beq_eq_false_iff_ne.2 this, beq_eq_false_iff_ne.2 e]
      · have hhi := utf8EncodeChar_high c (by omega)
        have hpos := utf8EncodeChar_length_pos c
        cases hu : utf8EncodeChar c with
        | nil => rw [hu] at hpos; exact absurd hpos (by simp)
        | cons b0 tl =>
          have hb0 : 128 ≤ b0 := hhi b0 (by rw [hu]; exact List.mem_cons_self _ _)
          have e : q ≠ c := fun h => hc (h ▸ hq)
          have : q.toNat ≠ b0 := by omega
          rw [List.cons_append, hcc, beq_eq_false_iff_ne.2 this, beq_eq_false_iff_ne.2 e]
          rfl

/-- A byte above the ASCII range cannot start an ASCII pattern: the search
moves on by one byte. -/
theorem bytesIndex_skip (b q : Nat) (bs t : ByteString) (hq : q < 128) (hb : 128 ≤ b) :
    bytesIndex (b :: bs) (q :: t) =
      if bytesIndex bs (q :: t) < 0 then -1 else bytesIndex bs (q :: t) + 1 := by
  have hne : q ≠ b := by omega
  have hp : (q :: t).isPrefixOf (b :: bs) = false := by
    show (q == b && t.isPrefixOf bs) = false
    rw [beq_eq_false_iff_ne.2 hne]; rfl
  rw [bytesIndex]
  simp only [hp, Bool.false_eq_true, if_false]

/-- The byte search gives an offset or `-1`. -/
theorem bytesIndex_ge (s pat : ByteString) : -1 ≤ bytesIndex s pat := by
  induction s with
  | nil =>
    unfold bytesIndex
    by_cases hp : pat.isPrefixOf [] = true
    · rw [if_pos hp]; decide
    · rw [if_neg hp]
  | cons b rest ih =>
    unfold bytesIndex
    by_cases hp : pat.isPrefixOf (b :: rest) = true
    · rw [if_pos hp]; decide
    · rw [if_neg hp]
      simp only []
      split_ifs <;> omega

/-- A run of bytes above the ASCII range is searched through. -/
theorem bytesIndex_skip_run (hs : ByteString) (q : Nat) (bs t : ByteString) (hq : q < 128)
    (hh : ∀ b ∈ hs, 128 ≤ b) :
    bytesIndex (hs ++ bs) (q :: t) =
      if bytesIndex bs (q :: t) < 0 then -1 else bytesIndex bs (q :: t) + hs.length := by
  induction hs with
  | nil =>
    have := bytesIndex_ge bs (q :: t)
    rw [List.nil_append, List.length_nil]
    by_cases hn : bytesIndex bs (q :: t) < 0
    · rw [if_pos hn]; omega
    · rw [if_neg hn]; simp
  | cons b rest ih =>
    rw [List.cons_append, bytesIndex_skip b q _ t hq (hh b (List.mem_cons_self _ _)),
      ih (fun x hx => hh x (List.mem_cons_of_mem _ hx))]
    by_cases hn : bytesIndex bs (q :: t) < 0
    · simp [hn]
    · have h2 : ¬ (bytesIndex bs (q :: t) + (rest.length : Int) < 0) := by omega
      simp only [hn, if_false, h2, List.length_cons]
      push_cast
      omega

/-- Where the pattern does not start, the byte search moves on by one
character. -/
theorem bytesIndex_next (c : Char) (rest p : List Char) (hne : p ≠ [])
    (hp : ∀ x ∈ p, x.toNat < 128) (hpre : p.isPrefixOf (c :: rest) = false) :
    bytesIndex (stringBytes (String.mk (c :: rest))) (stringBytes (String.mk p)) =
      if bytesIndex (stringBytes (String.mk rest)) (stringBytes (String.mk p)) < 0 then -1
      else bytesIndex (stringBytes (String.mk rest)) (stringBytes (String.mk p)) +
        (utf8EncodeChar c).length := by
  obtain ⟨q, p2, rfl⟩ := List.exists_cons_of_ne_nil hne
  have hq := hp q (List.mem_cons_self _ _)
  have hbp := isPrefixOf_stringBytes (q :: p2) (c :: rest) hp
  rw [hpre] at hbp
  have hpat : stringBytes (String.mk (q :: p2)) = q.toNat :: stringBytes (String.mk p2) := by
    rw [stringBytes_cons, utf8EncodeChar_ascii q hq]; rfl
  rw [hpat] at hbp ⊢
  by_cases hc : c.toNat < 128
  · rw [stringBytes_cons, utf8EncodeChar_ascii c hc, List.singleton_append] at hbp ⊢
    rw [bytesIndex]
    simp only [hbp, Bool.false_eq_true, if_false, List.length_singleton, Nat.cast_one]
  · rw [stringBytes_cons]
    rw [bytesIndex_skip_run _ _ _ _ hq (utf8EncodeChar_high c (by omega))]

/-- The offset `strings.Index` finds on the bytes is the byte length of what
the character search skips, and the slices at that offset cut at the same
place. -/
theorem bytesIndex_stringBytes (cs p : List Char) (hne : p ≠ [])
    (hp : ∀ x ∈ p, x.toNat < 128) :
    (stringsIndex cs p = -1 ∧
      bytesIndex (stringBytes (String.mk cs)) (stringBytes (String.mk p)) = -1) ∨
    (∃ k : Nat, stringsIndex cs p = (k : Int) ∧
      bytesIndex (stringBytes (String.mk cs)) (stringBytes (String.mk p)) =
        ((stringBytes (String.mk (cs.take k))).length : Int) ∧
      (stringBytes (String.mk cs)).drop
          ((stringBytes (String.mk (cs.take k))).length + (stringBytes (String.mk p)).length) =
        stringBytes (String.mk (cs.drop (k + p.length)))) := by
  induction cs with
  | nil =>
    left
    have h1 : p.isPrefixOf [] = false := by
      cases p with
      | nil => exact absurd rfl hne
      | cons a t => rfl
    have h2 := isPrefixOf_stringBytes p [] hp
    rw [h1] at h2
    constructor
    · rw [stringsIndex]; simp [h1]
    · unfold bytesIndex; simp only [h2, Bool.false_eq_true, if_false]; rfl
  | cons c rest ih =>
    by_cases hpre : p.isPrefixOf (c :: rest) = true
    · right
      have h2 := isPrefixOf_stringBytes p (c :: rest) hp
      rw [hpre] at h2
      refine ⟨0, ?_, ?_, ?_⟩
      · rw [stringsIndex]; simp [hpre]
      · unfold bytesIndex; simp only [h2, if_true]; rfl
      · obtain ⟨r, hr⟩ := List.isPrefixOf_iff_prefix.1 hpre
        rw [List.take_zero, ← hr, stringBytes_append]
        simp [stringBytes]
    · have hpre2 : p.isPrefixOf (c :: rest) = false := Bool.eq_false_iff.2 hpre
      have hnext := bytesIndex_next c rest p hne hp hpre2
      rcases ih with ⟨i1, i2⟩ | ⟨k, i1, i2, i3⟩
      · left
        constructor
        · rw [stringsIndex]; simp [hpre2, i1]
        · rw [hnext, i2]; simp
      · right
        refine ⟨k + 1, ?_, ?_, ?_⟩
        · rw [stringsIndex]
          have : ¬ ((k : Int) < 0) := by omega
          simp [hpre2, i1, this]
        · rw [hnext, i2, List.take_succ_cons, stringBytes_cons, List.length_append]
          have : ¬ (((stringBytes (String.mk (rest.take k))).length : Int) < 0) := by omega
          rw [if_neg this]
          push_cast
          omega
        · rw [List.take_succ_cons, stringBytes_cons, stringBytes_cons, List.length_append,
            show k + 1 + p.length = (k + p.length) + 1 by omega, List.drop_succ_cons,
            Nat.add_assoc, List.drop_append, i3]

/-- On the bytes of a text the checked endpoint block cuts where the
character search of `endpointHost` cuts: no slice is out of bounds and the
host is the same text. -/
theorem endpointHostBytes_eq (endpoint : String) :
    endpointHostBytes (stringBytes endpoint) = Except.ok (stringBytes (endpointHost endpoint)) := by
  obtain ⟨cs⟩ := endpoint
  have hp3 : (stringBytes (String.mk "://".data)).length = 3 := by decide
  have hp1 : (stringBytes (String.mk "/".data)).length = 1 := by decide
  have ha3 : ∀ x ∈ "://".data, x.toNat < 128 := by decide
  have ha1 : ∀ x ∈ "/".data, x.toNat < 128 := by decide
  have e3 : stringBytes "://" = stringBytes (String.mk "://".data) := rfl
  have e1 : stringBytes "/" = stringBytes (String.mk "/".data) := rfl
  have second : ∀ hs : List Char,
      (if bytesIndex (stringBytes (String.mk hs)) (stringBytes "/") ≥ 0 then
          sliceTo (stringBytes (String.mk hs)) (bytesIndex (stringBytes (String.mk hs))
            (stringBytes "/"))
        else Except.ok (stringBytes (String.mk hs))) =
      Except.ok (stringBytes (String.mk
        (if stringsIndex hs "/".data ≥ 0 then hs.take (stringsIndex hs "/".data).toNat
         else hs))) := by
    intro hs
    rw [e1]
    rcases bytesIndex_stringBytes hs "/".data (by decide) ha1 with ⟨i1, i2⟩ | ⟨k, i1, i2, _⟩
    · rw [i1, i2, if_neg (by decide), if_neg (by decide)]
    · rw [i1, i2, if_pos (by omega), if_pos (by omega)]
      have hsplit : stringBytes (String.mk hs) =
          stringBytes (String.mk (hs.take k)) ++ stringBytes (String.mk (hs.drop k)) := by
        rw [← stringBytes_append, List.take_append_drop]
      unfold sliceTo
      rw [if_pos ⟨by omega, by
        rw [hsplit, List.length_append]; push_cast; omega⟩]
      simp only [Int.toNat_ofNat]
      congr 1
      nth_rewrite 1 [hsplit]
      rw [List.take_left]
  show endpointHostBytes (stringBytes (String.mk cs)) =
    Except.ok (stringBytes (endpointHost (String.mk cs)))
  unfold endpointHostBytes endpointHost
  simp only []
  rw [e3]
  rcases bytesIndex_stringBytes cs "://".data (by decide) ha3 with ⟨i1, i2⟩ | ⟨k, i1, i2, i3⟩
  · rw [i1, i2]
    simp only [ge_iff_le, show ¬ ((0 : Int) ≤ -1) by decide, if_false]
    have := second cs
    simp only [ge_iff_le] at this
    rw [this]
  · have hlen : "://".data.length = 3 := rfl
    rw [hp3, hlen] at i3
    rw [i1, i2]
    have hge : (0 : Int) ≤ (k : Int) := by omega
    have hge2 : (0 : Int) ≤ ((stringBytes (String.mk (List.take k cs))).length : Int) := by omega
    simp only [ge_iff_le, hge, hge2, if_true]
    have hbound := bytesIndex_bound (stringBytes (String.mk cs))
      (stringBytes (String.mk "://".data)) (by rw [i2]; omega)
    rw [i2, hp3] at hbound
    simp only [Int.toNat_ofNat] at hbound
    have hslice : sliceFrom (stringBytes (String.mk cs))
        (((stringBytes (String.mk (List.take k cs))).length : Int) + 3) =
        Except.ok (stringBytes (String.mk (cs.drop (k + 3)))) := by
      unfold sliceFrom
      rw [if_pos ⟨by omega, by omega⟩]
      have : (((stringBytes (String.mk (List.take k cs))).length : Int) + 3).toNat =
          (stringBytes (String.mk (List.take k cs))).length + 3 := by omega
      rw [this, i3]
    rw [hslice]
    simp only []
    have e : ((k : Int) + 3).toNat = k + 3 := by omega
    rw [e]
    have := second (cs.drop (k + 3))
    simp only [ge_iff_le] at this
    rw [this]

/-- The checked endpoint block does what the endpoint block does. -/
theorem extractEndpointChecked_eq (w : Walk) (endpoint provider : String) :
    extractEndpointChecked w endpoint provider =
      Except.ok (extractEndpoint w endpoint provider) := by
  unfold extractEndpointChecked extractEndpoint
  by_cases hn : endpoint = ""
  · simp [hn]
  · rw [if_pos hn, if_pos hn, endpointHostBytes_eq]
    simp only [coerceUTF8_stringBytes]
    by_cases hk : (⟨"endpoint", endpointHost endpoint⟩ : componentKey) ∈ w.seen
    · simp [hk]
    · simp [hk]

/-- The checked loop body over a span does what the loop body does. -/
theorem spanStepChecked_eq (rt : Runtime) (cfg : Config) (w : Walk) (sp : rawSpan) :
    spanStepChecked rt cfg w sp = Except.ok (spanStep rt cfg w sp) := by
  unfold spanStepChecked spanStep
  simp only [getStrChecked_eq, bind, Except.bind, extractEndpointChecked_eq]

/-- The checked pass returns the inventory of the pass: no dereference meets a
nil pointer and no slice expression is out of bounds, whatever the export
holds. -/
theorem collectChecked_eq (rt : Runtime) (xp : otlpExport) (appName : ByteString)
    (cfg : Config) :
    collectChecked rt xp appName cfg = Except.ok (collect rt xp appName cfg) := by
  have hspans : ∀ (w : Walk) (sps : List rawSpan),
      loopChecked (spanStepChecked rt cfg) w sps = Except.ok (sps.foldl (spanStep rt cfg) w) :=
    fun w sps => loopChecked_eq _ _ (spanStepChecked_eq rt cfg) w sps
  have hscopes : ∀ (w : Walk) (sss : List scopeSpan),
      scopeSpansLoopChecked rt cfg w sss = Except.ok (scopeSpansLoop rt cfg w sss) := by
    intro w sss
    unfold scopeSpansLoopChecked scopeSpansLoop
    exact loopChecked_eq _ _ (fun w ss => by
      simp only [scopeStepChecked_eq, hspans]) w sss
  have hres : ∀ (w : Walk) (rss : List resourceSpan),
      resourceSpansLoopChecked rt cfg w rss = Except.ok (resourceSpansLoop rt cfg w rss) := by
    intro w rss
    unfold resourceSpansLoopChecked resourceSpansLoop
    exact loopChecked_eq _ _ (fun w rs => hscopes w rs.ScopeSpans) w rss
  unfold collectChecked collect
  rw [hres]

/-- C12. `CollectFromJSON` fails iff parsing the input bytes fails. A failed
parse returns the wrapped error and no inventory. After a successful parse
the aggregation pass, taken with every check of the Go runtime as a step that
can panic (the dereference of `StringValue` and of `Scope`, the two slice
expressions of the endpoint block on the bytes of the string), returns the
inventory and neither an error nor a panic, whatever the export holds:
the dereferences sit behind their nil tests, the slice bounds found by
`strings.Index` are in range for every byte string, and on the bytes of a
text the slices cut out the host that `endpointHost` computes. The result is
the one of `CollectFromJSON` as used elsewhere. -/
theorem CollectFromJSON_fails_iff (unmarshal : List Nat → Except String otlpExport)
    (rt : Runtime) (data : List Nat) (appName : ByteString) (cfg : Config) :
    (∀ err, unmarshal data = Except.error err →
      CollectFromJSONChecked unmarshal rt data appName cfg =
        Except.error (Fault.err ("parse OTLP: " ++ err))) ∧
    (∀ xp, unmarshal data = Except.ok xp →
      CollectFromJSONChecked unmarshal rt data appName cfg =
        Except.ok (collect rt xp appName cfg)) ∧
    ((∃ f, CollectFromJSONChecked unmarshal rt data appName cfg = Except.error f) ↔
      ∃ err, unmarshal data = Except.error err) ∧
    (∀ msg, CollectFromJSONChecked unmarshal rt data appName cfg ≠
      Except.error (Fault.runtimePanic msg)) ∧
    (∀ xp : otlpExport, collectChecked rt xp appName cfg =
      Except.ok (collect rt xp appName cfg)) ∧
    (∀ (attrs : List kv) (cands : List String),
      getStrChecked attrs cands = Except.ok (getStr attrs cands)) ∧
    (∀ (w : Walk) (ss : scopeSpan), scopeStepChecked w ss = Except.ok (scopeStep w ss)) ∧
    (∀ (w : Walk) (sp : rawSpan),
      spanStepChecked rt cfg w sp = Except.ok (spanStep rt cfg w sp)) ∧
    (∀ e : ByteString, ∃ host, endpointHostBytes e = Except.ok host) ∧
    (∀ endpoint : String, endpointHostBytes (stringBytes endpoint) =
      Except.ok (stringBytes (endpointHost endpoint))) ∧
    (∀ b, CollectFromJSON unmarshal rt data appName cfg = Except.ok b ↔
      CollectFromJSONChecked unmarshal rt data appName cfg = Except.ok b) ∧
    (∀ m, CollectFromJSON unmarshal rt data appName cfg = Except.error m ↔
      CollectFromJSONChecked unmarshal rt data appName cfg = Except.error (Fault.err m)) := by
  refine ⟨?_, ?_, ?_, ?_, fun xp => collectChecked_eq rt xp appName cfg, getStrChecked_eq,
    scopeStepChecked_eq, spanStepChecked_eq rt cfg, endpointHostBytes_ok,
    endpointHostBytes_eq, ?_, ?_⟩
  · intro err h; unfold CollectFromJSONChecked; rw [h]
  · intro xp h; unfold CollectFromJSONChecked; rw [h]; exact collectChecked_eq rt xp appName cfg
  · unfold CollectFromJSONChecked
    cases h : unmarshal data with
    | error e => simp
    | ok xp => simp [collectChecked_eq]
  · intro msg
    unfold CollectFromJSONChecked
    cases h : unmarshal data with
    | error e => simp
    | ok xp => simp [collectChecked_eq]
  · intro b
    unfold CollectFromJSON CollectFromJSONChecked
    cases h : unmarshal data with
    | error e => simp
    | ok xp => simp [collectChecked_eq]
  · intro m
    unfold CollectFromJSON CollectFromJSONChecked
    cases h : unmarshal data with
    | error e => simp
    | ok xp => simp [collectChecked_eq]

/-- Witness of C12: the empty input fails to parse and gives the wrapped
error; the text of `anomalyTrace` parses, and the pass returns its inventory:
no Component, the two Services (hosts "münchen.example" and ""), two spans
counted and no window. -/
theorem CollectFromJSON_fails_iff_witness :
    CollectFromJSONChecked unmarshalAnomalyTrace utcRuntime [] (stringBytes "test")
        DefaultConfig =
      Except.error (Fault.err ("parse OTLP: " ++ "unexpected end of JSON input")) ∧
    CollectFromJSONChecked unmarshalAnomalyTrace utcRuntime anomalyTraceJSON
        (stringBytes "test") DefaultConfig =
      Except.ok (collect utcRuntime anomalyTrace (stringBytes "test") DefaultConfig) ∧
    (collect utcRuntime anomalyTrace (stringBytes "test") DefaultConfig).Components = [] ∧
    (collect utcRuntime anomalyTrace (stringBytes "test") DefaultConfig).Services =
      [{ Name := "münchen.example", Endpoint := "https://münchen.example/ü", Provider := "" },
       { Name := "", Endpoint := "://", Provider := "" }] ∧
    (collect utcRuntime anomalyTrace (stringBytes "test") DefaultConfig).Evidence.SpanCount = 2 ∧
    (collect utcRuntime anomalyTrace (stringBytes "test") DefaultConfig).Evidence.Window = none ∧
    endpointHostBytes (stringBytes "https://münchen.example/ü") =
      Except.ok (stringBytes "münchen.example") :=
  ⟨(CollectFromJSON_fails_iff unmarshalAnomalyTrace utcRuntime [] (stringBytes "test")
      DefaultConfig).1 "unexpected end of JSON input" (if_neg (by decide)),
   (CollectFromJSON_fails_iff unmarshalAnomalyTrace utcRuntime anomalyTraceJSON
      (stringBytes "test") DefaultConfig).2.1 anomalyTrace (if_pos rfl),
   by decide!, by decide!, by decide!, by decide!, by rfl⟩

end Aibom
